import Mathlib

/-!
NNUE feature indexing and evaluation blend of YaneuraOu (KazApps fork).

A shallow embedding of

* `eval/nnue/features/half_ka_v2_hm.{h,cpp}` (feature scheme HalfKAv2_hm),
* `eval/nnue/features/half_kp.cpp` (feature scheme HalfKP),
* `eval/nnue/evaluate_nnue.cpp` (`Eval::evaluate`),

followed by the properties proved about them.

Conventions of the embedding.

* `Square`, `Piece`, `File` are machine `int` enums; they are embedded as `Nat`.
* `IndexType` is `std::uint32_t`; a value of that type is a `Nat` reduced modulo `2^32`.
* `IndexList` (`ValueList<IndexType, MaxActiveDimensions>`) is a `List Nat`; `push_back x`
  is `l ++ [x]`.
* A `Bitboard` is the predicate "square is in the set"; `while (bb) { s = bb.pop(); ... }`
  visits the squares of the set in increasing order.
* Template parameter `Perspective` is an ordinary argument of type `Color`.
-/

namespace YaneuraOu

/-! ## Basic types (`types.h`, not among the sources) -/

/-- Modelled from the spec: `enum Color { BLACK, WHITE, COLOR_NB }` of `types.h`; BLACK is the
reference colour. -/
inductive Color where
  | BLACK
  | WHITE
  deriving DecidableEq, Repr

/-- The numeric value of a colour (`BLACK = 0`, `WHITE = 1`). -/
def Color.toNat : Color → Nat
  | .BLACK => 0
  | .WHITE => 1

/-- Modelled from the spec: `operator~(Color)`, the opposing colour. -/
def Color.flip : Color → Color
  | .BLACK => .WHITE
  | .WHITE => .BLACK

/-- Modelled from the spec: number of squares, `SQ_NB`; also the "none" square of a diff. -/
def SQ_NB : Nat := 81

/-- Modelled from the spec: number of files, `FILE_NB`. -/
def FILE_NB : Nat := 9

/-- Modelled from the spec: `FILE_4` (files are numbered `FILE_1 = 0 .. FILE_9 = 8`). -/
def FILE_4 : Nat := 3

/-- Modelled from the spec: `FILE_6`. -/
def FILE_6 : Nat := 5

/-- Modelled from the spec: number of piece codes, `PIECE_NB`. -/
def PIECE_NB : Nat := 32

/-- Modelled from the spec: the empty-square piece code `NO_PIECE`. -/
def NO_PIECE : Nat := 0

/-- Modelled from the spec: piece type `KING` (piece codes are `colour * 16 + type`, the
types in the order of the rows of `PieceSquareIndex`). -/
def KING : Nat := 8

/-- Modelled from the spec: `file_of(s)`; squares are numbered `file * 9 + rank`. -/
def file_of (s : Nat) : Nat := s / 9

/-- Modelled from the spec: `rank_of(s)`. -/
def rank_of (s : Nat) : Nat := s % 9

/-- Modelled from the spec: `Flip(s) = SQ_NB - 1 - s`, the 180 degree rotation. -/
def Flip (s : Nat) : Nat := SQ_NB - 1 - s

/-- Modelled from the spec: `horizontal_flip(s)` mirrors the file and keeps the rank. -/
def horizontal_flip (s : Nat) : Nat := (FILE_NB - 1 - file_of s) * 9 + rank_of s

/-- Modelled from the spec: `make_piece(c, pt) = (c << 4) + pt`. -/
def make_piece (c : Color) (pt : Nat) : Nat := c.toNat * 16 + pt

/-- Modelled from the spec: `type_of(pc) = pc & 15`. -/
def type_of (pc : Nat) : Nat := pc % 16

/-- Modelled from the spec: `color_of(pc)`, bit 4 of the piece code. -/
def color_of (pc : Nat) : Color := if pc / 16 % 2 = 0 then .BLACK else .WHITE

/-- Modelled from the spec: `make_promoted_piece(pc) = pc | PIECE_PROMOTE` with
`PIECE_PROMOTE = 8`. -/
def make_promoted_piece (pc : Nat) : Nat := pc ||| 8

/-- Conversion of an `int` expression to `IndexType` (`std::uint32_t`). -/
def IndexType (x : Int) : Nat := (x % 4294967296).toNat

/-! ## Position and DirtyPiece (`position.h`, not among the sources) -/

/-- Modelled from the spec: the part of `Position` the feature sets read: the piece on each
square (`piece_on`), the captured-piece bitmask (`hand_bits`, a `u64`) and the stored
king square of each colour (`king_square`). -/
structure Position where
  piece_on : Nat → Nat
  hand_bits : Nat
  king_square : Color → Nat

/-- Modelled from the spec: `Position::pieces()`, the bitboard of occupied squares. -/
def Position.pieces (pos : Position) : Nat → Bool :=
  fun s => pos.piece_on s != NO_PIECE

/-- Modelled from the spec: `Position::pieces(PieceType)`, the bitboard of the squares
holding a piece of the given type, of either colour. -/
def Position.pieces_of (pos : Position) (pt : Nat) : Nat → Bool :=
  fun s => pos.piece_on s != NO_PIECE && type_of (pos.piece_on s) == pt

/-- The squares a `while (bb) { s = bb.pop(); ... }` loop visits, in order. -/
def pop_squares (bb : Nat → Bool) : List Nat :=
  (List.range SQ_NB).filter bb

/-- The bit numbers a `while (bits) pop_lsb(bits)` loop over a `u64` visits, in order. -/
def pop_bits (bits : Nat) : List Nat :=
  (List.range 64).filter (fun b => bits.testBit b)

/-- Modelled from the spec: `DirtyPiece`, the diff of a move: per entry the piece, its origin
`from`, its destination `to` (`SQ_NB` for none) and hand slot `hand_bit` (`-1` for none); the
number of entries `dirty_num` and the `promote` flag of the move. -/
structure DirtyPiece where
  piece : Nat → Nat
  from_ : Nat → Nat
  to_ : Nat → Nat
  hand_bit : Nat → Int
  dirty_num : Nat
  promote : Bool

/-- Modelled from the spec: the part of `StateInfo` read here, its `dirtyPiece`. -/
structure StateInfo where
  dirtyPiece : DirtyPiece

/-! ## HalfKAv2_hm (`half_ka_v2_hm.h`, `half_ka_v2_hm.cpp`) -/

namespace HalfKAv2_hm

def PS_NONE : Nat := 0
def PS_B_PAWN : Nat := 0
def PS_W_PAWN : Nat := 1 * SQ_NB
def PS_B_LANCE : Nat := 2 * SQ_NB
def PS_W_LANCE : Nat := 3 * SQ_NB
def PS_B_KNIGHT : Nat := 4 * SQ_NB
def PS_W_KNIGHT : Nat := 5 * SQ_NB
def PS_B_SILVER : Nat := 6 * SQ_NB
def PS_W_SILVER : Nat := 7 * SQ_NB
def PS_B_GOLD : Nat := 8 * SQ_NB
def PS_W_GOLD : Nat := 9 * SQ_NB
def PS_B_BISHOP : Nat := 10 * SQ_NB
def PS_W_BISHOP : Nat := 11 * SQ_NB
def PS_B_ROOK : Nat := 12 * SQ_NB
def PS_W_ROOK : Nat := 13 * SQ_NB
def PS_B_PRO_PAWN : Nat := 14 * SQ_NB
def PS_W_PRO_PAWN : Nat := 15 * SQ_NB
def PS_B_PRO_LANCE : Nat := 16 * SQ_NB
def PS_W_PRO_LANCE : Nat := 17 * SQ_NB
def PS_B_PRO_KNIGHT : Nat := 18 * SQ_NB
def PS_W_PRO_KNIGHT : Nat := 19 * SQ_NB
def PS_B_PRO_SILVER : Nat := 20 * SQ_NB
def PS_W_PRO_SILVER : Nat := 21 * SQ_NB
def PS_B_HORSE : Nat := 22 * SQ_NB
def PS_W_HORSE : Nat := 23 * SQ_NB
def PS_B_DRAGON : Nat := 24 * SQ_NB
def PS_W_DRAGON : Nat := 25 * SQ_NB
def PS_KING : Nat := 26 * SQ_NB
def PS_NB : Nat := 27 * SQ_NB

/-- Row `PieceSquareIndex[BLACK]`. -/
def PieceSquareIndex_BLACK : List Nat :=
  [ PS_NONE, PS_B_PAWN, PS_B_LANCE, PS_B_KNIGHT, PS_B_SILVER, PS_B_BISHOP, PS_B_ROOK, PS_B_GOLD,
    PS_KING, PS_B_PRO_PAWN, PS_B_PRO_LANCE, PS_B_PRO_KNIGHT, PS_B_PRO_SILVER, PS_B_HORSE,
    PS_B_DRAGON, PS_NONE,
    PS_NONE, PS_W_PAWN, PS_W_LANCE, PS_W_KNIGHT, PS_W_SILVER, PS_W_BISHOP, PS_W_ROOK, PS_W_GOLD,
    PS_KING, PS_W_PRO_PAWN, PS_W_PRO_LANCE, PS_W_PRO_KNIGHT, PS_W_PRO_SILVER, PS_W_HORSE,
    PS_W_DRAGON, PS_NONE ]

/-- Row `PieceSquareIndex[WHITE]`. -/
def PieceSquareIndex_WHITE : List Nat :=
  [ PS_NONE, PS_W_PAWN, PS_W_LANCE, PS_W_KNIGHT, PS_W_SILVER, PS_W_BISHOP, PS_W_ROOK, PS_W_GOLD,
    PS_KING, PS_W_PRO_PAWN, PS_W_PRO_LANCE, PS_W_PRO_KNIGHT, PS_W_PRO_SILVER, PS_W_HORSE,
    PS_W_DRAGON, PS_NONE,
    PS_NONE, PS_B_PAWN, PS_B_LANCE, PS_B_KNIGHT, PS_B_SILVER, PS_B_BISHOP, PS_B_ROOK, PS_B_GOLD,
    PS_KING, PS_B_PRO_PAWN, PS_B_PRO_LANCE, PS_B_PRO_KNIGHT, PS_B_PRO_SILVER, PS_B_HORSE,
    PS_B_DRAGON, PS_NONE ]

/-- The table `PieceSquareIndex[COLOR_NB][PIECE_NB]`. -/
def PieceSquareIndex (perspective : Color) (pc : Nat) : Nat :=
  match perspective with
  | .BLACK => PieceSquareIndex_BLACK.getD pc 0
  | .WHITE => PieceSquareIndex_WHITE.getD pc 0

/-- Number of feature dimensions. -/
def Dimensions : Nat := FILE_NB * 5 * (PS_NB + 64)

/-- The macro `B(v)`. -/
def B (v : Nat) : Nat := v * (PS_NB + 64)

/-- Row `KingBuckets[BLACK]`. -/
def KingBuckets_BLACK : List Nat :=
  [ B  0, B  1, B  2, B  3, B  4, B  5, B  6, B  7, B  8,
    B  9, B 10, B 11, B 12, B 13, B 14, B 15, B 16, B 17,
    B 18, B 19, B 20, B 21, B 22, B 23, B 24, B 25, B 26,
    B 27, B 28, B 29, B 30, B 31, B 32, B 33, B 34, B 35,
    B 36, B 37, B 38, B 39, B 40, B 41, B 42, B 43, B 44,
    B 27, B 28, B 29, B 30, B 31, B 32, B 33, B 34, B 35,
    B 18, B 19, B 20, B 21, B 22, B 23, B 24, B 25, B 26,
    B  9, B 10, B 11, B 12, B 13, B 14, B 15, B 16, B 17,
    B  0, B  1, B  2, B  3, B  4, B  5, B  6, B  7, B  8 ]

/-- Row `KingBuckets[WHITE]`. -/
def KingBuckets_WHITE : List Nat :=
  [ B  8, B  7, B  6, B  5, B  4, B  3, B  2, B  1, B  0,
    B 17, B 16, B 15, B 14, B 13, B 12, B 11, B 10, B  9,
    B 26, B 25, B 24, B 23, B 22, B 21, B 20, B 19, B 18,
    B 35, B 34, B 33, B 32, B 31, B 30, B 29, B 28, B 27,
    B 44, B 43, B 42, B 41, B 40, B 39, B 38, B 37, B 36,
    B 35, B 34, B 33, B 32, B 31, B 30, B 29, B 28, B 27,
    B 26, B 25, B 24, B 23, B 22, B 21, B 20, B 19, B 18,
    B 17, B 16, B 15, B 14, B 13, B 12, B 11, B 10, B  9,
    B  8, B  7, B  6, B  5, B  4, B  3, B  2, B  1, B  0 ]

/-- The table `KingBuckets[COLOR_NB][SQ_NB]`. -/
def KingBuckets (perspective : Color) (ksq : Nat) : Nat :=
  match perspective with
  | .BLACK => KingBuckets_BLACK.getD ksq 0
  | .WHITE => KingBuckets_WHITE.getD ksq 0

/-- Maximum number of simultaneously active features. -/
def MaxActiveDimensions : Nat := 40

/-- The overload `orient<Perspective>(Square s, Square ksq)`. -/
def orient (perspective : Color) (s ksq : Nat) : Nat :=
  match perspective with
  | .BLACK => if file_of ksq ≤ FILE_4 then horizontal_flip s else s
  | .WHITE =>
    let s := Flip s
    if file_of ksq ≥ FILE_6 then horizontal_flip s else s

/-- The overload `orient<Perspective>(int bit)`. -/
def orient_bit (perspective : Color) (bit : Int) : Nat :=
  IndexType (if perspective = .BLACK then bit else bit + 32 - 64 * (if bit ≥ 32 then 1 else 0))

/-- Index of a feature for a given king position and another piece on some square. -/
def make_board_index (perspective : Color) (s pc ksq : Nat) : Nat :=
  IndexType (orient perspective s ksq + PieceSquareIndex perspective pc
    + KingBuckets perspective ksq : Nat)

/-- Index of a feature for a given king position and a hand slot. -/
def make_hand_index (perspective : Color) (bit : Int) (ksq : Nat) : Nat :=
  IndexType (orient_bit perspective bit + PS_NB + KingBuckets perspective ksq : Nat)

/-- Get a list of indices for active features. -/
def append_active_indices (perspective : Color) (pos : Position) (active : List Nat) :
    List Nat :=
  let ksq := pos.king_square perspective
  let bb := pos.pieces
  let hand_bits := pos.hand_bits
  let active := (pop_squares bb).foldl
    (fun acc (s : Nat) => acc ++ [make_board_index perspective s (pos.piece_on s) ksq]) active
  (pop_bits hand_bits).foldl
    (fun acc (b : Nat) => acc ++ [make_hand_index perspective (b : Int) ksq]) active

/-- One iteration of the loop of `append_changed_indices`, for entry `i`; the state is the
pair `(removed, added)`. -/
def changed_step (perspective : Color) (ksq : Nat) (dp : DirtyPiece)
    (ra : List Nat × List Nat) (i : Nat) : List Nat × List Nat :=
  let removed :=
    if dp.from_ i = SQ_NB ∧ dp.hand_bit i ≠ -1 then
      ra.1 ++ [make_hand_index perspective (dp.hand_bit i) ksq]
    else
      ra.1 ++ [make_board_index perspective (dp.from_ i) (dp.piece i) ksq]
  let added :=
    if dp.to_ i = SQ_NB ∧ dp.hand_bit i ≠ -1 then
      ra.2 ++ [make_hand_index perspective (dp.hand_bit i) ksq]
    else if dp.promote then
      ra.2 ++ [make_board_index perspective (dp.to_ i) (make_promoted_piece (dp.piece i)) ksq]
    else
      ra.2 ++ [make_board_index perspective (dp.to_ i) (dp.piece i) ksq]
  (removed, added)

/-- Get a list of indices for recently changed features; returns `(removed, added)`. -/
def append_changed_indices (perspective : Color) (ksq : Nat) (dp : DirtyPiece)
    (removed added : List Nat) : List Nat × List Nat :=
  (List.range dp.dirty_num).foldl (changed_step perspective ksq dp) (removed, added)

/-- Returns whether the change stored in this StateInfo means that a full accumulator
refresh is required. -/
def requires_refresh (st : StateInfo) (perspective : Color) : Bool :=
  st.dirtyPiece.piece 0 == make_piece perspective KING

end HalfKAv2_hm

/-! ## HalfKP (`half_kp.cpp`; the header `half_kp.h` is not among the sources) -/

namespace HalfKP

/-- Modelled from the spec: the declarations of `half_kp.h` that `half_kp.cpp` reads, namely the
table `PieceSquareIndex[COLOR_NB][PIECE_NB]` and the constants `PS_NB` and `NumPlanes`. Their
values are not fixed here; every statement below holds for all of them. -/
structure Tables where
  PieceSquareIndex : Color → Nat → Nat
  PS_NB : Nat
  NumPlanes : Nat

/-- The overload `orient<Perspective>(Square s)`. -/
def orient (perspective : Color) (s : Nat) : Nat :=
  IndexType (if perspective = .BLACK then s else Flip s : Nat)

/-- The overload `orient<Perspective>(int bit)`. -/
def orient_bit (perspective : Color) (bit : Int) : Nat :=
  IndexType (if perspective = .BLACK then bit else bit + 32 - 64 * (if bit ≥ 32 then 1 else 0))

/-- Index of a feature for a given king position and another piece on some square. -/
def make_board_index (T : Tables) (perspective : Color) (s pc ksq : Nat) : Nat :=
  IndexType (1 + orient perspective s + T.PieceSquareIndex perspective pc
    + orient perspective ksq * T.NumPlanes : Nat)

/-- Index of a feature for a given king position and a hand slot. -/
def make_hand_index (T : Tables) (perspective : Color) (bit : Int) (ksq : Nat) : Nat :=
  IndexType (1 + orient_bit perspective bit + T.PS_NB
    + orient perspective ksq * T.NumPlanes : Nat)

/-- Get a list of indices for active features. -/
def append_active_indices (T : Tables) (perspective : Color) (pos : Position)
    (active : List Nat) : List Nat :=
  let ksq := pos.king_square perspective
  let bb : Nat → Bool := fun s => pos.pieces s && !(pos.pieces_of KING s)
  let hand_bits := pos.hand_bits
  let active := (pop_squares bb).foldl
    (fun acc (s : Nat) => acc ++ [make_board_index T perspective s (pos.piece_on s) ksq]) active
  (pop_bits hand_bits).foldl
    (fun acc (b : Nat) => acc ++ [make_hand_index T perspective (b : Int) ksq]) active

/-- One iteration of the loop of `append_changed_indices`, for entry `i`; the state is the
pair `(removed, added)`. -/
def changed_step (T : Tables) (perspective : Color) (ksq : Nat) (dp : DirtyPiece)
    (ra : List Nat × List Nat) (i : Nat) : List Nat × List Nat :=
  if type_of (dp.piece i) = KING then
    ra
  else
    let removed :=
      if dp.from_ i = SQ_NB ∧ dp.hand_bit i ≠ -1 then
        ra.1 ++ [make_hand_index T perspective (dp.hand_bit i) ksq]
      else
        ra.1 ++ [make_board_index T perspective (dp.from_ i) (dp.piece i) ksq]
    let added :=
      if dp.to_ i = SQ_NB ∧ dp.hand_bit i ≠ -1 then
        ra.2 ++ [make_hand_index T perspective (dp.hand_bit i) ksq]
      else if dp.promote then
        ra.2 ++ [make_board_index T perspective (dp.to_ i) (make_promoted_piece (dp.piece i)) ksq]
      else
        ra.2 ++ [make_board_index T perspective (dp.to_ i) (dp.piece i) ksq]
    (removed, added)

/-- Get a list of indices for recently changed features; returns `(removed, added)`. -/
def append_changed_indices (T : Tables) (perspective : Color) (ksq : Nat) (dp : DirtyPiece)
    (removed added : List Nat) : List Nat × List Nat :=
  (List.range dp.dirty_num).foldl (changed_step T perspective ksq dp) (removed, added)

/-- Returns whether the change stored in this StateInfo means that a full accumulator
refresh is required. -/
def requires_refresh (st : StateInfo) (perspective : Color) : Bool :=
  st.dirtyPiece.piece 0 == make_piece perspective KING

end HalfKP

/-! ## The evaluation blend (`evaluate_nnue.cpp`) -/

namespace Eval

/-- The value of an `int` expression: the mathematical result reduced to the 32-bit
two's-complement range. -/
def int32 (x : Int) : Int := (x + 2147483648) % 4294967296 - 2147483648

/-- The function `std::clamp(v, lo, hi)`. -/
def std_clamp (v lo hi : Int) : Int :=
  if v < lo then lo else if hi < v then hi else v

/-- The function `std::abs(int)`. -/
def std_abs (x : Int) : Int := int32 (if x < 0 then -x else x)

/-- The evaluator for the outer world, applied to the pair `(psqt, positional)` that
`NNUE::network.evaluate` returned. `USE_OPTIMISM` says whether that preprocessor symbol is
defined; `VALUE_TB_LOSS_IN_MAX_PLY` and `VALUE_TB_WIN_IN_MAX_PLY` are the constants of
`types.h`. `/` of the program is `Int.tdiv` (truncation toward zero). -/
def evaluate (USE_OPTIMISM : Bool) (VALUE_TB_LOSS_IN_MAX_PLY VALUE_TB_WIN_IN_MAX_PLY : Int)
    (psqt positional optimism : Int) : Int :=
  let nnue := int32 (Int.tdiv (int32 (int32 (125 * psqt) + int32 (131 * positional))) 128)
  let nnueComplexity := std_abs (int32 (psqt - positional))
  let optimism := int32 (optimism + int32 (Int.tdiv (int32 (optimism * nnueComplexity)) 468))
  let nnue := int32 (nnue - int32 (Int.tdiv (int32 (nnue * nnueComplexity)) 18000))
  let v := if USE_OPTIMISM then int32 (nnue + optimism) else nnue
  std_clamp v (int32 (VALUE_TB_LOSS_IN_MAX_PLY + 1)) (int32 (VALUE_TB_WIN_IN_MAX_PLY - 1))

end Eval


/-! ## Sample positions and diffs -/

/-- The board holding the listed `(square, piece)` pairs and nothing else. -/
def board_of (l : List (Nat × Nat)) : Nat → Nat :=
  fun s => (l.lookup s).getD NO_PIECE

/-- A position with the black king on square 44, the white king on square 36, a black pawn
on 42, a white pawn on 38, a white rook on 10, and hand bits 0 and 2 set. -/
def sample_pos : Position where
  piece_on := board_of [(44, 8), (36, 24), (42, 1), (38, 17), (10, 22)]
  hand_bits := 5
  king_square := fun c => match c with
    | .BLACK => 44
    | .WHITE => 36

/-- A diff with the given entries `(piece, from, to, hand_bit)` and promote flag. -/
def diff_of (l : List (Nat × Nat × Nat × Int)) (promote : Bool) : DirtyPiece where
  piece := fun i => (l.getD i (0, 0, 0, 0)).1
  from_ := fun i => (l.getD i (0, 0, 0, 0)).2.1
  to_ := fun i => (l.getD i (0, 0, 0, 0)).2.2.1
  hand_bit := fun i => (l.getD i (0, 0, 0, 0)).2.2.2
  dirty_num := l.length
  promote := promote

/-- Tables for HalfKP used in examples: the piece planes of HalfKAv2_hm, 1548 planes per king
square. -/
def sample_tables : HalfKP.Tables where
  PieceSquareIndex := HalfKAv2_hm.PieceSquareIndex
  PS_NB := 1548
  NumPlanes := 1613

/-- The position `sample_pos` with an empty hand: five occupied squares, two of them kings. -/
def sample_pos_empty_hand : Position :=
  { sample_pos with hand_bits := 0 }

/-! ## The blend as the specification states it -/

namespace Eval

/-- The specification of the blend, over the integers: `n = (125*psqt + 131*positional)/128`,
`c = |psqt - positional|`, `o2 = optimism + optimism*c/468`, `n2 = n - n*c/18000`, and the
result is `n2 + o2` (or `n2` when the optimism term is disabled) clamped to
`[VALUE_TB_LOSS_IN_MAX_PLY + 1, VALUE_TB_WIN_IN_MAX_PLY - 1]`; `/` is the program's `int`
division `Int.tdiv`. -/
def blend_spec (USE_OPTIMISM : Bool) (VALUE_TB_LOSS_IN_MAX_PLY VALUE_TB_WIN_IN_MAX_PLY : Int)
    (psqt positional optimism : Int) : Int :=
  let n := Int.tdiv (125 * psqt + 131 * positional) 128
  let c := |psqt - positional|
  let o2 := optimism + Int.tdiv (optimism * c) 468
  let n2 := n - Int.tdiv (n * c) 18000
  std_clamp (if USE_OPTIMISM then n2 + o2 else n2)
    (VALUE_TB_LOSS_IN_MAX_PLY + 1) (VALUE_TB_WIN_IN_MAX_PLY - 1)

/-- The integer `x` is representable as a 32-bit `int`. -/
def in_int32 (x : Int) : Prop := -2147483648 ≤ x ∧ x < 2147483648

/-- No operation of `Eval::evaluate` overflows 32-bit `int` arithmetic: the inputs, the
clamp bounds and every intermediate result of the blend are representable (the optimism
terms only when they enter the result). -/
def no_overflow (USE_OPTIMISM : Bool) (VALUE_TB_LOSS_IN_MAX_PLY VALUE_TB_WIN_IN_MAX_PLY : Int)
    (psqt positional optimism : Int) : Prop :=
  let n := Int.tdiv (125 * psqt + 131 * positional) 128
  let c := |psqt - positional|
  let o2 := optimism + Int.tdiv (optimism * c) 468
  let n2 := n - Int.tdiv (n * c) 18000
  in_int32 (VALUE_TB_LOSS_IN_MAX_PLY + 1) ∧ in_int32 (VALUE_TB_WIN_IN_MAX_PLY - 1) ∧
  in_int32 (125 * psqt) ∧ in_int32 (131 * positional) ∧
  in_int32 (125 * psqt + 131 * positional) ∧
  in_int32 (psqt - positional) ∧ in_int32 c ∧
  in_int32 (n * c) ∧ in_int32 n2 ∧
  (USE_OPTIMISM = true → in_int32 (optimism * c) ∧ in_int32 o2 ∧ in_int32 (n2 + o2))

end Eval

/-! ## The position reached by a move, read off its diff (`Position::do_move` is not among
the sources) -/

/-- Modelled from the spec: the placed piece of a diff entry, the promoted piece when the
move promotes. -/
def DirtyPiece.placed (dp : DirtyPiece) (i : Nat) : Nat :=
  if dp.promote then make_promoted_piece (dp.piece i) else dp.piece i

/-- Modelled from the spec: a diff entry carries a piece code below `PIECE_NB` with a piece
type (not the type of `NO_PIECE`). -/
def DirtyPiece.is_piece (dp : DirtyPiece) (i : Nat) : Prop :=
  dp.piece i < PIECE_NB ∧ type_of (dp.piece i) ≠ 0

instance (dp : DirtyPiece) (i : Nat) : Decidable (dp.is_piece i) :=
  inferInstanceAs (Decidable (_ ∧ _))

/-- Modelled from the spec: the diff "describes exactly what changed"; here the origin of
entry `i` is taken out of the position. With `from == SQ_NB` and a hand slot the piece leaves
the hand (its bit must be set, and a king is never in hand); otherwise it leaves the board
square `from`, which must hold exactly that piece. `none` when the entry does not fit. -/
def remove_origin (dp : DirtyPiece) (pos : Position) (i : Nat) : Option Position :=
  if dp.from_ i = SQ_NB ∧ dp.hand_bit i ≠ -1 then
    if dp.is_piece i ∧ type_of (dp.piece i) ≠ KING ∧ 0 ≤ dp.hand_bit i ∧ dp.hand_bit i < 64 ∧
        pos.hand_bits.testBit (dp.hand_bit i).toNat = true then
      some { pos with hand_bits := pos.hand_bits ^^^ (1 <<< (dp.hand_bit i).toNat) }
    else none
  else
    if dp.is_piece i ∧ dp.from_ i < SQ_NB ∧ pos.piece_on (dp.from_ i) = dp.piece i then
      some { pos with piece_on := fun s => if s = dp.from_ i then NO_PIECE else pos.piece_on s }
    else none

/-- Modelled from the spec: the destination of entry `i` is put into the position. With
`to == SQ_NB` and a hand slot the piece enters the hand (its bit must be clear, and a king is
never captured); otherwise the piece, promoted when the move promotes, is put on the board
square `to`, which must be empty, and a king placed there becomes the stored king square of
its colour. `none` when the entry does not fit. -/
def place_destination (dp : DirtyPiece) (pos : Position) (i : Nat) : Option Position :=
  if dp.to_ i = SQ_NB ∧ dp.hand_bit i ≠ -1 then
    if dp.is_piece i ∧ type_of (dp.piece i) ≠ KING ∧ 0 ≤ dp.hand_bit i ∧ dp.hand_bit i < 64 ∧
        pos.hand_bits.testBit (dp.hand_bit i).toNat = false then
      some { pos with hand_bits := pos.hand_bits ^^^ (1 <<< (dp.hand_bit i).toNat) }
    else none
  else
    if dp.is_piece i ∧ dp.to_ i < SQ_NB ∧ pos.piece_on (dp.to_ i) = NO_PIECE then
      some { pos with
        piece_on := fun s => if s = dp.to_ i then dp.placed i else pos.piece_on s
        king_square := fun c =>
          if type_of (dp.placed i) = KING ∧ color_of (dp.placed i) = c then dp.to_ i
          else pos.king_square c }
    else none

/-- Modelled from the spec: the position a move leads to, given the position before it and
the diff of the move: all origins of the diff are taken out, then all destinations are put
in. `none` when the diff does not describe a change of this position. -/
def apply_diff (pos : Position) (dp : DirtyPiece) : Option Position :=
  ((List.range dp.dirty_num).foldlM (remove_origin dp) pos).bind
    (fun q => (List.range dp.dirty_num).foldlM (place_destination dp) q)

namespace HalfKAv2_hm

/-- The indices entry `i` of a diff appends to `removed` in `append_changed_indices`. -/
def removed_of (perspective : Color) (ksq : Nat) (dp : DirtyPiece) (i : Nat) : List Nat :=
  (changed_step perspective ksq dp ([], []) i).1

/-- The indices entry `i` of a diff appends to `added` in `append_changed_indices`. -/
def added_of (perspective : Color) (ksq : Nat) (dp : DirtyPiece) (i : Nat) : List Nat :=
  (changed_step perspective ksq dp ([], []) i).2

end HalfKAv2_hm

namespace HalfKP

/-- The indices entry `i` of a diff appends to `removed` in `append_changed_indices`. -/
def removed_of (T : Tables) (perspective : Color) (ksq : Nat) (dp : DirtyPiece) (i : Nat) :
    List Nat :=
  (changed_step T perspective ksq dp ([], []) i).1

/-- The indices entry `i` of a diff appends to `added` in `append_changed_indices`. -/
def added_of (T : Tables) (perspective : Color) (ksq : Nat) (dp : DirtyPiece) (i : Nat) :
    List Nat :=
  (changed_step T perspective ksq dp ([], []) i).2

end HalfKP

/-- A capture: the black pawn of `sample_pos` on 42 takes the white pawn on 38, which goes to
hand slot 1. -/
def sample_capture : DirtyPiece :=
  diff_of [(1, 42, 38, -1), (17, 38, 81, 1)] false

/-- The position after `sample_capture` in `sample_pos`. -/
def sample_pos_after : Position :=
  (apply_diff sample_pos sample_capture).getD sample_pos

namespace HalfKAv2_hm

/-- The indices `append_active_indices` emits for a position whose king square is `ksq`, as
a multiset. -/
def active_multiset (perspective : Color) (ksq : Nat) (pos : Position) : Multiset Nat :=
  (((pop_squares pos.pieces).map
      (fun s => make_board_index perspective s (pos.piece_on s) ksq) : List Nat) : Multiset Nat)
  + (((pop_bits pos.hand_bits).map
      (fun (b : Nat) => make_hand_index perspective (b : Int) ksq) : List Nat) : Multiset Nat)

end HalfKAv2_hm

namespace HalfKP

/-- The indices `append_active_indices` emits for a position whose king square is `ksq`, as
a multiset. -/
def active_multiset (T : Tables) (perspective : Color) (ksq : Nat) (pos : Position) :
    Multiset Nat :=
  (((pop_squares (fun s => pos.pieces s && !(pos.pieces_of KING s))).map
      (fun s => make_board_index T perspective s (pos.piece_on s) ksq) : List Nat)
    : Multiset Nat)
  + (((pop_bits pos.hand_bits).map
      (fun (b : Nat) => make_hand_index T perspective (b : Int) ksq) : List Nat) : Multiset Nat)

end HalfKP

/-! ## The divisions of the blend -/

namespace Eval

/-- The first statement of `Eval::evaluate`,
`Value nnue = (125 * psqt + 131 * positional) / 128`. -/
def nnue_quotient (psqt positional : Int) : Int :=
  int32 (Int.tdiv (int32 (int32 (125 * psqt) + int32 (131 * positional))) 128)

/-- The quotient `optimism * nnueComplexity / 468` of the statement
`optimism += optimism * nnueComplexity / 468`. -/
def optimism_quotient (optimism nnueComplexity : Int) : Int :=
  int32 (Int.tdiv (int32 (optimism * nnueComplexity)) 468)

/-- The quotient `nnue * nnueComplexity / 18000` of the statement
`nnue -= nnue * nnueComplexity / 18000`. -/
def complexity_quotient (nnue nnueComplexity : Int) : Int :=
  int32 (Int.tdiv (int32 (nnue * nnueComplexity)) 18000)

/-- Division rounding toward zero, written with the flooring division of the integers: the
floor of `x / k` for `x` not negative, and minus the floor of `(-x) / k` otherwise. -/
def div_toward_zero (x k : Int) : Int :=
  if 0 ≤ x then x / k else -((-x) / k)

/-- The blend read with divisions that round toward negative infinity (`/` on the integers
is the flooring division for a positive divisor). -/
def blend_floor (USE_OPTIMISM : Bool) (VALUE_TB_LOSS_IN_MAX_PLY VALUE_TB_WIN_IN_MAX_PLY : Int)
    (psqt positional optimism : Int) : Int :=
  let n := (125 * psqt + 131 * positional) / 128
  let c := |psqt - positional|
  let o2 := optimism + optimism * c / 468
  let n2 := n - n * c / 18000
  std_clamp (if USE_OPTIMISM then n2 + o2 else n2)
    (VALUE_TB_LOSS_IN_MAX_PLY + 1) (VALUE_TB_WIN_IN_MAX_PLY - 1)

end Eval

/-! ## Bucket selection (`network.cpp`, `Network::evaluate`) -/

/-- Modelled from the spec: `relative_rank(c, r)`, the rank `r` in 0..8 as seen from colour
`c`; the ranks of the second colour are counted from the other end of the board. -/
def relative_rank (c : Color) (r : Nat) : Nat :=
  match c with
  | .BLACK => r
  | .WHITE => 8 - r

namespace Network

/-- The bucket `Network::evaluate` selects. The side to move `pos.side_to_move()` is the
argument `stm`; `relative_rank` of `types.h` is the argument `rel`. -/
def evaluate_bucket (rel : Color → Nat → Nat) (stm : Color) (pos : Position) : Nat :=
  rel stm (rank_of (pos.king_square stm)) / 3 * 3
    + rel stm (rank_of (pos.king_square stm.flip)) / 3

end Network

/-- The position with no pieces whose stored king squares are the given ones. -/
def kings_at (black white : Nat) : Position where
  piece_on := fun _ => NO_PIECE
  hand_bits := 0
  king_square := fun c => match c with
    | .BLACK => black
    | .WHITE => white

/-! ## Streams and little-endian integers (`<istream>`, `<ostream>`, `nnue_common.h`; not
among the sources) -/

/-- Modelled from the spec: a `std::istream`: the bytes not yet extracted (a byte is a number
below 256), whether `failbit` or `badbit` is set (`fail()`, `!stream`), and whether `eofbit`
is set. -/
structure IStream where
  data : List Nat
  failed : Bool
  eof : Bool

/-- Modelled from the spec: `good()`, no state bit is set. -/
def IStream.good (s : IStream) : Bool := !s.failed && !s.eof

/-- Modelled from the spec: a stream opened on the given bytes, no state bit set. -/
def IStream.of_bytes (bytes : List Nat) : IStream :=
  { data := bytes, failed := false, eof := false }

/-- Modelled from the spec: `stream.read(buf, n)`; returns the bytes stored into `buf` and
the stream afterwards. On a stream that is not good nothing is extracted and `failbit` is
set; when fewer than `n` bytes are left they are all extracted and `eofbit` and `failbit`
are set. -/
def IStream.read (s : IStream) (n : Nat) : List Nat × IStream :=
  if s.good then
    if n ≤ s.data.length then (s.data.take n, { s with data := s.data.drop n })
    else (s.data, { data := [], failed := true, eof := true })
  else ([], { s with failed := true })

/-- Modelled from the spec: `stream.peek() == EOF`, and the stream afterwards. -/
def IStream.peek_is_eof (s : IStream) : Bool × IStream :=
  if s.good then
    if s.data.isEmpty then (true, { s with eof := true }) else (false, s)
  else (true, { s with failed := true })

/-- Modelled from the spec: a `std::ostream`: the bytes written so far, whether `failbit` or
`badbit` is set, and the number of bytes the sink still accepts. -/
structure OStream where
  data : List Nat
  failed : Bool
  room : Nat

/-- Modelled from the spec: `stream.write(buf, n)`. A failed stream writes nothing; a write
the sink cannot take completely writes what fits and sets `badbit`. -/
def OStream.write (s : OStream) (bytes : List Nat) : OStream :=
  if s.failed then s
  else if bytes.length ≤ s.room then
    { s with data := s.data ++ bytes, room := s.room - bytes.length }
  else { data := s.data ++ bytes.take s.room, failed := true, room := 0 }

/-- The four bytes of a 32-bit value, least significant first. -/
def le32 (v : Nat) : List Nat :=
  [v % 256, v / 256 % 256, v / 65536 % 256, v / 16777216 % 256]

/-- The 32-bit value of up to four bytes, least significant first; a missing byte counts as
zero (the program leaves the value indeterminate after a short read and never uses it). -/
def le32_value (bytes : List Nat) : Nat :=
  bytes.getD 0 0 % 256 + 256 * (bytes.getD 1 0 % 256) + 65536 * (bytes.getD 2 0 % 256)
    + 16777216 * (bytes.getD 3 0 % 256)

/-- Modelled from the spec: `read_little_endian<std::uint32_t>(stream)`. -/
def read_little_endian (stream : IStream) : Nat × IStream :=
  let r := stream.read 4
  (le32_value r.1, r.2)

/-- Modelled from the spec: `write_little_endian<std::uint32_t>(stream, value)`. -/
def write_little_endian (stream : OStream) (value : Nat) : OStream :=
  stream.write (le32 value)

/-! ## Network parameters: load and save (`network.cpp`) -/

/-- Modelled from the spec: what `network.cpp` uses of a component type `T` (`Transformer`,
`Arch`) holding parameters of type `P`: the structural hash `T::get_hash_value()`, a freshly
constructed object, and the member functions `read_parameters(stream)` (returning the result,
the object and the stream afterwards) and `write_parameters(stream)`. -/
structure Component (P : Type) where
  get_hash_value : Nat
  fresh : P
  read_parameters : P → IStream → Bool × P × IStream
  write_parameters : P → OStream → Bool × OStream

/-- Modelled from the spec: the compile-time constants of `network.h`: `Version`,
`Network::hash`, `LayerStacks`, and the two component types. -/
structure Config (FT AR : Type) where
  Version : Nat
  hash : Nat
  LayerStacks : Nat
  Transformer : Component FT
  Arch : Component AR

/-- Modelled from the spec: the EvalFile descriptor: default filename, current filename and
description. -/
structure EvalFile where
  defaultName : String
  current : String
  netDescription : List Nat

/-- Modelled from the spec: the data members of `Network`: the descriptor, the feature
transformer (a pointer, `none` when null) and the array of `LayerStacks` layer stacks (a
pointer, `none` when null). -/
structure Network (FT AR : Type) where
  evalFile : EvalFile
  featureTransformer : Option FT
  network : Option (Nat → AR)

namespace Detail

/-- Read evaluation function parameters. -/
def read_parameters {P : Type} (T : Component P) (stream : IStream) (reference : P) :
    Bool × P × IStream :=
  let r := read_little_endian stream
  if r.2.failed = true ∨ r.1 ≠ T.get_hash_value then (false, reference, r.2)
  else T.read_parameters reference r.2

/-- Write evaluation function parameters. -/
def write_parameters {P : Type} (T : Component P) (stream : OStream) (reference : P) :
    Bool × OStream :=
  T.write_parameters reference (write_little_endian stream T.get_hash_value)

end Detail

namespace Network

variable {FT AR : Type}

/-- The function `Network::initialize` (the name is reserved in Lean). -/
def initialize_ (C : Config FT AR) (net : Network FT AR) : Network FT AR :=
  { net with
    featureTransformer := some C.Transformer.fresh
    network := some (fun _ => C.Arch.fresh) }

/-- Read network header; returns the result, `*hashValue`, `*desc` and the stream. -/
def read_header (C : Config FT AR) (stream : IStream) (desc : List Nat) :
    Bool × Nat × List Nat × IStream :=
  let version := read_little_endian stream
  let hashValue := read_little_endian version.2
  let size := read_little_endian hashValue.2
  if size.2.failed = true ∨ version.1 ≠ C.Version then (false, hashValue.1, desc, size.2)
  else
    let resized := desc.take size.1 ++ List.replicate (size.1 - desc.length) 0
    let r := size.2.read size.1
    (!r.2.failed, hashValue.1, r.1 ++ resized.drop r.1.length, r.2)

/-- Write network header. -/
def write_header (C : Config FT AR) (stream : OStream) (hashValue : Nat) (desc : List Nat) :
    Bool × OStream :=
  let stream := write_little_endian stream C.Version
  let stream := write_little_endian stream hashValue
  let stream := write_little_endian stream (desc.length % 4294967296)
  let stream := stream.write desc
  (!stream.failed, stream)

/-- The loop `for (i = ...; i < LayerStacks; ++i) if (!Detail::read_parameters(stream,
network[i])) return false;` with `count` iterations left; the result is false when an
iteration returned false. -/
def read_layers (A : Component AR) : Nat → Nat → (Nat → AR) → IStream →
    Bool × (Nat → AR) × IStream
  | 0, _, network, stream => (true, network, stream)
  | count + 1, i, network, stream =>
    let r := Detail.read_parameters A stream (network i)
    if r.1 = true then read_layers A count (i + 1) (Function.update network i r.2.1) r.2.2
    else (false, Function.update network i r.2.1, r.2.2)

/-- The loop `for (i = ...; i < LayerStacks; ++i) if (!Detail::write_parameters(stream,
network[i])) return false;` with `count` iterations left. -/
def write_layers (A : Component AR) : Nat → Nat → (Nat → AR) → OStream → Bool × OStream
  | 0, _, _, stream => (true, stream)
  | count + 1, i, network, stream =>
    let r := Detail.write_parameters A stream (network i)
    if r.1 = true then write_layers A count (i + 1) network r.2 else (false, r.2)

/-- The function `Network::read_parameters`, applied to the objects `*featureTransformer` and
`network[]`; returns the result, the two objects, `netDescription` and the stream. -/
def read_parameters (C : Config FT AR) (featureTransformer : FT) (network : Nat → AR)
    (stream : IStream) (netDescription : List Nat) :
    Bool × FT × (Nat → AR) × List Nat × IStream :=
  let h := read_header C stream netDescription
  if h.1 = false then (false, featureTransformer, network, h.2.2.1, h.2.2.2)
  else if h.2.1 ≠ C.hash then (false, featureTransformer, network, h.2.2.1, h.2.2.2)
  else
    let t := Detail.read_parameters C.Transformer h.2.2.2 featureTransformer
    if t.1 = false then (false, t.2.1, network, h.2.2.1, t.2.2)
    else
      let l := read_layers C.Arch C.LayerStacks 0 network t.2.2
      if l.1 = false then (false, t.2.1, l.2.1, h.2.2.1, l.2.2)
      else if l.2.2.failed = true then (false, t.2.1, l.2.1, h.2.2.1, l.2.2)
      else (l.2.2.peek_is_eof.1, t.2.1, l.2.1, h.2.2.1, l.2.2.peek_is_eof.2)

/-- The function `Network::write_parameters`, applied to the objects `*featureTransformer`
and `network[]`. -/
def write_parameters (C : Config FT AR) (featureTransformer : FT) (network : Nat → AR)
    (stream : OStream) (netDescription : List Nat) : Bool × OStream :=
  let h := write_header C stream C.hash netDescription
  if h.1 = false then (false, h.2)
  else
    let t := Detail.write_parameters C.Transformer h.2 featureTransformer
    if t.1 = false then (false, t.2)
    else
      let l := write_layers C.Arch C.LayerStacks 0 network t.2
      if l.1 = false then (false, l.2)
      else (!l.2.failed, l.2)

/-- The function `Network::load(std::istream&)`; returns the optional description, the
network and the stream afterwards. -/
def load (C : Config FT AR) (net : Network FT AR) (stream : IStream) :
    Option (List Nat) × Network FT AR × IStream :=
  let net := initialize_ C net
  let r := read_parameters C C.Transformer.fresh (fun _ => C.Arch.fresh) stream []
  (if r.1 = true then some r.2.2.2.1 else none,
   { net with featureTransformer := some r.2.1, network := some r.2.2.1 },
   r.2.2.2.2)

/-- The function `Network::save(std::ostream&, name, netDescription)`; `name.empty()` is
`name = ""`. The result is `none` when the function dereferences a null `featureTransformer`
or `network`, which the program leaves undefined. -/
def save (C : Config FT AR) (net : Network FT AR) (stream : OStream) (name : String)
    (netDescription : List Nat) : Option (Bool × OStream) :=
  if name = "" ∨ name = "None" then some (false, stream)
  else
    match net.featureTransformer, net.network with
    | some featureTransformer, some network =>
      some (write_parameters C featureTransformer network stream netDescription)
    | _, _ => none

end Network

/-- The component writes its parameters as the bytes `encode p` and returns whether the
stream is still good afterwards. -/
def Component.writes {P : Type} (T : Component P) (encode : P → List Nat) : Prop :=
  ∀ p s, T.write_parameters p s = (!(s.write (encode p)).failed, s.write (encode p))

/-- The component's `read_parameters` inverts its `write_parameters`: from a good stream that
starts with the bytes `encode p` it returns true, yields `p` and leaves the rest. -/
def Component.read_inverts_write {P : Type} (T : Component P) (encode : P → List Nat) :
    Prop :=
  ∀ p q rest, T.read_parameters q (IStream.of_bytes (encode p ++ rest))
    = (true, p, IStream.of_bytes rest)

/-- The component's parameter block has `size` bytes and its reader fails on short input:
`read_parameters` returns true only on a good stream holding at least `size` bytes, of which
it extracts exactly `size`. -/
def Component.reads_block {P : Type} (T : Component P) (size : Nat) : Prop :=
  ∀ q s, (T.read_parameters q s).1 = true →
    s.good = true ∧ size ≤ s.data.length ∧
    (T.read_parameters q s).2.2 = { s with data := s.data.drop size }

/-! ## Sample network -/

/-- A component whose parameters are a pair of bytes, stored as a block of two bytes. -/
def sample_component (hash : Nat) : Component (Nat × Nat) where
  get_hash_value := hash
  fresh := (0, 0)
  read_parameters := fun q s =>
    let r := s.read 2
    (!r.2.failed, if r.2.failed then q else (r.1.getD 0 0, r.1.getD 1 0), r.2)
  write_parameters := fun p s => (!(s.write [p.1, p.2]).failed, s.write [p.1, p.2])

/-- A configuration with three layer stacks. -/
def sample_config : Config (Nat × Nat) (Nat × Nat) where
  Version := 2062757664
  hash := 1046128366
  LayerStacks := 3
  Transformer := sample_component 2133021000
  Arch := sample_component 1664315734

/-- A network holding parameters, loaded from a file named `nn.bin`. -/
def sample_network : Network (Nat × Nat) (Nat × Nat) where
  evalFile := { defaultName := "nn.bin", current := "nn.bin", netDescription := [104, 105] }
  featureTransformer := some (7, 9)
  network := some (fun i => (i, i + 1))

/-- An output stream with nothing written and room for 100 bytes. -/
def sample_ostream : OStream :=
  { data := [], failed := false, room := 100 }

/-! ## The file layout as the specification states it -/

namespace Network

variable {FT AR : Type}

/-- The header `version:u32 hash:u32 descriptionLength:u32 description`, little-endian. -/
def header_layout (C : Config FT AR) (hashValue : Nat) (desc : List Nat) : List Nat :=
  le32 C.Version ++ le32 hashValue ++ le32 desc.length ++ desc

/-- The file: the header with `Network::hash`, the transformer block (its hash, then its
parameter bytes), and the `LayerStacks` layer blocks in increasing order (each the
architecture hash, then the parameter bytes of that layer stack). -/
def file_layout (C : Config FT AR) (encodeFT : FT → List Nat) (encodeAR : AR → List Nat)
    (featureTransformer : FT) (network : Nat → AR) (desc : List Nat) : List Nat :=
  header_layout C C.hash desc
    ++ (le32 C.Transformer.get_hash_value ++ encodeFT featureTransformer)
    ++ (List.range C.LayerStacks).flatMap
        (fun i => le32 C.Arch.get_hash_value ++ encodeAR (network i))

end Network

/-- The four 32-bit constants of a configuration are 32-bit values. -/
def Config.constants_are_u32 {FT AR : Type} (C : Config FT AR) : Prop :=
  C.Version < 4294967296 ∧ C.hash < 4294967296 ∧
  C.Transformer.get_hash_value < 4294967296 ∧ C.Arch.get_hash_value < 4294967296

/-- The file of the sample network with the description `hi`, as `save` writes it. -/
def sample_file : List Nat :=
  [32, 47, 243, 122, 238, 166, 90, 62, 2, 0, 0, 0, 104, 105,
   72, 81, 35, 127, 7, 9,
   86, 113, 51, 99, 0, 1, 86, 113, 51, 99, 1, 2, 86, 113, 51, 99, 2, 3]

/-- A file whose header carries the hash 0 instead of `Network::hash`. -/
def sample_file_wrong_hash : List Nat :=
  [32, 47, 243, 122, 0, 0, 0, 0, 2, 0, 0, 0, 104, 105,
   72, 81, 35, 127, 7, 9,
   86, 113, 51, 99, 0, 1, 86, 113, 51, 99, 1, 2, 86, 113, 51, 99, 2, 3]

/-- A network that holds nothing yet. -/
def empty_network : Network (Nat × Nat) (Nat × Nat) where
  evalFile := { defaultName := "nn.bin", current := "None", netDescription := [] }
  featureTransformer := none
  network := none

/-! ## Verifying, loading from a file and copying a network (`network.cpp`) -/

/-- Modelled from the spec: the compile-time constants `Network::verify` prints:
`sizeof(Transformer)`, `sizeof(Arch)` and the static members `InputDimensions`,
`TransformedFeatureDimensions`, `FC_0_OUTPUTS` and `FC_1_OUTPUTS`, declared in headers that
are not among the sources. -/
structure Sizes where
  sizeof_Transformer : Nat
  sizeof_Arch : Nat
  InputDimensions : Nat
  TransformedFeatureDimensions : Nat
  FC_0_OUTPUTS : Nat
  FC_1_OUTPUTS : Nat

/-- The result of a member function that may call `exit(EXIT_FAILURE)`: whether it did, the
object when the call ended, and the lines it wrote to `std::cout`, in order. -/
structure Outcome (σ : Type) where
  exited : Bool
  state : σ
  cout : List String

/-- Modelled from the spec: `std::ifstream stream(name, std::ios::binary)` over a file system
that gives the bytes of the file of that name, if there is one; when the file cannot be
opened `failbit` is set. -/
def open_ifstream (fs : String → Option (List Nat)) (name : String) : IStream :=
  match fs name with
  | some bytes => IStream.of_bytes bytes
  | none => { data := [], failed := true, eof := false }

namespace Network

variable {FT AR : Type}

/-- The string `msg` that `Network::verify` passes to `f` when the network file was not
loaded. -/
def verify_msg (evalFile : EvalFile) (evalfilePath : String) : String :=
  let msg1 := "Network evaluation parameters compatible with the engine must be available."
  let msg2 := "The network file " ++ evalfilePath ++ " was not loaded successfully."
  let msg3 := "The UCI option EvalFile might need to specify the full path, "
    ++ "including the directory name, to the network file."
  let msg4 := "The default net can be downloaded from: "
    ++ "https://tests.stockfishchess.org/api/nn/" ++ evalFile.defaultName
  let msg5 := "The engine will be terminated now."
  "ERROR: " ++ msg1 ++ "\n" ++ "ERROR: " ++ msg2 ++ "\n" ++ "ERROR: " ++ msg3
    ++ "\n" ++ "ERROR: " ++ msg4 ++ "\n" ++ "ERROR: " ++ msg5 ++ "\n"

/-- The string that `Network::verify` passes to `f` when the network file is the loaded
one. -/
def verify_summary (C : Config FT AR) (K : Sizes) (evalfilePath : String) : String :=
  let size := K.sizeof_Transformer + K.sizeof_Arch * C.LayerStacks
  "NNUE evaluation using " ++ evalfilePath ++ " (" ++ toString (size / (1024 * 1024))
    ++ "MiB, (" ++ toString K.InputDimensions ++ ", "
    ++ toString K.TransformedFeatureDimensions ++ ", "
    ++ toString K.FC_0_OUTPUTS ++ ", " ++ toString K.FC_1_OUTPUTS
    ++ ", 1))"

/-- The function `Network::verify(evalfilePath, f)`; `f` says whether the sink holds a
function. Returns whether the process was terminated and the strings passed to the sink, in
order. What the summary prints are sizes of types and static members, so that no parameter
is read. -/
def verify (C : Config FT AR) (K : Sizes) (net : Network FT AR) (evalfilePath : String)
    (f : Bool) : Bool × List String :=
  let evalfilePath := if evalfilePath = "" then net.evalFile.defaultName else evalfilePath
  if net.evalFile.current ≠ evalfilePath then
    (true, if f then [verify_msg net.evalFile evalfilePath] else [])
  else
    (false, if f then [verify_summary C K evalfilePath] else [])

/-- The function `Network::load_user_net(dir, evalfilePath)` over the file system `fs`. -/
def load_user_net (C : Config FT AR) (net : Network FT AR) (fs : String → Option (List Nat))
    (dir evalfilePath : String) : Outcome (Network FT AR) :=
  let stream := open_ifstream fs (dir ++ "/" ++ evalfilePath)
  let cout := ["info string loading NNUE eval from " ++ (dir ++ "/" ++ evalfilePath)]
  let r := load C net stream
  match r.1 with
  | some description =>
    { exited := false
      state := { r.2.1 with
        evalFile := { r.2.1.evalFile with
          current := evalfilePath, netDescription := description } }
      cout := cout ++ ["info string NNUE eval loaded."] }
  | none =>
    { exited := true
      state := r.2.1
      cout := cout ++ ["info string failed to load NNUE eval."] }

/-- The function `Network::load_internal`; `embedded` is the blob `get_embedded()` returns
(linked into the executable, not among the sources). -/
def load_internal (C : Config FT AR) (net : Network FT AR) (embedded : List Nat) :
    Network FT AR :=
  let stream := IStream.of_bytes embedded
  let r := load C net stream
  match r.1 with
  | some description =>
    { r.2.1 with
      evalFile := { r.2.1.evalFile with
        current := r.2.1.evalFile.defaultName, netDescription := description } }
  | none => r.2.1

/-- The overload `Network::load(rootDirectory, evalfilePath)`: the loop over the directories,
`<internal>` among them, is commented out, and what is left is one call. -/
def load_path (C : Config FT AR) (net : Network FT AR) (fs : String → Option (List Nat))
    (rootDirectory evalfilePath : String) : Outcome (Network FT AR) :=
  load_user_net C net fs rootDirectory evalfilePath

/-- The loop `for (i = 0; i < LayerStacks; ++i) network[i] = other.network[i]`. -/
def copy_layers (LayerStacks : Nat) (network other : Nat → AR) : Nat → AR :=
  (List.range LayerStacks).foldl (fun network i => Function.update network i (other i))
    network

/-- The copy constructor `Network::Network(const Network& other)`; the members start out
null. -/
def copy (C : Config FT AR) (other : Network FT AR) : Network FT AR :=
  let featureTransformer : Option FT :=
    match other.featureTransformer with
    | some t => some t
    | none => none
  let network : Nat → AR := fun _ => C.Arch.fresh
  match other.network with
  | none => { evalFile := other.evalFile, featureTransformer, network := some network }
  | some o =>
    { evalFile := other.evalFile, featureTransformer
      network := some (copy_layers C.LayerStacks network o) }

/-- The assignment `Network::operator=(const Network& other)`, applied to `self`. -/
def assign (C : Config FT AR) (self other : Network FT AR) : Network FT AR :=
  let featureTransformer : Option FT :=
    match other.featureTransformer with
    | some t => some t
    | none => self.featureTransformer
  let network : Nat → AR := fun _ => C.Arch.fresh
  match other.network with
  | none => { evalFile := other.evalFile, featureTransformer, network := some network }
  | some o =>
    { evalFile := other.evalFile, featureTransformer
      network := some (copy_layers C.LayerStacks network o) }

end Network

/-- Sizes for the sample configuration. -/
def sample_sizes : Sizes where
  sizeof_Transformer := 4194304
  sizeof_Arch := 1048576
  InputDimensions := 101295
  TransformedFeatureDimensions := 1024
  FC_0_OUTPUTS := 15
  FC_1_OUTPUTS := 32

/-- A file system that holds the sample file under `eval/nn.bin`, a file with a wrong hash
under `eval/bad.bin`, and nothing else. -/
def sample_fs (name : String) : Option (List Nat) :=
  if name = "eval/nn.bin" then some sample_file
  else if name = "eval/bad.bin" then some sample_file_wrong_hash
  else none

/-! ## The diagnostic string (`evaluate_nnue.cpp`) -/

namespace Eval

/-- Modelled from the spec: what `Eval::trace` calls in code that is not among the sources:
`pos.checkers()` (a bitboard), `pos.side_to_move()`, `NNUE::network.evaluate(pos, cache)`
(the pair `(psqt, positional)`), `NNUE::trace(pos, network, cache)` (a string),
`USI::to_cp`, and the characters that `ss << 0.01 * cp` writes for a centipawn value `cp`
under `showpoint`, `showpos`, `fixed` and `setprecision(2)`. -/
structure TraceEnv where
  checkers : Position → Nat → Bool
  side_to_move : Position → Color
  network_evaluate : Position → Int × Int
  nnue_trace : Position → String
  to_cp : Int → Int
  show_cp : Int → String

/-- The calls into the network that `Eval::trace` makes. -/
inductive TraceCall where
  | nnue_trace
  | network_evaluate
  deriving DecidableEq, Repr

/-- Modelled from the spec: `if (bb)` for a bitboard: some square is set. -/
def bitboard_to_bool (bb : Nat → Bool) : Bool := (List.range SQ_NB).any bb

/-- The function `Eval::trace`; returns the string and the calls into the network it made,
in order (the second `network_evaluate` is the one inside `evaluate`). `VALUE_ZERO` is 0. -/
def trace (E : TraceEnv) (USE_OPTIMISM : Bool)
    (VALUE_TB_LOSS_IN_MAX_PLY VALUE_TB_WIN_IN_MAX_PLY : Int) (pos : Position) :
    String × List TraceCall :=
  if bitboard_to_bool (E.checkers pos) then ("Final evaluation: none (in check)", [])
  else
    let ss := "\n" ++ E.nnue_trace pos ++ "\n"
    let pp := E.network_evaluate pos
    let v := int32 (pp.1 + pp.2)
    let v := if E.side_to_move pos = .BLACK then v else int32 (-v)
    let ss := ss ++ "NNUE evaluation        " ++ E.show_cp (E.to_cp v) ++ " (black side)\n"
    let qq := E.network_evaluate pos
    let v := evaluate USE_OPTIMISM VALUE_TB_LOSS_IN_MAX_PLY VALUE_TB_WIN_IN_MAX_PLY qq.1 qq.2 0
    let v := if E.side_to_move pos = .BLACK then v else int32 (-v)
    let ss := ss ++ "Final evaluation       " ++ E.show_cp (E.to_cp v) ++ " (black side)"
    let ss := ss ++ " [with scaled NNUE, ...]"
    let ss := ss ++ "\n"
    (ss, [.nnue_trace, .network_evaluate, .network_evaluate])

end Eval

/-- An environment for `Eval::trace`: the checkers are the squares holding piece code 31, the
network returns `(100, 28)`, centipawns are the value itself and are shown in decimal. -/
def sample_trace_env : Eval.TraceEnv where
  checkers := fun pos s => pos.piece_on s == 31
  side_to_move := fun _ => .BLACK
  network_evaluate := fun _ => (100, 28)
  nnue_trace := fun _ => "trace"
  to_cp := fun v => v
  show_cp := fun cp => toString cp

/-! ## The bench command (`benchmark.cpp`) -/

namespace Benchmark

/-- The default positions of the benchmark. -/
def Defaults : List String := [
  "lnsgkgsnl/1r5b1/ppppppppp/9/9/9/PPPPPPPPP/1B5R1/LNSGKGSNL b - 1",
  "8l/1l+R2P3/p2pBG1pp/kps1p4/Nn1P2G2/P1P1P2PP/1PS6/1KSG3+r1/LN2+p3L w Sbgn3p 124",
  "lnsgkgsnl/1r7/p1ppp1bpp/1p3pp2/7P1/2P6/PP1PPPP1P/1B3S1R1/LNSGKG1NL b - 9",
  "l4S2l/4g1gs1/5p1p1/pr2N1pkp/4Gn3/PP3PPPP/2GPP4/1K7/L3r+s2L w BS2N5Pb 1",
  "6n1l/2+S1k4/2lp4p/1np1B2b1/3PP4/1N1S3rP/1P2+pPP+p1/1p1G5/3KG2r1 b GSN2L4Pgs2p 1",
  "l6nl/5+P1gk/2np1S3/p1p4Pp/3P2Sp1/1PPb2P1P/P5GS1/R8/LN4bKL w RGgsn5p 1",
  "l1r6/4S2k1/p2pb1gsg/5pp2/1pBnp3p/5PP2/PP1P1G1S1/6GKL/L1R5L b Ps3n5p 93",
  "5+P+B+R1/1kg2+P1+P+R/1g1s2KG1/3g4p/2p1pS3/1+p+l1s4/4B1N1P/9/4P4 b S3N3L9P 221",
  "ln3g1nl/1r1sg1sk1/p1p1ppbp1/1p1p2p1p/2P6/3P4P/PP2PPPP1/1BRS2SK1/LNG2G1NL b - 23",
  "l1+R4nk/5rgs1/3pp1gp1/p4pp1l/1p5Pp/4PSP2/P4PNG1/4G4/L5K1L w 2BP2s2n4p 88",
  "6B1+S/2gg5/4lp1+P1/6p1p/4pP1R1/Ppk1P1P1P/2+p2GK2/5S3/1+n3+r2L b B2SN2L2Pg2n4p 149",
  "7nl/3+P1kg2/4pb1ps/2r2NP1p/l1P2P1P1/s7P/PN2P4/KGB2G3/1N1R4L w G5P2sl2p 98",
  "l4Grnl/1B2+B1gk1/p1n3sp1/4ppp1p/P1S2P1P1/1PGP2P1P/3pP2g1/1K4sR1/LN6L w 3Psn 78",
  "ln6l/2gkgr1s1/1p1pp1n1p/3s1pP2/p8/1P1PBPb2/PS2P1NpP/1K1G2R2/LN1G4L w 3Psp 58",
  "ln1gk2nl/1rs3g2/p3ppspp/2pp2p2/1p5PP/2P6/PPSPPPP2/2G3SR1/LN2KG1NL b Bb 21",
  "ln7/1r2g1g2/2pspk1bn/pp1p2PB1/5pp1p/P1P2P3/1PSPP3+l/3K2S2/LN1G1G3 b Srnl3p 59",
  "4g2nl/5skn1/p1pppp1p1/6p+b1/4P4/3+R1SL1p/P3GPPP1/1+r2SS1KP/3PL2NL w GPbgn2p 128",
  "lnsgk2nl/1r4gs1/p1pppp1pp/6p2/1p5P1/2P6/PPSPPPP1P/7R1/LN1GKGSNL b Bb 13",
  "ln1g1gsnl/1r1s2k2/p1pp1p1p1/6p1p/1p7/2P5P/PPS+b1PPP1/2B3K2/LN1GRGSNL w P2p 26",
  "l2sk2nl/2g2s1g1/2n1pp1pp/pr4p2/1p6P/P2+b+RP1P1/1P2PSP2/5K3/L2G1G1NL b SPbn3p 51"]

/-- The expression `(is >> token) ? token : missing`; the stream is the list of the
whitespace-separated words not yet extracted, and an extraction from an exhausted stream
fails, as do all later ones. Returns the value and the stream afterwards. -/
def next_argument (is : List String) (missing : String) : String × List String :=
  match is with
  | token :: rest => (token, rest)
  | [] => (missing, [])

/-- The test `fen.find(word) != std::string::npos`: `word` occurs in `fen`. -/
def find_in (fen word : String) : Bool :=
  fen.toList.tails.any (fun t => word.toList.isPrefixOf t)

/-- Builds a list of UCI commands to be run by bench. `STOCKFISH` is the value of that
preprocessor symbol; `files` gives the lines of a file that can be opened. The result
is `none` when the function calls `exit(EXIT_FAILURE)`. -/
def setup_bench (STOCKFISH : Bool) (files : String → Option (List String))
    (currentFen : String) (is : List String) : Option (List String) :=
  let ttSize := next_argument is "16"
  let threads := next_argument ttSize.2 "1"
  let limit := next_argument threads.2 "12"
  let fenFile := next_argument limit.2 "default"
  let limitType := next_argument fenFile.2 "depth"
  let go := if limitType.1 = "eval" then "eval" else "go " ++ limitType.1 ++ " " ++ limit.1
  let fens : Option (List String) :=
    if fenFile.1 = "default" then some Defaults
    else if fenFile.1 = "current" then some [currentFen]
    else
      match files fenFile.1 with
      | none => none
      | some lines => some (lines.filter (fun fen => !fen.isEmpty))
  match fens with
  | none => none
  | some fens =>
    let list := ["setoption name Threads value " ++ threads.1,
      "setoption name Hash value " ++ ttSize.1,
      "ucinewgame"]
    some (fens.foldl
      (fun list fen =>
        if find_in fen "setoption" then list ++ [fen]
        else
          list ++ [(if STOCKFISH then "position fen " else "position sfen ") ++ fen] ++ [go])
      list)

end Benchmark

/-! ## The bucket recorded by the trace (`network.cpp`, `Network::trace_evaluate`) -/

namespace Network

/-- The value `Network::trace_evaluate` stores in `t.correctBucket`. -/
def trace_evaluate_correctBucket (pos : Position) : Nat :=
  pos.king_square .BLACK * 3 / 3 + pos.king_square .WHITE / 3

end Network

/-! ## The blend before the clamp -/

namespace Eval

/-- The value of `v` in `Eval::evaluate` before the statement that clamps it. -/
def evaluate_unclamped (USE_OPTIMISM : Bool) (psqt positional optimism : Int) : Int :=
  let nnue := int32 (Int.tdiv (int32 (int32 (125 * psqt) + int32 (131 * positional))) 128)
  let nnueComplexity := std_abs (int32 (psqt - positional))
  let optimism := int32 (optimism + int32 (Int.tdiv (int32 (optimism * nnueComplexity)) 468))
  let nnue := int32 (nnue - int32 (Int.tdiv (int32 (nnue * nnueComplexity)) 18000))
  if USE_OPTIMISM then int32 (nnue + optimism) else nnue

end Eval

/-! # Theorems -/

/-! ## Auxiliary facts -/

/-- A loop of `push_back` calls appends the mapped list. -/
theorem foldl_push_back {α : Type} (f : α → Nat) (l : List α) (init : List Nat) :
    l.foldl (fun acc x => acc ++ [f x]) init = init ++ l.map f := by
  induction l generalizing init with
  | nil => simp
  | cons x xs ih => simp [ih]

namespace HalfKAv2_hm

theorem orient_lt (perspective : Color) (s ksq : Nat) (hs : s < 81) :
    orient perspective s ksq < 81 := by
  cases perspective <;>
    simp only [orient, Flip, horizontal_flip, file_of, rank_of, SQ_NB, FILE_NB, FILE_4, FILE_6] <;>
    split <;> omega

theorem orient_inj (perspective : Color) (s1 s2 ksq : Nat) (h1 : s1 < 81) (h2 : s2 < 81)
    (h : orient perspective s1 ksq = orient perspective s2 ksq) : s1 = s2 := by
  cases perspective <;>
    simp only [orient, Flip, horizontal_flip, file_of, rank_of, SQ_NB, FILE_NB, FILE_4, FILE_6]
      at h <;>
    split at h <;> omega

theorem orient_bit_eq (perspective : Color) (bit : Int) (h0 : 0 ≤ bit) (h1 : bit < 64) :
    ∃ b : Nat, b < 64 ∧ orient_bit perspective bit = b ∧
      (perspective = .BLACK → (b : Int) = bit) ∧
      (perspective = .WHITE → (b : Int) = (bit + 32) % 64) := by
  cases perspective
  · refine ⟨bit.toNat, by omega, ?_, by omega, by simp⟩
    simp only [orient_bit, IndexType, if_true]
    omega
  · refine ⟨((bit + 32) % 64).toNat, by omega, ?_, by simp, by omega⟩
    simp only [orient_bit, IndexType]
    split
    · rename_i h; exact absurd h (by decide)
    · split <;> omega

theorem PieceSquareIndex_eq (perspective : Color) (pc : Nat) (hpc : pc < 32) :
    ∃ k, k ≤ 26 ∧ PieceSquareIndex perspective pc = k * 81 := by
  cases perspective <;> interval_cases pc <;> decide

theorem KingBuckets_eq (perspective : Color) (ksq : Nat) (hk : ksq < 81) :
    ∃ k, k ≤ 44 ∧ KingBuckets perspective ksq = k * 2251 := by
  cases perspective <;> interval_cases ksq <;> decide

theorem make_board_index_eq (perspective : Color) (s pc ksq : Nat) :
    make_board_index perspective s pc ksq
      = (orient perspective s ksq + PieceSquareIndex perspective pc
          + KingBuckets perspective ksq) % 4294967296 := by
  simp only [make_board_index, IndexType]
  omega

theorem make_hand_index_eq (perspective : Color) (bit : Int) (ksq : Nat) :
    make_hand_index perspective bit ksq
      = (orient_bit perspective bit + 2187 + KingBuckets perspective ksq) % 4294967296 := by
  simp only [make_hand_index, IndexType, PS_NB, SQ_NB]
  omega

theorem make_board_index_val (perspective : Color) (s pc ksq : Nat) (hs : s < 81)
    (hpc : pc < 32) (hk : ksq < 81) :
    make_board_index perspective s pc ksq
      = orient perspective s ksq + PieceSquareIndex perspective pc
          + KingBuckets perspective ksq := by
  obtain ⟨k, hk1, hk2⟩ := KingBuckets_eq perspective ksq hk
  obtain ⟨p, hp1, hp2⟩ := PieceSquareIndex_eq perspective pc hpc
  have ho := orient_lt perspective s ksq hs
  rw [make_board_index_eq, Nat.mod_eq_of_lt (by omega)]

theorem make_hand_index_val (perspective : Color) (bit : Int) (ksq : Nat) (h0 : 0 ≤ bit)
    (h1 : bit < 64) (hk : ksq < 81) :
    make_hand_index perspective bit ksq
      = orient_bit perspective bit + 2187 + KingBuckets perspective ksq := by
  obtain ⟨k, hk1, hk2⟩ := KingBuckets_eq perspective ksq hk
  obtain ⟨b, hb1, hb2, -, -⟩ := orient_bit_eq perspective bit h0 h1
  rw [make_hand_index_eq, Nat.mod_eq_of_lt (by omega)]

theorem ka_append_active_indices_eq (perspective : Color) (pos : Position) (active : List Nat) :
    append_active_indices perspective pos active
      = active
        ++ (pop_squares pos.pieces).map
            (fun s => make_board_index perspective s (pos.piece_on s) (pos.king_square perspective))
        ++ (pop_bits pos.hand_bits).map
            (fun (b : Nat) => make_hand_index perspective (b : Int) (pos.king_square perspective)) := by
  simp only [append_active_indices, foldl_push_back]

end HalfKAv2_hm
namespace HalfKAv2_hm

/-- C2: HalfKAv2_hm index range. For both perspectives, every king square, every square in
0..80 and every piece code in 0..31 the board index is below `Dimensions = 9*5*(27*81+64) =
101295`; every hand index of a bit in 0..63 is below `Dimensions`, and the value
`Dimensions - 1` is attained by a hand index. -/
theorem index_range (perspective : Color) (ksq : Nat) (hk : ksq < SQ_NB) :
    Dimensions = 9 * 5 * (27 * 81 + 64) ∧ Dimensions = 101295 ∧
    (∀ s pc, s < SQ_NB → pc < PIECE_NB →
      make_board_index perspective s pc ksq < Dimensions) ∧
    (∀ bit : Int, 0 ≤ bit → bit < 64 →
      make_hand_index perspective bit ksq < Dimensions) ∧
    (∃ ksq0, ksq0 < SQ_NB ∧ ∃ bit0 : Int, 0 ≤ bit0 ∧ bit0 < 64 ∧
      make_hand_index perspective bit0 ksq0 = Dimensions - 1) := by
  have hD : Dimensions = 101295 := by decide
  simp only [SQ_NB, PIECE_NB] at *
  refine ⟨by decide, hD, ?_, ?_, ?_⟩
  · intro s pc hs hpc
    obtain ⟨k, hk1, hk2⟩ := KingBuckets_eq perspective ksq hk
    obtain ⟨p, hp1, hp2⟩ := PieceSquareIndex_eq perspective pc hpc
    have ho := orient_lt perspective s ksq hs
    rw [make_board_index_eq, hD, hk2, hp2, Nat.mod_eq_of_lt (by omega)]
    omega
  · intro bit h0 h1
    obtain ⟨k, hk1, hk2⟩ := KingBuckets_eq perspective ksq hk
    obtain ⟨b, hb1, hb2, -, -⟩ := orient_bit_eq perspective bit h0 h1
    rw [make_hand_index_eq, hD, hk2, hb2, Nat.mod_eq_of_lt (by omega)]
    omega
  · cases perspective
    · exact ⟨44, by decide, 63, by decide, by decide, by decide⟩
    · exact ⟨36, by decide, 31, by decide, by decide, by decide⟩

/-- The index range for White with its king on square 40: piece code 24 on square 80, and
hand bit 31. -/
theorem index_range_witness :
    make_board_index .WHITE 80 24 40 < Dimensions ∧
    make_hand_index .WHITE 31 40 < Dimensions := by
  have h := index_range .WHITE 40 (by decide)
  exact ⟨h.2.2.1 80 24 (by decide) (by decide), h.2.2.2.1 31 (by decide) (by decide)⟩

/-- C3: HalfKAv2_hm distinctness. For a fixed perspective and king square, board indices of
two different squares differ whatever the pieces, hand indices of two different bits in 0..63
differ, no board index equals a hand index, and hence the list emitted by one
`append_active_indices` call has no repeated entry. -/
theorem active_indices_distinct (perspective : Color) (ksq : Nat) (hk : ksq < SQ_NB) :
    (∀ s1 s2 pc1 pc2, s1 < SQ_NB → s2 < SQ_NB → pc1 < PIECE_NB → pc2 < PIECE_NB → s1 ≠ s2 →
      make_board_index perspective s1 pc1 ksq ≠ make_board_index perspective s2 pc2 ksq) ∧
    (∀ b1 b2 : Int, 0 ≤ b1 → b1 < 64 → 0 ≤ b2 → b2 < 64 → b1 ≠ b2 →
      make_hand_index perspective b1 ksq ≠ make_hand_index perspective b2 ksq) ∧
    (∀ s pc, ∀ b : Int, s < SQ_NB → pc < PIECE_NB → 0 ≤ b → b < 64 →
      make_board_index perspective s pc ksq ≠ make_hand_index perspective b ksq) ∧
    (∀ pos : Position, pos.king_square perspective = ksq →
      (∀ s, s < SQ_NB → pos.piece_on s < PIECE_NB) →
      (append_active_indices perspective pos []).Nodup) := by
  simp only [SQ_NB, PIECE_NB] at *
  have hboard : ∀ s1 s2 pc1 pc2, s1 < 81 → s2 < 81 → pc1 < 32 → pc2 < 32 → s1 ≠ s2 →
      make_board_index perspective s1 pc1 ksq ≠ make_board_index perspective s2 pc2 ksq := by
    intro s1 s2 pc1 pc2 h1 h2 hp1 hp2 hne heq
    rw [make_board_index_val _ _ _ _ h1 hp1 hk, make_board_index_val _ _ _ _ h2 hp2 hk] at heq
    obtain ⟨p1, -, e1⟩ := PieceSquareIndex_eq perspective pc1 hp1
    obtain ⟨p2, -, e2⟩ := PieceSquareIndex_eq perspective pc2 hp2
    have o1 := orient_lt perspective s1 ksq h1
    have o2 := orient_lt perspective s2 ksq h2
    exact hne (orient_inj perspective s1 s2 ksq h1 h2 (by omega))
  have hhand : ∀ b1 b2 : Int, 0 ≤ b1 → b1 < 64 → 0 ≤ b2 → b2 < 64 → b1 ≠ b2 →
      make_hand_index perspective b1 ksq ≠ make_hand_index perspective b2 ksq := by
    intro b1 b2 h10 h11 h20 h21 hne heq
    rw [make_hand_index_val _ _ _ h10 h11 hk, make_hand_index_val _ _ _ h20 h21 hk] at heq
    obtain ⟨c1, -, e1, hB1, hW1⟩ := orient_bit_eq perspective b1 h10 h11
    obtain ⟨c2, -, e2, hB2, hW2⟩ := orient_bit_eq perspective b2 h20 h21
    have hc : c1 = c2 := by omega
    cases perspective
    · have := hB1 rfl; have := hB2 rfl; omega
    · have := hW1 rfl; have := hW2 rfl; omega
  have hmix : ∀ s pc, ∀ b : Int, s < 81 → pc < 32 → 0 ≤ b → b < 64 →
      make_board_index perspective s pc ksq ≠ make_hand_index perspective b ksq := by
    intro s pc b hs hpc hb0 hb1 heq
    rw [make_board_index_val _ _ _ _ hs hpc hk, make_hand_index_val _ _ _ hb0 hb1 hk] at heq
    obtain ⟨p, hp, e⟩ := PieceSquareIndex_eq perspective pc hpc
    have o := orient_lt perspective s ksq hs
    omega
  refine ⟨hboard, hhand, hmix, ?_⟩
  intro pos hksq hpieces
  rw [ka_append_active_indices_eq, hksq, List.nil_append]
  have hsq : ∀ s ∈ pop_squares pos.pieces, s < 81 := by
    intro s hs
    have := (List.mem_filter.mp hs).1
    simpa [SQ_NB] using this
  have hbit : ∀ b ∈ pop_bits pos.hand_bits, b < 64 := by
    intro b hb
    have := (List.mem_filter.mp hb).1
    simpa using this
  rw [List.nodup_append]
  refine ⟨?_, ?_, ?_⟩
  · refine List.Nodup.map_on ?_ (List.nodup_range _ |>.filter _)
    intro s1 h1 s2 h2 heq
    by_contra hne
    exact hboard s1 s2 _ _ (hsq s1 h1) (hsq s2 h2) (hpieces s1 (hsq s1 h1))
      (hpieces s2 (hsq s2 h2)) hne heq
  · refine List.Nodup.map_on ?_ (List.nodup_range _ |>.filter _)
    intro b1 h1 b2 h2 heq
    by_contra hne
    have hb1 := hbit b1 h1
    have hb2 := hbit b2 h2
    exact hhand b1 b2 (by omega) (by omega) (by omega) (by omega) (by omega) heq
  · intro x hx1 hx2
    obtain ⟨s, hs, rfl⟩ := List.mem_map.mp hx1
    obtain ⟨b, hb, heq⟩ := List.mem_map.mp hx2
    have hb1 := hbit b hb
    exact hmix s _ b (hsq s hs) (hpieces s (hsq s hs)) (by omega) (by omega) heq.symm

/-- Distinctness at the sample position seen by Black, whose king stands on square 44. -/
theorem active_indices_distinct_witness :
    make_board_index .BLACK 42 1 44 ≠ make_board_index .BLACK 38 17 44 ∧
    (append_active_indices .BLACK sample_pos []).Nodup := by
  have h := active_indices_distinct .BLACK 44 (by decide)
  exact ⟨h.1 42 38 1 17 (by decide) (by decide) (by decide) (by decide) (by decide),
    h.2.2.2 sample_pos rfl (by decide)⟩

end HalfKAv2_hm


/-- C4: for both schemes, `requires_refresh(st, perspective)` is true exactly when the piece
of the first dirty-piece entry is the own king `make_piece(perspective, KING)`; the opposing
king and every other piece give false. -/
theorem requires_refresh_iff_own_king (st : StateInfo) (perspective : Color) :
    (HalfKAv2_hm.requires_refresh st perspective = true
      ↔ st.dirtyPiece.piece 0 = make_piece perspective KING) ∧
    (HalfKP.requires_refresh st perspective = true
      ↔ st.dirtyPiece.piece 0 = make_piece perspective KING) ∧
    (st.dirtyPiece.piece 0 = make_piece perspective.flip KING →
      HalfKAv2_hm.requires_refresh st perspective = false ∧
      HalfKP.requires_refresh st perspective = false) ∧
    (st.dirtyPiece.piece 0 ≠ make_piece perspective KING →
      HalfKAv2_hm.requires_refresh st perspective = false ∧
      HalfKP.requires_refresh st perspective = false) := by
  refine ⟨by simp [HalfKAv2_hm.requires_refresh], by simp [HalfKP.requires_refresh], ?_, ?_⟩
  · intro h
    have hne : make_piece perspective.flip KING ≠ make_piece perspective KING := by
      cases perspective <;> decide
    simp [HalfKAv2_hm.requires_refresh, HalfKP.requires_refresh, h, hne]
  · intro h
    simp [HalfKAv2_hm.requires_refresh, HalfKP.requires_refresh, h]

/-! ## Diff entries -/

theorem HalfKAv2_hm.ka_append_changed_indices_one (perspective : Color) (ksq : Nat)
    (dp : DirtyPiece) (removed added : List Nat) (hn : dp.dirty_num = 1) :
    HalfKAv2_hm.append_changed_indices perspective ksq dp removed added
      = HalfKAv2_hm.changed_step perspective ksq dp (removed, added) 0 := by
  simp [HalfKAv2_hm.append_changed_indices, hn, List.range_succ]

theorem HalfKP.kp_append_changed_indices_one (T : HalfKP.Tables) (perspective : Color) (ksq : Nat)
    (dp : DirtyPiece) (removed added : List Nat) (hn : dp.dirty_num = 1) :
    HalfKP.append_changed_indices T perspective ksq dp removed added
      = HalfKP.changed_step T perspective ksq dp (removed, added) 0 := by
  simp [HalfKP.append_changed_indices, hn, List.range_succ]

theorem HalfKP.orient_val (perspective : Color) (s : Nat) (hs : s < 81) :
    HalfKP.orient perspective s = if perspective = .BLACK then s else 80 - s := by
  simp only [HalfKP.orient, IndexType, Flip, SQ_NB]
  split <;> omega

theorem HalfKP.kp_make_board_index_ne_of_square (T : HalfKP.Tables) (perspective : Color)
    (a b pc ksq : Nat) (ha : a < 81) (hb : b < 81) (hne : a ≠ b) :
    HalfKP.make_board_index T perspective a pc ksq
      ≠ HalfKP.make_board_index T perspective b pc ksq := by
  simp only [HalfKP.make_board_index, HalfKP.orient_val _ _ ha, HalfKP.orient_val _ _ hb,
    IndexType]
  generalize HalfKP.orient perspective ksq * T.NumPlanes = z
  generalize T.PieceSquareIndex perspective pc = p
  cases perspective <;> simp <;> omega

theorem HalfKAv2_hm.ka_make_board_index_ne_of_square (perspective : Color)
    (a b pc ksq : Nat) (ha : a < 81) (hb : b < 81) (hpc : pc < 32) (hk : ksq < 81)
    (hne : a ≠ b) :
    HalfKAv2_hm.make_board_index perspective a pc ksq
      ≠ HalfKAv2_hm.make_board_index perspective b pc ksq := by
  intro heq
  rw [HalfKAv2_hm.make_board_index_val _ _ _ _ ha hpc hk,
    HalfKAv2_hm.make_board_index_val _ _ _ _ hb hpc hk] at heq
  exact hne (HalfKAv2_hm.orient_inj perspective a b ksq ha hb (by omega))

/-- C6: quiet move. For both schemes and perspectives, a diff with a single entry, a non-king
piece moving from board square A to board square B without promotion, makes
`append_changed_indices` append exactly `make_board_index(A, pc, ksq)` to `removed` and
exactly `make_board_index(B, pc, ksq)` to `added`; the two indices differ when A differs
from B. -/
theorem quiet_move_changes_two_indices (T : HalfKP.Tables) (perspective : Color) (ksq : Nat)
    (dp : DirtyPiece) (removed added : List Nat)
    (hn : dp.dirty_num = 1) (hfrom : dp.from_ 0 < SQ_NB) (hto : dp.to_ 0 < SQ_NB)
    (hprom : dp.promote = false) (hking : type_of (dp.piece 0) ≠ KING)
    (hpc : dp.piece 0 < PIECE_NB) (hk : ksq < SQ_NB) :
    HalfKAv2_hm.append_changed_indices perspective ksq dp removed added
      = (removed ++ [HalfKAv2_hm.make_board_index perspective (dp.from_ 0) (dp.piece 0) ksq],
         added ++ [HalfKAv2_hm.make_board_index perspective (dp.to_ 0) (dp.piece 0) ksq]) ∧
    HalfKP.append_changed_indices T perspective ksq dp removed added
      = (removed ++ [HalfKP.make_board_index T perspective (dp.from_ 0) (dp.piece 0) ksq],
         added ++ [HalfKP.make_board_index T perspective (dp.to_ 0) (dp.piece 0) ksq]) ∧
    (dp.from_ 0 ≠ dp.to_ 0 →
      HalfKAv2_hm.make_board_index perspective (dp.from_ 0) (dp.piece 0) ksq
        ≠ HalfKAv2_hm.make_board_index perspective (dp.to_ 0) (dp.piece 0) ksq ∧
      HalfKP.make_board_index T perspective (dp.from_ 0) (dp.piece 0) ksq
        ≠ HalfKP.make_board_index T perspective (dp.to_ 0) (dp.piece 0) ksq) := by
  have hf : dp.from_ 0 ≠ SQ_NB := by omega
  have ht : dp.to_ 0 ≠ SQ_NB := by omega
  refine ⟨?_, ?_, ?_⟩
  · rw [HalfKAv2_hm.ka_append_changed_indices_one _ _ _ _ _ hn]
    simp [HalfKAv2_hm.changed_step, hf, ht, hprom]
  · rw [HalfKP.kp_append_changed_indices_one _ _ _ _ _ _ hn]
    simp [HalfKP.changed_step, hf, ht, hprom, hking]
  · intro hne
    simp only [SQ_NB, PIECE_NB] at *
    exact ⟨HalfKAv2_hm.ka_make_board_index_ne_of_square _ _ _ _ _ hfrom hto hpc hk hne,
      HalfKP.kp_make_board_index_ne_of_square _ _ _ _ _ _ hfrom hto hne⟩

/-- The quiet move of the white rook from square 10 to square 13, seen by White. -/
theorem quiet_move_changes_two_indices_witness :
    HalfKAv2_hm.append_changed_indices .WHITE 36 (diff_of [(22, 10, 13, -1)] false) [] []
      = ([HalfKAv2_hm.make_board_index .WHITE 10 22 36],
         [HalfKAv2_hm.make_board_index .WHITE 13 22 36]) ∧
    HalfKP.append_changed_indices sample_tables .WHITE 36 (diff_of [(22, 10, 13, -1)] false) [] []
      = ([HalfKP.make_board_index sample_tables .WHITE 10 22 36],
         [HalfKP.make_board_index sample_tables .WHITE 13 22 36]) ∧
    (HalfKAv2_hm.make_board_index .WHITE 10 22 36 ≠ HalfKAv2_hm.make_board_index .WHITE 13 22 36 ∧
      HalfKP.make_board_index sample_tables .WHITE 10 22 36
        ≠ HalfKP.make_board_index sample_tables .WHITE 13 22 36) := by
  have h := quiet_move_changes_two_indices sample_tables .WHITE 36
    (diff_of [(22, 10, 13, -1)] false) [] [] rfl (by decide) (by decide) rfl (by decide)
    (by decide) (by decide)
  exact ⟨h.1, h.2.1, h.2.2 (by decide)⟩
theorem HalfKP.kp_append_active_indices_eq (T : HalfKP.Tables) (perspective : Color)
    (pos : Position) (active : List Nat) :
    HalfKP.append_active_indices T perspective pos active
      = active
        ++ (pop_squares (fun s => pos.pieces s && !(pos.pieces_of KING s))).map
            (fun s => HalfKP.make_board_index T perspective s (pos.piece_on s)
              (pos.king_square perspective))
        ++ (pop_bits pos.hand_bits).map
            (fun (b : Nat) => HalfKP.make_hand_index T perspective (b : Int)
              (pos.king_square perspective)) := by
  simp only [HalfKP.append_active_indices, foldl_push_back]

theorem length_filter_diff (p q : Nat → Bool) (hq : ∀ x, q x = true → p x = true)
    (l : List Nat) :
    (l.filter (fun x => p x && !q x)).length + (l.filter q).length = (l.filter p).length := by
  induction l with
  | nil => simp
  | cons x xs ih =>
    have := hq x
    simp only [List.filter_cons]
    cases hp : p x <;> cases hq2 : q x <;> simp_all <;> omega

/-- C8 fails as stated: in a position with five occupied squares (both kings among them) and
an empty hand, HalfKP `append_active_indices` emits three indices, not four, and the index of
the opposing king is not among them. -/
theorem halfkp_active_count_counterexample :
    (pop_squares sample_pos_empty_hand.pieces).length = 5 ∧
    (pop_bits sample_pos_empty_hand.hand_bits).length = 0 ∧
    (HalfKP.append_active_indices sample_tables .BLACK sample_pos_empty_hand []).length = 3 ∧
    ¬ ((HalfKP.append_active_indices sample_tables .BLACK sample_pos_empty_hand []).length
        = (pop_squares sample_pos_empty_hand.pieces).length - 1) ∧
    HalfKP.make_board_index sample_tables .BLACK 36 24 44
      ∉ HalfKP.append_active_indices sample_tables .BLACK sample_pos_empty_hand [] := by
  decide

/-- C8 (amended): HalfKP `append_active_indices` keeps `active` and appends one board index
for every occupied square that does not hold a king of either colour, in increasing square
order, then one hand index per set hand bit; the number of board indices is the number of
occupied squares minus the number of squares holding a king. -/
theorem halfkp_active_indices_exclude_kings (T : HalfKP.Tables) (perspective : Color)
    (pos : Position) (active : List Nat) :
    HalfKP.append_active_indices T perspective pos active
      = active
        ++ ((List.range SQ_NB).filter
              (fun s => pos.piece_on s != NO_PIECE && type_of (pos.piece_on s) != KING)).map
            (fun s => HalfKP.make_board_index T perspective s (pos.piece_on s)
              (pos.king_square perspective))
        ++ (pop_bits pos.hand_bits).map
            (fun (b : Nat) => HalfKP.make_hand_index T perspective (b : Int)
              (pos.king_square perspective)) ∧
    ((List.range SQ_NB).filter
        (fun s => pos.piece_on s != NO_PIECE && type_of (pos.piece_on s) != KING)).length
      = (pop_squares pos.pieces).length - (pop_squares (pos.pieces_of KING)).length := by
  have hfilter : ∀ l : List Nat,
      l.filter (fun s => pos.pieces s && !(pos.pieces_of KING s))
        = l.filter (fun s => pos.piece_on s != NO_PIECE && type_of (pos.piece_on s) != KING) := by
    intro l
    apply List.filter_congr
    intro s _
    simp only [Position.pieces, Position.pieces_of]
    cases h1 : (pos.piece_on s != NO_PIECE) <;> cases h2 : (type_of (pos.piece_on s) == KING) <;>
      simp [bne, h2]
  constructor
  · rw [HalfKP.kp_append_active_indices_eq, pop_squares, hfilter]
  · have hlen := length_filter_diff pos.pieces (pos.pieces_of KING)
      (by intro x hx; simp only [Position.pieces, Position.pieces_of] at hx ⊢
          exact (Bool.and_eq_true _ _ ▸ hx).1) (List.range SQ_NB)
    rw [hfilter] at hlen
    simp only [pop_squares]
    omega
/-! ## The evaluation blend -/

namespace Eval

theorem int32_eq_self (x : Int) (h : in_int32 x) : int32 x = x := by
  unfold in_int32 at h
  unfold int32
  omega

theorem in_int32_tdiv (x k : Int) (h : in_int32 x) (hk : 0 < k) : in_int32 (Int.tdiv x k) := by
  unfold in_int32 at *
  rcases Int.le_total 0 x with hx | hx
  · rw [Int.tdiv_eq_ediv hx (le_of_lt hk)]
    have h1 : x / k ≤ x := Int.ediv_le_self k hx
    have h2 : 0 ≤ x / k := Int.ediv_nonneg hx (le_of_lt hk)
    omega
  · have hx2 : 0 ≤ -x := by omega
    have e : Int.tdiv x k = -(Int.tdiv (-x) k) := by rw [Int.neg_tdiv, neg_neg]
    rw [e, Int.tdiv_eq_ediv hx2 (le_of_lt hk)]
    have h1 : -x / k ≤ -x := Int.ediv_le_self k hx2
    have h2 : 0 ≤ -x / k := Int.ediv_nonneg hx2 (le_of_lt hk)
    omega

theorem std_abs_eq (x : Int) (h : in_int32 |x|) : std_abs x = |x| := by
  unfold std_abs
  have e : (if x < 0 then -x else x) = |x| := by
    split
    · rw [abs_of_neg (by assumption)]
    · rw [abs_of_nonneg (by omega)]
  rw [e, int32_eq_self _ h]

/-- C10: blend formula. Whenever no operation overflows 32-bit `int` arithmetic,
`Eval::evaluate` returns `clamp(n2 + o2, VALUE_TB_LOSS_IN_MAX_PLY + 1,
VALUE_TB_WIN_IN_MAX_PLY - 1)` with `n = (125*psqt + 131*positional)/128`,
`c = |psqt - positional|`, `o2 = optimism + optimism*c/468`, `n2 = n - n*c/18000`, every `/`
being the truncating `int` division; without `USE_OPTIMISM` the result is `clamp(n2, ...)`. -/
theorem evaluate_eq_blend (USE_OPTIMISM : Bool)
    (VALUE_TB_LOSS_IN_MAX_PLY VALUE_TB_WIN_IN_MAX_PLY psqt positional optimism : Int)
    (h : no_overflow USE_OPTIMISM VALUE_TB_LOSS_IN_MAX_PLY VALUE_TB_WIN_IN_MAX_PLY
      psqt positional optimism) :
    evaluate USE_OPTIMISM VALUE_TB_LOSS_IN_MAX_PLY VALUE_TB_WIN_IN_MAX_PLY
        psqt positional optimism
      = blend_spec USE_OPTIMISM VALUE_TB_LOSS_IN_MAX_PLY VALUE_TB_WIN_IN_MAX_PLY
          psqt positional optimism ∧
    blend_spec true VALUE_TB_LOSS_IN_MAX_PLY VALUE_TB_WIN_IN_MAX_PLY psqt positional optimism
      = std_clamp
          ((Int.tdiv (125 * psqt + 131 * positional) 128
              - Int.tdiv (Int.tdiv (125 * psqt + 131 * positional) 128 * |psqt - positional|)
                  18000)
            + (optimism + Int.tdiv (optimism * |psqt - positional|) 468))
          (VALUE_TB_LOSS_IN_MAX_PLY + 1) (VALUE_TB_WIN_IN_MAX_PLY - 1) ∧
    blend_spec false VALUE_TB_LOSS_IN_MAX_PLY VALUE_TB_WIN_IN_MAX_PLY psqt positional optimism
      = std_clamp
          (Int.tdiv (125 * psqt + 131 * positional) 128
              - Int.tdiv (Int.tdiv (125 * psqt + 131 * positional) 128 * |psqt - positional|)
                  18000)
          (VALUE_TB_LOSS_IN_MAX_PLY + 1) (VALUE_TB_WIN_IN_MAX_PLY - 1) := by
  refine ⟨?_, rfl, rfl⟩
  obtain ⟨hlo, hhi, h1, h2, h3, h4, h5, h6, h7, hopt⟩ := h
  have hn := in_int32_tdiv _ 128 h3 (by decide)
  have hnc := in_int32_tdiv _ 18000 h6 (by decide)
  simp only [evaluate, blend_spec]
  rw [int32_eq_self _ hlo, int32_eq_self _ hhi, int32_eq_self _ h1, int32_eq_self _ h2,
    int32_eq_self _ h3, int32_eq_self _ hn, int32_eq_self _ h4, std_abs_eq _ h5,
    int32_eq_self _ h6, int32_eq_self _ hnc, int32_eq_self _ h7]
  cases USE_OPTIMISM
  · simp
  · obtain ⟨h8, h9, h10⟩ := hopt rfl
    have hoc := in_int32_tdiv _ 468 h8 (by decide)
    rw [int32_eq_self _ h8, int32_eq_self _ hoc, int32_eq_self _ h9]
    simp only [if_true]
    rw [int32_eq_self _ h10]

/-- The blend at psqt = -500, positional = 300, optimism = -40: the result is -281, the
quotient -23200 / 128 being -181. -/
theorem evaluate_eq_blend_witness :
    evaluate true (-31507) 31507 (-500) 300 (-40) = -281 ∧
    blend_spec true (-31507) 31507 (-500) 300 (-40) = -281 := by
  have h := evaluate_eq_blend true (-31507) 31507 (-500) 300 (-40)
    (by simp only [no_overflow, in_int32]; decide)
  refine ⟨?_, by decide⟩
  rw [h.1]
  decide

end Eval
/-! ## Incremental update equals full recomputation -/

/-- Changing the filter and the mapped function at the single point `a` of a range changes
the resulting multiset by the contributions of `a` only. -/
theorem range_filter_map_update (n a : Nat) (ha : a < n) (p p' : Nat → Bool)
    (F F' : Nat → Nat) (h : ∀ s, s ≠ a → p s = p' s ∧ F s = F' s) :
    ((((List.range n).filter p).map F : List Nat) : Multiset Nat)
        + (if p' a = true then {F' a} else 0)
      = ((((List.range n).filter p').map F' : List Nat) : Multiset Nat)
        + (if p a = true then {F a} else 0) := by
  have key : ∀ (q : Nat → Bool) (G : Nat → Nat),
      ((((List.range n).filter q).map G : List Nat) : Multiset Nat)
        = (if q a = true then {G a} else 0)
          + Multiset.map G (Multiset.filter (fun s => q s = true) ((Multiset.range n).erase a)) := by
    intro q G
    have hf : ∀ l : List Nat, ((l.filter q : List Nat) : Multiset Nat)
        = Multiset.filter (fun s => q s = true) (l : Multiset Nat) := by
      intro l
      rw [Multiset.filter_coe]
      congr 1
      apply List.filter_congr
      simp
    rw [← Multiset.map_coe, hf, Multiset.coe_range,
      ← Multiset.cons_erase (Multiset.mem_range.2 ha), Multiset.filter_cons, Multiset.map_add]
    congr 1
    · split <;> simp
    · rw [Multiset.cons_erase (Multiset.mem_range.2 ha)]
  have hrest : Multiset.map F (Multiset.filter (fun s => p s = true) ((Multiset.range n).erase a))
      = Multiset.map F' (Multiset.filter (fun s => p' s = true) ((Multiset.range n).erase a)) := by
    have hna : ∀ s ∈ (Multiset.range n).erase a, s ≠ a := by
      intro s hs hsa
      subst hsa
      exact (Multiset.Nodup.mem_erase_iff (Multiset.nodup_range n)).1 hs |>.1 rfl
    rw [Multiset.filter_congr (q := fun s => p' s = true)
      (fun s hs => by rw [(h s (hna s hs)).1])]
    apply Multiset.map_congr rfl
    intro s hs
    exact (h s (hna s (Multiset.mem_of_mem_filter hs))).2
  rw [key p F, key p' F', hrest]
  abel
/-- Changing a board at the single square `a` changes the multiset of the indices of the
selected squares by the contributions of `a` only. -/
theorem board_update (sel : Nat → Bool) (idx : Nat → Nat → Nat) (f g : Nat → Nat) (a : Nat)
    (ha : a < SQ_NB) (hfg : ∀ s, s ≠ a → g s = f s) :
    ((((List.range SQ_NB).filter (fun s => sel (f s))).map (fun s => idx s (f s)) : List Nat)
        : Multiset Nat)
        + (if sel (g a) = true then {idx a (g a)} else 0)
      = ((((List.range SQ_NB).filter (fun s => sel (g s))).map (fun s => idx s (g s)) : List Nat)
        : Multiset Nat)
        + (if sel (f a) = true then {idx a (f a)} else 0) :=
  range_filter_map_update SQ_NB a ha (fun s => sel (f s)) (fun s => sel (g s))
    (fun s => idx s (f s)) (fun s => idx s (g s))
    (fun s hs => by simp only [hfg s hs, and_self])

theorem testBit_toggle (x a s : Nat) :
    (x ^^^ (1 <<< a)).testBit s = (x.testBit s ^^ decide (a = s)) := by
  rw [Nat.testBit_xor, Nat.one_shiftLeft, Nat.testBit_two_pow]

/-- Toggling hand bit `a` changes the multiset of hand indices by the index of `a`. -/
theorem hand_toggle (x a : Nat) (ha : a < 64) (F : Nat → Nat) :
    (((pop_bits x).map F : List Nat) : Multiset Nat)
        + (if (x ^^^ (1 <<< a)).testBit a = true then ({F a} : Multiset Nat) else 0)
      = (((pop_bits (x ^^^ (1 <<< a))).map F : List Nat) : Multiset Nat)
        + (if x.testBit a = true then ({F a} : Multiset Nat) else 0) := by
  refine range_filter_map_update 64 a ha (fun b => x.testBit b)
    (fun b => (x ^^^ (1 <<< a)).testBit b) F F ?_
  intro s hs
  refine ⟨?_, rfl⟩
  show x.testBit s = (x ^^^ (1 <<< a)).testBit s
  rw [testBit_toggle]
  simp [Ne.symm hs]

/-- Clearing a set hand bit. -/
theorem hand_clear (x : Nat) (h : Int) (h0 : 0 ≤ h) (h1 : h < 64)
    (hbit : x.testBit h.toNat = true) (F : Int → Nat) :
    (((pop_bits x).map (fun (b : Nat) => F (b : Int)) : List Nat) : Multiset Nat)
      = (((pop_bits (x ^^^ (1 <<< h.toNat))).map (fun (b : Nat) => F (b : Int)) : List Nat)
          : Multiset Nat) + {F h} := by
  have ha : h.toNat < 64 := by omega
  have hcast : ((h.toNat : Nat) : Int) = h := by omega
  have := hand_toggle x h.toNat ha (fun (b : Nat) => F (b : Int))
  rw [if_neg (by rw [testBit_toggle]; simp [hbit]), if_pos hbit, add_zero] at this
  simpa only [hcast] using this

/-- Setting a clear hand bit. -/
theorem hand_set (x : Nat) (h : Int) (h0 : 0 ≤ h) (h1 : h < 64)
    (hbit : x.testBit h.toNat = false) (F : Int → Nat) :
    (((pop_bits (x ^^^ (1 <<< h.toNat))).map (fun (b : Nat) => F (b : Int)) : List Nat)
          : Multiset Nat)
      = (((pop_bits x).map (fun (b : Nat) => F (b : Int)) : List Nat) : Multiset Nat) + {F h} := by
  have ha : h.toNat < 64 := by omega
  have hcast : ((h.toNat : Nat) : Int) = h := by omega
  have := hand_toggle x h.toNat ha (fun (b : Nat) => F (b : Int))
  rw [if_pos (by rw [testBit_toggle]; simp [hbit]), if_neg (by simp [hbit]), add_zero] at this
  simpa only [hcast] using this.symm

theorem HalfKAv2_hm.ka_active_multiset_eq (perspective : Color) (pos : Position) :
    ((HalfKAv2_hm.append_active_indices perspective pos [] : List Nat) : Multiset Nat)
      = HalfKAv2_hm.active_multiset perspective (pos.king_square perspective) pos := by
  rw [HalfKAv2_hm.ka_append_active_indices_eq, List.nil_append, ← Multiset.coe_add]
  rfl

theorem HalfKAv2_hm.ka_remove_step (perspective : Color) (ksq : Nat) (dp : DirtyPiece)
    (Q Q' : Position) (i : Nat) (h : remove_origin dp Q i = some Q') :
    Q'.king_square = Q.king_square ∧
    HalfKAv2_hm.active_multiset perspective ksq Q
      = HalfKAv2_hm.active_multiset perspective ksq Q'
        + ((HalfKAv2_hm.removed_of perspective ksq dp i : List Nat) : Multiset Nat) := by
  unfold remove_origin at h
  split at h
  · rename_i hc
    split at h
    · rename_i hw
      obtain ⟨-, -, h0, h1, hbit⟩ := hw
      have hQ := Option.some.inj h
      subst hQ
      refine ⟨rfl, ?_⟩
      have hr : HalfKAv2_hm.removed_of perspective ksq dp i
          = [HalfKAv2_hm.make_hand_index perspective (dp.hand_bit i) ksq] := by
        simp [HalfKAv2_hm.removed_of, HalfKAv2_hm.changed_step, hc]
      have := hand_clear Q.hand_bits (dp.hand_bit i) h0 h1 hbit
        (fun b => HalfKAv2_hm.make_hand_index perspective b ksq)
      unfold HalfKAv2_hm.active_multiset
      dsimp only
      rw [hr, this, Multiset.coe_singleton, add_assoc]
      rfl
    · cases h
  · rename_i hc
    split at h
    · rename_i hw
      obtain ⟨⟨-, hty⟩, hlt, hpc⟩ := hw
      have hQ := Option.some.inj h
      subst hQ
      refine ⟨rfl, ?_⟩
      have hne : dp.piece i ≠ 0 := by
        intro h0; rw [h0] at hty; exact hty rfl
      have hr : HalfKAv2_hm.removed_of perspective ksq dp i
          = [HalfKAv2_hm.make_board_index perspective (dp.from_ i) (dp.piece i) ksq] := by
        simp [HalfKAv2_hm.removed_of, HalfKAv2_hm.changed_step, hc]
      have := board_update (fun pc => pc != NO_PIECE)
        (fun s pc => HalfKAv2_hm.make_board_index perspective s pc ksq) Q.piece_on
        (fun s => if s = dp.from_ i then NO_PIECE else Q.piece_on s) (dp.from_ i) hlt
        (fun s hs => by simp only [hs, if_false])
      simp only [if_true, hpc] at this
      rw [if_neg (by simp), if_pos (by simpa [NO_PIECE] using hne), add_zero] at this
      unfold HalfKAv2_hm.active_multiset pop_squares Position.pieces
      dsimp only
      rw [hr, this, Multiset.coe_singleton]
      abel
    · cases h
theorem placed_ne_zero (dp : DirtyPiece) (i : Nat) (hp : dp.is_piece i) :
    dp.placed i ≠ NO_PIECE := by
  obtain ⟨hlt, hty⟩ := hp
  unfold DirtyPiece.placed
  generalize dp.piece i = pc at hlt hty
  simp only [PIECE_NB] at hlt
  revert hty
  cases dp.promote <;> interval_cases pc <;> decide

theorem placed_king_iff (dp : DirtyPiece) (i : Nat) (hp : dp.is_piece i) :
    type_of (dp.placed i) = KING ↔ type_of (dp.piece i) = KING := by
  obtain ⟨hlt, hty⟩ := hp
  unfold DirtyPiece.placed
  generalize dp.piece i = pc at hlt hty
  simp only [PIECE_NB] at hlt
  revert hty
  cases dp.promote <;> interval_cases pc <;> decide

theorem placed_not_own_king (perspective : Color) (dp : DirtyPiece) (i : Nat)
    (hp : dp.is_piece i) (hk : dp.piece i ≠ make_piece perspective KING) :
    ¬ (type_of (dp.placed i) = KING ∧ color_of (dp.placed i) = perspective) := by
  obtain ⟨hlt, hty⟩ := hp
  unfold DirtyPiece.placed
  generalize dp.piece i = pc at hlt hty hk
  simp only [PIECE_NB] at hlt
  revert hty hk
  cases dp.promote <;> cases perspective <;> interval_cases pc <;> decide

theorem HalfKAv2_hm.ka_place_step (perspective : Color) (ksq : Nat) (dp : DirtyPiece)
    (Q Q' : Position) (i : Nat) (h : place_destination dp Q i = some Q')
    (hk : dp.piece i ≠ make_piece perspective KING) :
    Q'.king_square perspective = Q.king_square perspective ∧
    HalfKAv2_hm.active_multiset perspective ksq Q'
      = HalfKAv2_hm.active_multiset perspective ksq Q
        + ((HalfKAv2_hm.added_of perspective ksq dp i : List Nat) : Multiset Nat) := by
  unfold place_destination at h
  split at h
  · rename_i hc
    split at h
    · rename_i hw
      obtain ⟨-, -, h0, h1, hbit⟩ := hw
      have hQ := Option.some.inj h
      subst hQ
      refine ⟨rfl, ?_⟩
      have hr : HalfKAv2_hm.added_of perspective ksq dp i
          = [HalfKAv2_hm.make_hand_index perspective (dp.hand_bit i) ksq] := by
        simp [HalfKAv2_hm.added_of, HalfKAv2_hm.changed_step, hc]
      have := hand_set Q.hand_bits (dp.hand_bit i) h0 h1 hbit
        (fun b => HalfKAv2_hm.make_hand_index perspective b ksq)
      unfold HalfKAv2_hm.active_multiset
      dsimp only
      rw [hr, this, Multiset.coe_singleton, add_assoc]
      rfl
    · cases h
  · rename_i hc
    split at h
    · rename_i hw
      obtain ⟨hp, hlt, hempty⟩ := hw
      have hQ := Option.some.inj h
      subst hQ
      refine ⟨if_neg (placed_not_own_king perspective dp i hp hk), ?_⟩
      have hr : HalfKAv2_hm.added_of perspective ksq dp i
          = [HalfKAv2_hm.make_board_index perspective (dp.to_ i) (dp.placed i) ksq] := by
        unfold DirtyPiece.placed
        cases hpr : dp.promote <;>
          simp [HalfKAv2_hm.added_of, HalfKAv2_hm.changed_step, hc, hpr]
      have := board_update (fun pc => pc != NO_PIECE)
        (fun s pc => HalfKAv2_hm.make_board_index perspective s pc ksq) Q.piece_on
        (fun s => if s = dp.to_ i then dp.placed i else Q.piece_on s) (dp.to_ i) hlt
        (fun s hs => by simp only [hs, if_false])
      simp only [if_true, hempty] at this
      rw [if_pos (by simpa using placed_ne_zero dp i hp), if_neg (by simp), add_zero] at this
      unfold HalfKAv2_hm.active_multiset pop_squares Position.pieces
      dsimp only
      rw [hr, ← this, Multiset.coe_singleton]
      abel
    · cases h
theorem HalfKP.kp_active_multiset_eq (T : HalfKP.Tables) (perspective : Color) (pos : Position) :
    ((HalfKP.append_active_indices T perspective pos [] : List Nat) : Multiset Nat)
      = HalfKP.active_multiset T perspective (pos.king_square perspective) pos := by
  rw [HalfKP.kp_append_active_indices_eq, List.nil_append, ← Multiset.coe_add]
  rfl

theorem HalfKP.kp_remove_step (T : HalfKP.Tables) (perspective : Color) (ksq : Nat)
    (dp : DirtyPiece) (Q Q' : Position) (i : Nat) (h : remove_origin dp Q i = some Q') :
    Q'.king_square = Q.king_square ∧
    HalfKP.active_multiset T perspective ksq Q
      = HalfKP.active_multiset T perspective ksq Q'
        + ((HalfKP.removed_of T perspective ksq dp i : List Nat) : Multiset Nat) := by
  unfold remove_origin at h
  split at h
  · rename_i hc
    split at h
    · rename_i hw
      obtain ⟨-, hnk, h0, h1, hbit⟩ := hw
      have hQ := Option.some.inj h
      subst hQ
      refine ⟨rfl, ?_⟩
      have hr : HalfKP.removed_of T perspective ksq dp i
          = [HalfKP.make_hand_index T perspective (dp.hand_bit i) ksq] := by
        simp [HalfKP.removed_of, HalfKP.changed_step, hc, hnk]
      have := hand_clear Q.hand_bits (dp.hand_bit i) h0 h1 hbit
        (fun b => HalfKP.make_hand_index T perspective b ksq)
      unfold HalfKP.active_multiset
      dsimp only
      rw [hr, this, Multiset.coe_singleton, add_assoc]
      rfl
    · cases h
  · rename_i hc
    split at h
    · rename_i hw
      obtain ⟨⟨-, hty⟩, hlt, hpc⟩ := hw
      have hQ := Option.some.inj h
      subst hQ
      refine ⟨rfl, ?_⟩
      have hne : dp.piece i ≠ 0 := by
        intro h0; rw [h0] at hty; exact hty rfl
      have := board_update
        (fun pc => pc != NO_PIECE && !(pc != NO_PIECE && type_of pc == KING))
        (fun s pc => HalfKP.make_board_index T perspective s pc ksq) Q.piece_on
        (fun s => if s = dp.from_ i then NO_PIECE else Q.piece_on s) (dp.from_ i) hlt
        (fun s hs => by simp only [hs, if_false])
      simp only [if_true, hpc] at this
      rw [if_neg (by simp), add_zero] at this
      unfold HalfKP.active_multiset pop_squares Position.pieces Position.pieces_of
      dsimp only
      rw [this]
      by_cases hking : type_of (dp.piece i) = KING
      · have hr : HalfKP.removed_of T perspective ksq dp i = [] := by
          simp [HalfKP.removed_of, HalfKP.changed_step, hking]
        rw [hr, if_neg (by simp [hking])]
        simp
      · have hr : HalfKP.removed_of T perspective ksq dp i
            = [HalfKP.make_board_index T perspective (dp.from_ i) (dp.piece i) ksq] := by
          simp [HalfKP.removed_of, HalfKP.changed_step, hc, hking]
        rw [hr, if_pos (by simpa [NO_PIECE, hking] using hne), Multiset.coe_singleton]
        abel
    · cases h

theorem HalfKP.kp_place_step (T : HalfKP.Tables) (perspective : Color) (ksq : Nat)
    (dp : DirtyPiece) (Q Q' : Position) (i : Nat) (h : place_destination dp Q i = some Q')
    (hk : dp.piece i ≠ make_piece perspective KING) :
    Q'.king_square perspective = Q.king_square perspective ∧
    HalfKP.active_multiset T perspective ksq Q'
      = HalfKP.active_multiset T perspective ksq Q
        + ((HalfKP.added_of T perspective ksq dp i : List Nat) : Multiset Nat) := by
  unfold place_destination at h
  split at h
  · rename_i hc
    split at h
    · rename_i hw
      obtain ⟨-, hnk, h0, h1, hbit⟩ := hw
      have hQ := Option.some.inj h
      subst hQ
      refine ⟨rfl, ?_⟩
      have hr : HalfKP.added_of T perspective ksq dp i
          = [HalfKP.make_hand_index T perspective (dp.hand_bit i) ksq] := by
        simp [HalfKP.added_of, HalfKP.changed_step, hc, hnk]
      have := hand_set Q.hand_bits (dp.hand_bit i) h0 h1 hbit
        (fun b => HalfKP.make_hand_index T perspective b ksq)
      unfold HalfKP.active_multiset
      dsimp only
      rw [hr, this, Multiset.coe_singleton, add_assoc]
      rfl
    · cases h
  · rename_i hc
    split at h
    · rename_i hw
      obtain ⟨hp, hlt, hempty⟩ := hw
      have hQ := Option.some.inj h
      subst hQ
      refine ⟨if_neg (placed_not_own_king perspective dp i hp hk), ?_⟩
      have := board_update
        (fun pc => pc != NO_PIECE && !(pc != NO_PIECE && type_of pc == KING))
        (fun s pc => HalfKP.make_board_index T perspective s pc ksq) Q.piece_on
        (fun s => if s = dp.to_ i then dp.placed i else Q.piece_on s) (dp.to_ i) hlt
        (fun s hs => by simp only [hs, if_false])
      simp only [if_true, hempty] at this
      have hpl := placed_ne_zero dp i hp
      have hiff := placed_king_iff dp i hp
      unfold HalfKP.active_multiset pop_squares Position.pieces Position.pieces_of
      dsimp only
      by_cases hking : type_of (dp.piece i) = KING
      · have hr : HalfKP.added_of T perspective ksq dp i = [] := by
          simp [HalfKP.added_of, HalfKP.changed_step, hking]
        rw [if_neg (by simp [hiff.2 hking]), if_neg (by simp), add_zero, add_zero] at this
        rw [hr, ← this]
        simp
      · have hr : HalfKP.added_of T perspective ksq dp i
            = [HalfKP.make_board_index T perspective (dp.to_ i) (dp.placed i) ksq] := by
          unfold DirtyPiece.placed
          cases hpr : dp.promote <;>
            simp [HalfKP.added_of, HalfKP.changed_step, hc, hpr, hking]
        have hnk : ¬ type_of (dp.placed i) = KING := fun hcontra => hking (hiff.1 hcontra)
        rw [if_pos (by simpa [hnk] using hpl), if_neg (by simp), add_zero] at this
        rw [hr, ← this, Multiset.coe_singleton]
        abel
    · cases h
/-- A loop of steps each of which takes the indices `c i` out of the multiset `M` takes out
all of them; an observation `K` kept by every step is kept by the loop. -/
theorem foldlM_loss {σ κ : Type} (step : σ → Nat → Option σ) (M : σ → Multiset Nat)
    (K : σ → κ) (c : Nat → List Nat) (l : List Nat)
    (hstep : ∀ Q Q' i, i ∈ l → step Q i = some Q' →
      K Q' = K Q ∧ M Q = M Q' + ((c i : List Nat) : Multiset Nat))
    (Q Q' : σ) (h : l.foldlM step Q = some Q') :
    K Q' = K Q ∧ M Q = M Q' + ((l.flatMap c : List Nat) : Multiset Nat) := by
  induction l generalizing Q with
  | nil =>
    simp only [List.foldlM_nil] at h
    cases h
    simp
  | cons x xs ih =>
    rw [List.foldlM_cons] at h
    obtain ⟨Q1, h1, h2⟩ := Option.bind_eq_some.1 h
    obtain ⟨k1, m1⟩ := hstep Q Q1 x (List.mem_cons_self _ _) h1
    obtain ⟨k2, m2⟩ := ih (fun A B i hi => hstep A B i (List.mem_cons_of_mem _ hi)) Q1 h2
    refine ⟨k2.trans k1, ?_⟩
    rw [m1, m2, List.flatMap_cons, ← Multiset.coe_add]
    abel

/-- A loop of steps each of which puts the indices `c i` into the multiset `M` puts in all of
them; an observation `K` kept by every step is kept by the loop. -/
theorem foldlM_gain {σ κ : Type} (step : σ → Nat → Option σ) (M : σ → Multiset Nat)
    (K : σ → κ) (c : Nat → List Nat) (l : List Nat)
    (hstep : ∀ Q Q' i, i ∈ l → step Q i = some Q' →
      K Q' = K Q ∧ M Q' = M Q + ((c i : List Nat) : Multiset Nat))
    (Q Q' : σ) (h : l.foldlM step Q = some Q') :
    K Q' = K Q ∧ M Q' = M Q + ((l.flatMap c : List Nat) : Multiset Nat) := by
  induction l generalizing Q with
  | nil =>
    simp only [List.foldlM_nil] at h
    cases h
    simp
  | cons x xs ih =>
    rw [List.foldlM_cons] at h
    obtain ⟨Q1, h1, h2⟩ := Option.bind_eq_some.1 h
    obtain ⟨k1, m1⟩ := hstep Q Q1 x (List.mem_cons_self _ _) h1
    obtain ⟨k2, m2⟩ := ih (fun A B i hi => hstep A B i (List.mem_cons_of_mem _ hi)) Q1 h2
    refine ⟨k2.trans k1, ?_⟩
    rw [m2, m1, List.flatMap_cons, ← Multiset.coe_add]
    abel

theorem HalfKAv2_hm.ka_changed_step_eq (perspective : Color) (ksq : Nat) (dp : DirtyPiece)
    (ra : List Nat × List Nat) (i : Nat) :
    HalfKAv2_hm.changed_step perspective ksq dp ra i
      = (ra.1 ++ HalfKAv2_hm.removed_of perspective ksq dp i,
         ra.2 ++ HalfKAv2_hm.added_of perspective ksq dp i) := by
  simp only [HalfKAv2_hm.changed_step, HalfKAv2_hm.removed_of, HalfKAv2_hm.added_of,
    List.nil_append]
  split <;> split <;> first | rfl | (split <;> rfl)

theorem HalfKP.kp_changed_step_eq (T : HalfKP.Tables) (perspective : Color) (ksq : Nat)
    (dp : DirtyPiece) (ra : List Nat × List Nat) (i : Nat) :
    HalfKP.changed_step T perspective ksq dp ra i
      = (ra.1 ++ HalfKP.removed_of T perspective ksq dp i,
         ra.2 ++ HalfKP.added_of T perspective ksq dp i) := by
  simp only [HalfKP.changed_step, HalfKP.removed_of, HalfKP.added_of, List.nil_append]
  split
  · simp
  · split <;> split <;> first | rfl | (split <;> rfl)

/-- The loop over the entries of a diff appends the contributions of the entries in order. -/
theorem foldl_changed (step : List Nat × List Nat → Nat → List Nat × List Nat)
    (r a : Nat → List Nat) (hstep : ∀ ra i, step ra i = (ra.1 ++ r i, ra.2 ++ a i))
    (l : List Nat) (ra : List Nat × List Nat) :
    l.foldl step ra = (ra.1 ++ l.flatMap r, ra.2 ++ l.flatMap a) := by
  induction l generalizing ra with
  | nil => simp
  | cons x xs ih => simp [ih, hstep, List.flatMap_cons, List.append_assoc]

theorem HalfKAv2_hm.ka_append_changed_indices_eq (perspective : Color) (ksq : Nat)
    (dp : DirtyPiece) (removed added : List Nat) :
    HalfKAv2_hm.append_changed_indices perspective ksq dp removed added
      = (removed ++ (List.range dp.dirty_num).flatMap (HalfKAv2_hm.removed_of perspective ksq dp),
         added ++ (List.range dp.dirty_num).flatMap (HalfKAv2_hm.added_of perspective ksq dp)) :=
  foldl_changed _ _ _ (HalfKAv2_hm.ka_changed_step_eq perspective ksq dp) _ _

theorem HalfKP.kp_append_changed_indices_eq (T : HalfKP.Tables) (perspective : Color) (ksq : Nat)
    (dp : DirtyPiece) (removed added : List Nat) :
    HalfKP.append_changed_indices T perspective ksq dp removed added
      = (removed ++ (List.range dp.dirty_num).flatMap (HalfKP.removed_of T perspective ksq dp),
         added ++ (List.range dp.dirty_num).flatMap (HalfKP.added_of T perspective ksq dp)) :=
  foldl_changed _ _ _ (HalfKP.kp_changed_step_eq T perspective ksq dp) _ _

/-- C1: incremental equals full. For each feature scheme and each perspective, when a move
with diff `dp` leads from position `P` to position `P'` and no entry of `dp` is that
perspective's king, the king square of the perspective is the same in `P` and `P'`, every
index `append_changed_indices(ksq, dp)` appends to `removed` is among the indices
`append_active_indices` emits for `P` (with its multiplicity), and the multiset of indices
emitted for `P'` together with the removed ones is the multiset emitted for `P` together with
the added ones; so the multiset for `P'` is exactly the one for `P` minus `removed` plus
`added`. -/
theorem incremental_equals_full (T : HalfKP.Tables) (perspective : Color) (P P' : Position)
    (dp : DirtyPiece) (hmove : apply_diff P dp = some P')
    (hking : ∀ i, i < dp.dirty_num → dp.piece i ≠ make_piece perspective KING) :
    P'.king_square perspective = P.king_square perspective ∧
    ((((HalfKAv2_hm.append_changed_indices perspective (P.king_square perspective)
          dp [] []).1 : List Nat) : Multiset Nat)
        ≤ ((HalfKAv2_hm.append_active_indices perspective P [] : List Nat) : Multiset Nat) ∧
      ((HalfKAv2_hm.append_active_indices perspective P' [] : List Nat) : Multiset Nat)
          + (((HalfKAv2_hm.append_changed_indices perspective (P.king_square perspective)
                dp [] []).1 : List Nat) : Multiset Nat)
        = ((HalfKAv2_hm.append_active_indices perspective P [] : List Nat) : Multiset Nat)
          + (((HalfKAv2_hm.append_changed_indices perspective (P.king_square perspective)
                dp [] []).2 : List Nat) : Multiset Nat) ∧
      ((HalfKAv2_hm.append_active_indices perspective P' [] : List Nat) : Multiset Nat)
        = ((HalfKAv2_hm.append_active_indices perspective P [] : List Nat) : Multiset Nat)
          - (((HalfKAv2_hm.append_changed_indices perspective (P.king_square perspective)
                dp [] []).1 : List Nat) : Multiset Nat)
          + (((HalfKAv2_hm.append_changed_indices perspective (P.king_square perspective)
                dp [] []).2 : List Nat) : Multiset Nat)) ∧
    ((((HalfKP.append_changed_indices T perspective (P.king_square perspective)
          dp [] []).1 : List Nat) : Multiset Nat)
        ≤ ((HalfKP.append_active_indices T perspective P [] : List Nat) : Multiset Nat) ∧
      ((HalfKP.append_active_indices T perspective P' [] : List Nat) : Multiset Nat)
          + (((HalfKP.append_changed_indices T perspective (P.king_square perspective)
                dp [] []).1 : List Nat) : Multiset Nat)
        = ((HalfKP.append_active_indices T perspective P [] : List Nat) : Multiset Nat)
          + (((HalfKP.append_changed_indices T perspective (P.king_square perspective)
                dp [] []).2 : List Nat) : Multiset Nat) ∧
      ((HalfKP.append_active_indices T perspective P' [] : List Nat) : Multiset Nat)
        = ((HalfKP.append_active_indices T perspective P [] : List Nat) : Multiset Nat)
          - (((HalfKP.append_changed_indices T perspective (P.king_square perspective)
                dp [] []).1 : List Nat) : Multiset Nat)
          + (((HalfKP.append_changed_indices T perspective (P.king_square perspective)
                dp [] []).2 : List Nat) : Multiset Nat)) := by
  obtain ⟨Q, hrem, hadd⟩ := Option.bind_eq_some.1 hmove
  have hk : ∀ i ∈ List.range dp.dirty_num, dp.piece i ≠ make_piece perspective KING :=
    fun i hi => hking i (List.mem_range.1 hi)
  have ka1 := foldlM_loss (remove_origin dp)
    (HalfKAv2_hm.active_multiset perspective (P.king_square perspective))
    Position.king_square (HalfKAv2_hm.removed_of perspective (P.king_square perspective) dp)
    (List.range dp.dirty_num)
    (fun A B i _ h => HalfKAv2_hm.ka_remove_step perspective _ dp A B i h) P Q hrem
  have ka2 := foldlM_gain (place_destination dp)
    (HalfKAv2_hm.active_multiset perspective (P.king_square perspective))
    (fun pos => pos.king_square perspective)
    (HalfKAv2_hm.added_of perspective (P.king_square perspective) dp)
    (List.range dp.dirty_num)
    (fun A B i hi h => HalfKAv2_hm.ka_place_step perspective _ dp A B i h (hk i hi)) Q P' hadd
  have kp1 := foldlM_loss (remove_origin dp)
    (HalfKP.active_multiset T perspective (P.king_square perspective))
    Position.king_square (HalfKP.removed_of T perspective (P.king_square perspective) dp)
    (List.range dp.dirty_num)
    (fun A B i _ h => HalfKP.kp_remove_step T perspective _ dp A B i h) P Q hrem
  have kp2 := foldlM_gain (place_destination dp)
    (HalfKP.active_multiset T perspective (P.king_square perspective))
    (fun pos => pos.king_square perspective)
    (HalfKP.added_of T perspective (P.king_square perspective) dp)
    (List.range dp.dirty_num)
    (fun A B i hi h => HalfKP.kp_place_step T perspective _ dp A B i h (hk i hi)) Q P' hadd
  have hksq : P'.king_square perspective = P.king_square perspective :=
    ka2.1.trans (congrFun ka1.1 perspective)
  refine ⟨hksq, ?_, ?_⟩
  · rw [HalfKAv2_hm.ka_active_multiset_eq, HalfKAv2_hm.ka_active_multiset_eq, hksq,
      HalfKAv2_hm.ka_append_changed_indices_eq, List.nil_append, List.nil_append,
      ka2.2, ka1.2]
    refine ⟨Multiset.le_add_left _ _, ?_, ?_⟩
    · abel
    · rw [add_tsub_cancel_right]
  · rw [HalfKP.kp_active_multiset_eq, HalfKP.kp_active_multiset_eq, hksq,
      HalfKP.kp_append_changed_indices_eq, List.nil_append, List.nil_append,
      kp2.2, kp1.2]
    refine ⟨Multiset.le_add_left _ _, ?_, ?_⟩
    · abel
    · rw [add_tsub_cancel_right]

/-- The sample capture in the sample position, seen by Black: the removed indices are among
the active ones of the position before, and the active indices after the move together with
the removed ones are the active indices before together with the added ones. -/
theorem incremental_equals_full_witness :
    sample_pos_after.king_square .BLACK = sample_pos.king_square .BLACK ∧
    (((HalfKAv2_hm.append_changed_indices .BLACK 44 sample_capture [] []).1 : List Nat)
        : Multiset Nat)
      ≤ ((HalfKAv2_hm.append_active_indices .BLACK sample_pos [] : List Nat) : Multiset Nat) ∧
    ((HalfKAv2_hm.append_active_indices .BLACK sample_pos_after [] : List Nat) : Multiset Nat)
        + (((HalfKAv2_hm.append_changed_indices .BLACK 44 sample_capture [] []).1 : List Nat)
            : Multiset Nat)
      = ((HalfKAv2_hm.append_active_indices .BLACK sample_pos [] : List Nat) : Multiset Nat)
        + (((HalfKAv2_hm.append_changed_indices .BLACK 44 sample_capture [] []).2 : List Nat)
            : Multiset Nat) ∧
    ((HalfKP.append_active_indices sample_tables .BLACK sample_pos_after [] : List Nat)
        : Multiset Nat)
        + (((HalfKP.append_changed_indices sample_tables .BLACK 44 sample_capture [] []).1
            : List Nat) : Multiset Nat)
      = ((HalfKP.append_active_indices sample_tables .BLACK sample_pos [] : List Nat)
          : Multiset Nat)
        + (((HalfKP.append_changed_indices sample_tables .BLACK 44 sample_capture [] []).2
            : List Nat) : Multiset Nat) :=
  let h := incremental_equals_full sample_tables .BLACK sample_pos sample_pos_after
    sample_capture rfl (by decide)
  ⟨h.1, h.2.1.1, h.2.1.2.1, h.2.2.2.1⟩
/-- The entries of a loop `for (i = 0; i < n; ++i)`: those before `i`, then `i`, then the
later ones. -/
theorem range_split (n i : Nat) (hi : i < n) :
    List.range n = List.range i ++ i :: List.range' (i + 1) (n - (i + 1)) := by
  obtain ⟨k, rfl⟩ : ∃ k, n = (k + 1) + i := ⟨n - (i + 1), by omega⟩
  have e : k + 1 + i - (i + 1) = k := by omega
  rw [e, List.range_eq_range', List.range_eq_range', ← List.range'_append_1,
    List.range'_succ]
  simp

/-- The loop over the entries of a diff, split at entry `i`: the lists after the entries
before `i`, then what entry `i` appends, then what the later entries append. -/
theorem foldl_changed_split (step : List Nat × List Nat → Nat → List Nat × List Nat)
    (r a : Nat → List Nat) (hstep : ∀ ra i, step ra i = (ra.1 ++ r i, ra.2 ++ a i))
    (n i : Nat) (hi : i < n) (ra : List Nat × List Nat) :
    ∃ r2 a2 : List Nat,
      (List.range n).foldl step ra
        = (((List.range i).foldl step ra).1 ++ r i ++ r2,
           ((List.range i).foldl step ra).2 ++ a i ++ a2) ∧
      (n = i + 1 → r2 = [] ∧ a2 = []) := by
  refine ⟨(List.range' (i + 1) (n - (i + 1))).flatMap r,
    (List.range' (i + 1) (n - (i + 1))).flatMap a, ?_, ?_⟩
  · rw [foldl_changed step r a hstep, foldl_changed step r a hstep, range_split n i hi]
    simp [List.flatMap_append, List.flatMap_cons, List.append_assoc]
  · intro hn
    subst hn
    simp

theorem HalfKAv2_hm.ka_entry_split (perspective : Color) (ksq : Nat) (dp : DirtyPiece)
    (removed added : List Nat) (i : Nat) (hi : i < dp.dirty_num) :
    ∃ r2 a2 : List Nat,
      HalfKAv2_hm.append_changed_indices perspective ksq dp removed added
        = ((HalfKAv2_hm.append_changed_indices perspective ksq { dp with dirty_num := i }
              removed added).1 ++ HalfKAv2_hm.removed_of perspective ksq dp i ++ r2,
           (HalfKAv2_hm.append_changed_indices perspective ksq { dp with dirty_num := i }
              removed added).2 ++ HalfKAv2_hm.added_of perspective ksq dp i ++ a2) ∧
      (dp.dirty_num = i + 1 → r2 = [] ∧ a2 = []) :=
  foldl_changed_split _ _ _ (HalfKAv2_hm.ka_changed_step_eq perspective ksq dp)
    dp.dirty_num i hi (removed, added)

theorem HalfKP.kp_entry_split (T : HalfKP.Tables) (perspective : Color) (ksq : Nat)
    (dp : DirtyPiece) (removed added : List Nat) (i : Nat) (hi : i < dp.dirty_num) :
    ∃ r2 a2 : List Nat,
      HalfKP.append_changed_indices T perspective ksq dp removed added
        = ((HalfKP.append_changed_indices T perspective ksq { dp with dirty_num := i }
              removed added).1 ++ HalfKP.removed_of T perspective ksq dp i ++ r2,
           (HalfKP.append_changed_indices T perspective ksq { dp with dirty_num := i }
              removed added).2 ++ HalfKP.added_of T perspective ksq dp i ++ a2) ∧
      (dp.dirty_num = i + 1 → r2 = [] ∧ a2 = []) :=
  foldl_changed_split _ _ _ (HalfKP.kp_changed_step_eq T perspective ksq dp)
    dp.dirty_num i hi (removed, added)
/-- C7: hand entries. For both schemes and every diff, an entry `i` with `from == SQ_NB` and
a hand slot `h` other than -1 (a drop onto square B) makes `append_changed_indices` append
`make_hand_index(h, ksq)` to `removed` and the board index of B to `added`; an entry with
`to == SQ_NB` and a hand slot `h` (a capture on square A) makes it append the board index of
(A, piece) to `removed` and `make_hand_index(h, ksq)` to `added`. The lists it returns are the
lists after the entries before `i`, then that one index, then what the later entries append,
which is nothing when `i` is the last entry. HalfKP does so for every entry whose piece is
not a king. -/
theorem hand_entries_use_hand_index (T : HalfKP.Tables) (perspective : Color) (ksq : Nat)
    (dp : DirtyPiece) (i : Nat) (removed added : List Nat) (hi : i < dp.dirty_num)
    (hh : dp.hand_bit i ≠ -1) :
    (dp.from_ i = SQ_NB → dp.to_ i < SQ_NB →
      (∃ r a : List Nat,
        HalfKAv2_hm.append_changed_indices perspective ksq dp removed added
          = ((HalfKAv2_hm.append_changed_indices perspective ksq { dp with dirty_num := i }
                removed added).1
              ++ [HalfKAv2_hm.make_hand_index perspective (dp.hand_bit i) ksq] ++ r,
             (HalfKAv2_hm.append_changed_indices perspective ksq { dp with dirty_num := i }
                removed added).2
              ++ [HalfKAv2_hm.make_board_index perspective (dp.to_ i)
                  (if dp.promote then make_promoted_piece (dp.piece i) else dp.piece i) ksq]
              ++ a) ∧
        (dp.dirty_num = i + 1 → r = [] ∧ a = [])) ∧
      (type_of (dp.piece i) ≠ KING →
        ∃ r a : List Nat,
          HalfKP.append_changed_indices T perspective ksq dp removed added
            = ((HalfKP.append_changed_indices T perspective ksq { dp with dirty_num := i }
                  removed added).1
                ++ [HalfKP.make_hand_index T perspective (dp.hand_bit i) ksq] ++ r,
               (HalfKP.append_changed_indices T perspective ksq { dp with dirty_num := i }
                  removed added).2
                ++ [HalfKP.make_board_index T perspective (dp.to_ i)
                    (if dp.promote then make_promoted_piece (dp.piece i) else dp.piece i) ksq]
                ++ a) ∧
          (dp.dirty_num = i + 1 → r = [] ∧ a = []))) ∧
    (dp.to_ i = SQ_NB → dp.from_ i < SQ_NB →
      (∃ r a : List Nat,
        HalfKAv2_hm.append_changed_indices perspective ksq dp removed added
          = ((HalfKAv2_hm.append_changed_indices perspective ksq { dp with dirty_num := i }
                removed added).1
              ++ [HalfKAv2_hm.make_board_index perspective (dp.from_ i) (dp.piece i) ksq] ++ r,
             (HalfKAv2_hm.append_changed_indices perspective ksq { dp with dirty_num := i }
                removed added).2
              ++ [HalfKAv2_hm.make_hand_index perspective (dp.hand_bit i) ksq] ++ a) ∧
        (dp.dirty_num = i + 1 → r = [] ∧ a = [])) ∧
      (type_of (dp.piece i) ≠ KING →
        ∃ r a : List Nat,
          HalfKP.append_changed_indices T perspective ksq dp removed added
            = ((HalfKP.append_changed_indices T perspective ksq { dp with dirty_num := i }
                  removed added).1
                ++ [HalfKP.make_board_index T perspective (dp.from_ i) (dp.piece i) ksq] ++ r,
               (HalfKP.append_changed_indices T perspective ksq { dp with dirty_num := i }
                  removed added).2
                ++ [HalfKP.make_hand_index T perspective (dp.hand_bit i) ksq] ++ a) ∧
          (dp.dirty_num = i + 1 → r = [] ∧ a = []))) := by
  obtain ⟨r, a, hKA, hKAlast⟩ :=
    HalfKAv2_hm.ka_entry_split perspective ksq dp removed added i hi
  obtain ⟨r', a', hKP, hKPlast⟩ :=
    HalfKP.kp_entry_split T perspective ksq dp removed added i hi
  constructor
  · intro hf hto
    have ht : dp.to_ i ≠ SQ_NB := by omega
    constructor
    · refine ⟨r, a, ?_, hKAlast⟩
      rw [hKA]
      cases hp : dp.promote <;>
        simp [HalfKAv2_hm.removed_of, HalfKAv2_hm.added_of, HalfKAv2_hm.changed_step,
          hf, ht, hh, hp]
    · intro hking
      refine ⟨r', a', ?_, hKPlast⟩
      rw [hKP]
      cases hp : dp.promote <;>
        simp [HalfKP.removed_of, HalfKP.added_of, HalfKP.changed_step, hf, ht, hh, hp, hking]
  · intro ht hfrom
    have hf : dp.from_ i ≠ SQ_NB := by omega
    constructor
    · refine ⟨r, a, ?_, hKAlast⟩
      rw [hKA]
      simp [HalfKAv2_hm.removed_of, HalfKAv2_hm.added_of, HalfKAv2_hm.changed_step,
        hf, ht, hh]
    · intro hking
      refine ⟨r', a', ?_, hKPlast⟩
      rw [hKP]
      simp [HalfKP.removed_of, HalfKP.added_of, HalfKP.changed_step, hf, ht, hh, hking]

/-- The drop of a black pawn from hand slot 0 onto square 40, and the second entry of the
sample capture, the white pawn taken on square 38 that goes to hand slot 1, seen by Black:
what `append_changed_indices` returns. -/
theorem hand_entries_use_hand_index_witness :
    (HalfKAv2_hm.append_changed_indices .BLACK 44 (diff_of [(1, 81, 40, 0)] false) [] []
        = ([HalfKAv2_hm.make_hand_index .BLACK 0 44],
           [HalfKAv2_hm.make_board_index .BLACK 40 1 44]) ∧
      HalfKP.append_changed_indices sample_tables .BLACK 44
          (diff_of [(1, 81, 40, 0)] false) [] []
        = ([HalfKP.make_hand_index sample_tables .BLACK 0 44],
           [HalfKP.make_board_index sample_tables .BLACK 40 1 44])) ∧
    HalfKAv2_hm.append_changed_indices .BLACK 44 sample_capture [] []
      = ([HalfKAv2_hm.make_board_index .BLACK 42 1 44,
          HalfKAv2_hm.make_board_index .BLACK 38 17 44],
         [HalfKAv2_hm.make_board_index .BLACK 38 1 44,
          HalfKAv2_hm.make_hand_index .BLACK 1 44]) := by
  have h := (hand_entries_use_hand_index sample_tables .BLACK 44
    (diff_of [(1, 81, 40, 0)] false) 0 [] [] (by decide) (by decide)).1 rfl (by decide)
  have c := (hand_entries_use_hand_index sample_tables .BLACK 44
    sample_capture 1 [] [] (by decide) (by decide)).2 rfl (by decide)
  obtain ⟨⟨r, a, e, hl⟩, hkp⟩ := h
  obtain ⟨r', a', e', hl'⟩ := hkp (by decide)
  obtain ⟨⟨r2, a2, e2, hl2⟩, -⟩ := c
  obtain ⟨rfl, rfl⟩ := hl rfl
  obtain ⟨rfl, rfl⟩ := hl' rfl
  obtain ⟨rfl, rfl⟩ := hl2 rfl
  exact ⟨⟨e, e'⟩, e2⟩
namespace Eval

theorem tdiv_eq_div_toward_zero (x k : Int) (hk : 0 < k) :
    Int.tdiv x k = div_toward_zero x k := by
  unfold div_toward_zero
  split
  · rename_i hx
    exact Int.tdiv_eq_ediv hx (le_of_lt hk)
  · rename_i hx
    have hx2 : 0 ≤ -x := by omega
    have e : Int.tdiv x k = -(Int.tdiv (-x) k) := by rw [Int.neg_tdiv, neg_neg]
    rw [e, Int.tdiv_eq_ediv hx2 (le_of_lt hk)]

/-- C11 fails as stated: for psqt = -1 and positional = 0 the intermediate nnue is 0, not
floor(-125/128) = -1; the quotient -1 * 1 / 468 is 0, not -1; and for psqt = -128,
positional = 0 the program returns -125 where flooring divisions would give -124. -/
theorem blend_floor_counterexample :
    nnue_quotient (-1) 0 = 0 ∧ (125 * (-1) + 131 * 0 : Int) / 128 = -1 ∧
    optimism_quotient (-1) 1 = 0 ∧ (-1 * 1 : Int) / 468 = -1 ∧
    complexity_quotient (-125) 128 = 0 ∧ (-125 * 128 : Int) / 18000 = -1 ∧
    evaluate false (-31507) 31507 (-128) 0 0 = -125 ∧
    blend_floor false (-31507) 31507 (-128) 0 0 = -124 := by
  decide

/-- C11 (amended): every integer division in `Eval::evaluate` (by 128, by 468 and by 18000)
rounds toward zero: when no operation overflows, each quotient is the floor for a numerator
that is not negative and minus the floor of the negated numerator otherwise, and the value
returned is the clamp of the blend of these quotients. -/
theorem divisions_round_toward_zero (USE_OPTIMISM : Bool)
    (VALUE_TB_LOSS_IN_MAX_PLY VALUE_TB_WIN_IN_MAX_PLY psqt positional optimism : Int)
    (h : no_overflow USE_OPTIMISM VALUE_TB_LOSS_IN_MAX_PLY VALUE_TB_WIN_IN_MAX_PLY
      psqt positional optimism) :
    nnue_quotient psqt positional = div_toward_zero (125 * psqt + 131 * positional) 128 ∧
    complexity_quotient (nnue_quotient psqt positional) |psqt - positional|
      = div_toward_zero (nnue_quotient psqt positional * |psqt - positional|) 18000 ∧
    (USE_OPTIMISM = true →
      optimism_quotient optimism |psqt - positional|
        = div_toward_zero (optimism * |psqt - positional|) 468) ∧
    evaluate USE_OPTIMISM VALUE_TB_LOSS_IN_MAX_PLY VALUE_TB_WIN_IN_MAX_PLY
        psqt positional optimism
      = std_clamp
          (if USE_OPTIMISM then
            (nnue_quotient psqt positional
                - complexity_quotient (nnue_quotient psqt positional) |psqt - positional|)
              + (optimism + optimism_quotient optimism |psqt - positional|)
           else
            nnue_quotient psqt positional
              - complexity_quotient (nnue_quotient psqt positional) |psqt - positional|)
          (VALUE_TB_LOSS_IN_MAX_PLY + 1) (VALUE_TB_WIN_IN_MAX_PLY - 1) := by
  obtain ⟨hlo, hhi, h1, h2, h3, h4, h5, h6, h7, hopt⟩ := h
  have hn := in_int32_tdiv _ 128 h3 (by decide)
  have hnc := in_int32_tdiv _ 18000 h6 (by decide)
  have e1 : nnue_quotient psqt positional = Int.tdiv (125 * psqt + 131 * positional) 128 := by
    unfold nnue_quotient
    rw [int32_eq_self _ h1, int32_eq_self _ h2, int32_eq_self _ h3, int32_eq_self _ hn]
  have e2 : complexity_quotient (nnue_quotient psqt positional) |psqt - positional|
      = Int.tdiv (nnue_quotient psqt positional * |psqt - positional|) 18000 := by
    unfold complexity_quotient
    rw [e1, int32_eq_self _ h6, int32_eq_self _ hnc]
  refine ⟨?_, ?_, ?_, ?_⟩
  · rw [e1, tdiv_eq_div_toward_zero _ _ (by decide)]
  · rw [e2, tdiv_eq_div_toward_zero _ _ (by decide)]
  · intro hu
    obtain ⟨h8, -, -⟩ := hopt hu
    have hoc := in_int32_tdiv _ 468 h8 (by decide)
    unfold optimism_quotient
    rw [int32_eq_self _ h8, int32_eq_self _ hoc, tdiv_eq_div_toward_zero _ _ (by decide)]
  · have hev : evaluate USE_OPTIMISM VALUE_TB_LOSS_IN_MAX_PLY VALUE_TB_WIN_IN_MAX_PLY
        psqt positional optimism
        = std_clamp
            (if USE_OPTIMISM then
              int32 (int32 (nnue_quotient psqt positional
                  - complexity_quotient (nnue_quotient psqt positional)
                      (std_abs (int32 (psqt - positional))))
                + int32 (optimism + optimism_quotient optimism
                      (std_abs (int32 (psqt - positional)))))
             else
              int32 (nnue_quotient psqt positional
                - complexity_quotient (nnue_quotient psqt positional)
                    (std_abs (int32 (psqt - positional)))))
            (int32 (VALUE_TB_LOSS_IN_MAX_PLY + 1)) (int32 (VALUE_TB_WIN_IN_MAX_PLY - 1)) := rfl
    rw [hev, int32_eq_self _ hlo, int32_eq_self _ hhi, int32_eq_self _ h4, std_abs_eq _ h5]
    have h7' : in_int32 (nnue_quotient psqt positional
        - complexity_quotient (nnue_quotient psqt positional) |psqt - positional|) := by
      rw [e2, e1]; exact h7
    rw [int32_eq_self _ h7']
    cases USE_OPTIMISM
    · simp
    · obtain ⟨h8, h9, h10⟩ := hopt rfl
      have hoc := in_int32_tdiv _ 468 h8 (by decide)
      have e3 : optimism_quotient optimism |psqt - positional|
          = Int.tdiv (optimism * |psqt - positional|) 468 := by
        unfold optimism_quotient
        rw [int32_eq_self _ h8, int32_eq_self _ hoc]
      simp only [if_true]
      rw [e3, int32_eq_self _ h9]
      have h10' : in_int32 (nnue_quotient psqt positional
          - complexity_quotient (nnue_quotient psqt positional) |psqt - positional|
          + (optimism + Int.tdiv (optimism * |psqt - positional|) 468)) := by
        rw [e2, e1]; exact h10
      rw [int32_eq_self _ h10']

/-- The truncating divisions at psqt = -1, positional = 0, optimism = -1. -/
theorem divisions_round_toward_zero_witness :
    nnue_quotient (-1) 0 = div_toward_zero (-125) 128 ∧ div_toward_zero (-125) 128 = 0 := by
  have h := divisions_round_toward_zero true (-31507) 31507 (-1) 0 (-1)
    (by simp only [no_overflow, in_int32]; decide)
  exact ⟨h.1, by decide⟩

/-- C12: boundary. For all network outputs and optimism, 32-bit wrap-around included, the
value returned by `Eval::evaluate` lies strictly between `VALUE_TB_LOSS_IN_MAX_PLY` and
`VALUE_TB_WIN_IN_MAX_PLY`, given `VALUE_TB_LOSS_IN_MAX_PLY + 1 <= VALUE_TB_WIN_IN_MAX_PLY - 1`
for these two `int` constants. -/
theorem evaluate_within_bounds (USE_OPTIMISM : Bool)
    (VALUE_TB_LOSS_IN_MAX_PLY VALUE_TB_WIN_IN_MAX_PLY psqt positional optimism : Int)
    (hlo : in_int32 VALUE_TB_LOSS_IN_MAX_PLY) (hhi : in_int32 VALUE_TB_WIN_IN_MAX_PLY)
    (h : VALUE_TB_LOSS_IN_MAX_PLY + 1 ≤ VALUE_TB_WIN_IN_MAX_PLY - 1) :
    VALUE_TB_LOSS_IN_MAX_PLY
      < evaluate USE_OPTIMISM VALUE_TB_LOSS_IN_MAX_PLY VALUE_TB_WIN_IN_MAX_PLY
          psqt positional optimism ∧
    evaluate USE_OPTIMISM VALUE_TB_LOSS_IN_MAX_PLY VALUE_TB_WIN_IN_MAX_PLY
        psqt positional optimism
      < VALUE_TB_WIN_IN_MAX_PLY := by
  unfold in_int32 at hlo hhi
  have e1 : int32 (VALUE_TB_LOSS_IN_MAX_PLY + 1) = VALUE_TB_LOSS_IN_MAX_PLY + 1 :=
    int32_eq_self _ (by unfold in_int32; omega)
  have e2 : int32 (VALUE_TB_WIN_IN_MAX_PLY - 1) = VALUE_TB_WIN_IN_MAX_PLY - 1 :=
    int32_eq_self _ (by unfold in_int32; omega)
  simp only [evaluate, e1, e2]
  unfold std_clamp
  split
  · omega
  · split <;> omega

/-- The bound at extreme network outputs near the ends of the `int` range. -/
theorem evaluate_within_bounds_witness :
    (-31507 : Int) < evaluate true (-31507) 31507 2147483647 (-2147483648) 2147483647 ∧
    evaluate true (-31507) 31507 2147483647 (-2147483648) 2147483647 < 31507 :=
  evaluate_within_bounds true (-31507) 31507 2147483647 (-2147483648) 2147483647
    (by unfold in_int32; decide) (by unfold in_int32; decide) (by decide)

end Eval
/-! ## Bucket selection -/

/-- C13: bucket selection. `Network::evaluate` selects bucket `(r_own / 3) * 3 + (r_opp / 3)`
where `r_own` and `r_opp` are the ranks of the king of the side to move and of the opposing
king, both relative to the side to move; the bucket depends on nothing else; for relative
ranks in 0..8 it lies in 0..8; and each of the nine values is attained by some pair of king
squares. -/
theorem bucket_selection (rel : Color → Nat → Nat) (stm : Color)
    (hrange : ∀ c r, r < 9 → rel c r < 9)
    (hsurj : ∀ c r, r < 9 → ∃ r0, r0 < 9 ∧ rel c r0 = r) :
    (∀ pos : Position,
      Network.evaluate_bucket rel stm pos
        = (rel stm (rank_of (pos.king_square stm)) / 3) * 3
          + rel stm (rank_of (pos.king_square stm.flip)) / 3) ∧
    (∀ pos pos' : Position,
      rel stm (rank_of (pos.king_square stm)) = rel stm (rank_of (pos'.king_square stm)) →
      rel stm (rank_of (pos.king_square stm.flip))
        = rel stm (rank_of (pos'.king_square stm.flip)) →
      Network.evaluate_bucket rel stm pos = Network.evaluate_bucket rel stm pos') ∧
    (∀ pos : Position, Network.evaluate_bucket rel stm pos < 9) ∧
    (∀ b, b < 9 → ∃ pos : Position,
      pos.king_square .BLACK < SQ_NB ∧ pos.king_square .WHITE < SQ_NB ∧
      Network.evaluate_bucket rel stm pos = b) := by
  have hrank : ∀ s, rank_of s < 9 := fun s => Nat.mod_lt _ (by decide)
  refine ⟨fun _ => rfl, ?_, ?_, ?_⟩
  · intro pos pos' h1 h2
    simp only [Network.evaluate_bucket, h1, h2]
  · intro pos
    have h1 := hrange stm _ (hrank (pos.king_square stm))
    have h2 := hrange stm _ (hrank (pos.king_square stm.flip))
    simp only [Network.evaluate_bucket]
    omega
  · intro b hb
    obtain ⟨r1, hr1, e1⟩ := hsurj stm (b / 3 * 3) (by omega)
    obtain ⟨r2, hr2, e2⟩ := hsurj stm (b % 3 * 3) (by omega)
    have hk1 : rank_of r1 = r1 := Nat.mod_eq_of_lt hr1
    have hk2 : rank_of r2 = r2 := Nat.mod_eq_of_lt hr2
    cases stm
    · refine ⟨kings_at r1 r2, ?_, ?_, ?_⟩
      · show r1 < 81; omega
      · show r2 < 81; omega
      · show rel .BLACK (rank_of r1) / 3 * 3 + rel .BLACK (rank_of r2) / 3 = b
        rw [hk1, hk2, e1, e2]; omega
    · refine ⟨kings_at r2 r1, ?_, ?_, ?_⟩
      · show r2 < 81; omega
      · show r1 < 81; omega
      · show rel .WHITE (rank_of r1) / 3 * 3 + rel .WHITE (rank_of r2) / 3 = b
        rw [hk1, hk2, e1, e2]; omega

/-- The bucket of the sample position with White to move: the white king on rank 0 is on
relative rank 8, the black king on rank 8 on relative rank 0, so the bucket is 6. -/
theorem bucket_selection_witness :
    Network.evaluate_bucket relative_rank .WHITE sample_pos = 6 ∧
    Network.evaluate_bucket relative_rank .WHITE sample_pos < 9 := by
  have h := bucket_selection relative_rank .WHITE
    (by intro c r hr; cases c <;> simp only [relative_rank] <;> omega)
    (by
      intro c r hr
      cases c
      · exact ⟨r, hr, rfl⟩
      · exact ⟨8 - r, by omega, by simp only [relative_rank]; omega⟩)
  exact ⟨by decide, h.2.2.1 sample_pos⟩
/-! ## Streams -/

theorem le32_length (v : Nat) : (le32 v).length = 4 := rfl

theorem le32_mod (v : Nat) : le32 (v % 4294967296) = le32 v := by
  simp only [le32]
  congr 1
  · omega
  · congr 1
    · omega
    · congr 1
      · omega
      · congr 1
        omega

theorem le32_value_le32 (v : Nat) (h : v < 4294967296) : le32_value (le32 v) = v := by
  simp only [le32, le32_value, List.getD_cons_zero, List.getD_cons_succ]
  omega

theorem istream_read_append (a rest : List Nat) :
    (IStream.of_bytes (a ++ rest)).read a.length = (a, IStream.of_bytes rest) := by
  simp [IStream.read, IStream.of_bytes, IStream.good]

theorem read_little_endian_le32 (v : Nat) (rest : List Nat) (h : v < 4294967296) :
    read_little_endian (IStream.of_bytes (le32 v ++ rest)) = (v, IStream.of_bytes rest) := by
  have := istream_read_append (le32 v) rest
  rw [le32_length] at this
  simp only [read_little_endian, this, le32_value_le32 v h]

theorem ostream_write_write (s : OStream) (a b : List Nat) :
    (s.write a).write b = s.write (a ++ b) := by
  unfold OStream.write
  by_cases hf : s.failed = true
  · simp [hf]
  · simp only [hf, Bool.false_eq_true, if_false]
    by_cases ha : a.length ≤ s.room
    · simp only [ha, if_true, hf, Bool.false_eq_true, if_false, List.length_append]
      by_cases hb : b.length ≤ s.room - a.length
      · have hab : a.length + b.length ≤ s.room := by omega
        simp only [hb, hab, if_true, List.append_assoc]
        congr 1
        omega
      · have hab : ¬ a.length + b.length ≤ s.room := by omega
        simp only [hb, hab, if_false, List.append_assoc]
        congr 2
        rw [List.take_append_eq_append_take, List.take_of_length_le ha]
    · have hab : ¬ (a ++ b).length ≤ s.room := by
        rw [List.length_append]; omega
      simp only [ha, hab, if_false, if_true]
      congr 2
      rw [List.take_append_eq_append_take]
      have : s.room - a.length = 0 := by omega
      simp [this]

theorem ostream_write_fits (s : OStream) (a : List Nat) (hf : s.failed = false)
    (hr : a.length ≤ s.room) :
    s.write a = { data := s.data ++ a, failed := false, room := s.room - a.length } := by
  simp [OStream.write, hf, hr]

theorem ostream_write_ok (s : OStream) (a : List Nat) (h : (s.write a).failed = false) :
    s.failed = false ∧ a.length ≤ s.room ∧ (s.write a).data = s.data ++ a := by
  unfold OStream.write at h ⊢
  by_cases hf : s.failed = true
  · simp [hf] at h
  · by_cases ha : a.length ≤ s.room
    · simp [hf, ha]
    · simp [hf, ha] at h
/-! ## Header -/

namespace Network

variable {FT AR : Type}

theorem header_layout_length (C : Config FT AR) (h : Nat) (d : List Nat) :
    (header_layout C h d).length = 12 + d.length := by
  simp only [header_layout, List.length_append, le32_length]

theorem write_header_eq (C : Config FT AR) (out : OStream) (h : Nat) (d : List Nat) :
    write_header C out h d
      = (!(out.write (header_layout C h d)).failed, out.write (header_layout C h d)) := by
  simp only [write_header, write_little_endian, ostream_write_write, le32_mod, header_layout,
    List.append_assoc]

theorem read_header_layout (C : Config FT AR) (h : Nat) (d rest desc0 : List Nat)
    (hV : C.Version < 4294967296) (hh : h < 4294967296) (hd : d.length < 4294967296) :
    read_header C (IStream.of_bytes (header_layout C h d ++ rest)) desc0
      = (true, h, d, IStream.of_bytes rest) := by
  have e1 : header_layout C h d ++ rest
      = le32 C.Version ++ (le32 h ++ (le32 d.length ++ (d ++ rest))) := by
    simp only [header_layout, List.append_assoc]
  have hread := istream_read_append d rest
  have hres : d ++ List.drop d.length
      (List.take d.length desc0 ++ List.replicate (d.length - desc0.length) 0) = d := by
    rw [List.drop_of_length_le, List.append_nil]
    simp only [List.length_append, List.length_take, List.length_replicate]
    omega
  simp only [read_header, e1, read_little_endian_le32 _ _ hV, read_little_endian_le32 _ _ hh,
    read_little_endian_le32 _ _ hd, hread]
  simp [IStream.of_bytes, hres]

/-- C15: header round trip. For every 32-bit hash `h` and every description `d` of fewer than
2^32 bytes, `write_header(h, d)` on a stream that takes the bytes writes the 12 + |d| bytes of
the header, and `read_header` applied to these bytes (followed by anything) succeeds, returns
exactly `h` and `d`, and consumes exactly the bytes written. -/
theorem header_round_trip (C : Config FT AR) (h : Nat) (d : List Nat)
    (hV : C.Version < 4294967296) (hh : h < 4294967296) (hd : d.length < 4294967296)
    (out : OStream) (hout : out.failed = false) (hroom : 12 + d.length ≤ out.room)
    (rest desc0 : List Nat) :
    (write_header C out h d).1 = true ∧
    (write_header C out h d).2.data = out.data ++ header_layout C h d ∧
    (header_layout C h d).length = 12 + d.length ∧
    read_header C (IStream.of_bytes (header_layout C h d ++ rest)) desc0
      = (true, h, d, IStream.of_bytes rest) := by
  have hlen := header_layout_length C h d
  have hw := ostream_write_fits out (header_layout C h d) hout (by omega)
  refine ⟨?_, ?_, hlen, read_header_layout C h d rest desc0 hV hh hd⟩
  · rw [write_header_eq, hw]; rfl
  · rw [write_header_eq, hw]

/-- The header with hash 1046128366 and the description `hi`, followed by the byte 77. -/
theorem header_round_trip_witness :
    (write_header sample_config sample_ostream 1046128366 [104, 105]).2.data
      = [32, 47, 243, 122, 238, 166, 90, 62, 2, 0, 0, 0, 104, 105] ∧
    read_header sample_config
        (IStream.of_bytes ([32, 47, 243, 122, 238, 166, 90, 62, 2, 0, 0, 0, 104, 105] ++ [77])) []
      = (true, 1046128366, [104, 105], IStream.of_bytes [77]) := by
  have h := header_round_trip sample_config 1046128366 [104, 105] (by decide) (by decide)
    (by decide) sample_ostream rfl (by decide) [77] []
  exact ⟨h.2.1, h.2.2.2⟩

end Network
/-! ## Writing the parameters -/

theorem ostream_write_failed (s : OStream) (a b : List Nat) (h : (s.write a).failed = true) :
    s.write (a ++ b) = s.write a := by
  rw [← ostream_write_write]
  generalize s.write a = t at h
  simp [OStream.write, h]

theorem detail_write_eq {P : Type} (T : Component P) (encode : P → List Nat)
    (hw : T.writes encode) (s : OStream) (p : P) :
    Detail.write_parameters T s p
      = (!(s.write (le32 T.get_hash_value ++ encode p)).failed,
         s.write (le32 T.get_hash_value ++ encode p)) := by
  simp only [Detail.write_parameters, write_little_endian, hw _ _, ostream_write_write]

namespace Network

variable {FT AR : Type}

theorem write_layers_eq (A : Component AR) (encode : AR → List Nat) (hw : A.writes encode)
    (count : Nat) :
    ∀ (i : Nat) (network : Nat → AR) (s : OStream),
      (write_layers A count i network s).2
        = s.write ((List.range count).flatMap
            (fun k => le32 A.get_hash_value ++ encode (network (i + k)))) ∧
      ((write_layers A count i network s).1 = false →
        (write_layers A count i network s).2.failed = true) := by
  induction count with
  | zero =>
    intro i network s
    simp [write_layers, OStream.write]
  | succ n ih =>
    intro i network s
    have hsplit : (List.range (n + 1)).flatMap
          (fun k => le32 A.get_hash_value ++ encode (network (i + k)))
        = (le32 A.get_hash_value ++ encode (network i))
          ++ (List.range n).flatMap
              (fun k => le32 A.get_hash_value ++ encode (network (i + 1 + k))) := by
      rw [List.range_succ_eq_map, List.flatMap_cons, List.flatMap_map]
      simp only [Nat.add_zero, Nat.succ_eq_add_one]
      congr 1
      apply List.flatMap_congr
      intro k _
      have : i + (k + 1) = i + 1 + k := by omega
      rw [this]
    have hd := detail_write_eq A encode hw s (network i)
    have hstep : write_layers A (n + 1) i network s
        = if (Detail.write_parameters A s (network i)).1 = true then
            write_layers A n (i + 1) network (Detail.write_parameters A s (network i)).2
          else (false, (Detail.write_parameters A s (network i)).2) := rfl
    rw [hstep, hd, hsplit]
    by_cases hf : (s.write (le32 A.get_hash_value ++ encode (network i))).failed = true
    · rw [if_neg (by simp [hf]), ostream_write_failed _ _ _ hf]
      exact ⟨rfl, fun _ => hf⟩
    · rw [if_pos (by simpa using hf)]
      have := ih (i + 1) network (s.write (le32 A.get_hash_value ++ encode (network i)))
      rw [ostream_write_write] at this
      exact this

theorem write_parameters_eq (C : Config FT AR) (encodeFT : FT → List Nat)
    (encodeAR : AR → List Nat) (hft : C.Transformer.writes encodeFT)
    (har : C.Arch.writes encodeAR) (featureTransformer : FT) (network : Nat → AR)
    (s : OStream) (d : List Nat) :
    write_parameters C featureTransformer network s d
      = (!(s.write (file_layout C encodeFT encodeAR featureTransformer network d)).failed,
         s.write (file_layout C encodeFT encodeAR featureTransformer network d)) := by
  have hl := write_layers_eq C.Arch encodeAR har C.LayerStacks 0 network
  simp only [Nat.zero_add] at hl
  simp only [write_parameters, write_header_eq, detail_write_eq _ encodeFT hft, file_layout]
  by_cases h1 : (s.write (header_layout C C.hash d)).failed = true
  · simp only [h1, Bool.not_true, if_true]
    rw [List.append_assoc, ostream_write_failed _ _ _ h1, h1]
    rfl
  · simp only [h1, Bool.not_false, Bool.true_eq_false, if_false]
    rw [ostream_write_write]
    by_cases h2 : (s.write (header_layout C C.hash d
        ++ (le32 C.Transformer.get_hash_value ++ encodeFT featureTransformer))).failed = true
    · simp only [h2, Bool.not_true, if_true]
      rw [ostream_write_failed _ _ _ h2, h2]
      rfl
    · simp only [h2, Bool.not_false, Bool.true_eq_false, if_false]
      obtain ⟨e1, e2⟩ := hl (s.write (header_layout C C.hash d
        ++ (le32 C.Transformer.get_hash_value ++ encodeFT featureTransformer)))
      rw [ostream_write_write] at e1
      by_cases h3 : (write_layers C.Arch C.LayerStacks 0 network
          (s.write (header_layout C C.hash d
            ++ (le32 C.Transformer.get_hash_value ++ encodeFT featureTransformer)))).1 = false
      · simp only [h3, if_true]
        have := e2 h3
        rw [e1] at this
        rw [e1, this]
        rfl
      · have h3' : (write_layers C.Arch C.LayerStacks 0 network
            (s.write (header_layout C C.hash d
              ++ (le32 C.Transformer.get_hash_value ++ encodeFT featureTransformer)))).1 = true := by
          simpa using h3
        simp only [h3', e1, Bool.true_eq_false, if_false]

end Network
namespace Network

variable {FT AR : Type}

/-- C16: file layout. When the components write their parameters as bytes, the bytes
`write_parameters` appends are `LE32(Version) ++ LE32(Network::hash) ++ LE32(|d|) ++ d`, then
`LE32(transformer hash)` and the transformer parameters, then for `i = 0 .. LayerStacks-1` in
increasing order `LE32(architecture hash)` and the parameters of layer stack `i`, and nothing
else; it returns true exactly when the stream takes all of them. -/
theorem write_parameters_layout (C : Config FT AR) (encodeFT : FT → List Nat)
    (encodeAR : AR → List Nat) (hft : C.Transformer.writes encodeFT)
    (har : C.Arch.writes encodeAR) (featureTransformer : FT) (network : Nat → AR)
    (out : OStream) (d : List Nat) :
    (write_parameters C featureTransformer network out d).2
      = out.write (file_layout C encodeFT encodeAR featureTransformer network d) ∧
    file_layout C encodeFT encodeAR featureTransformer network d
      = le32 C.Version ++ le32 C.hash ++ le32 d.length ++ d
        ++ (le32 C.Transformer.get_hash_value ++ encodeFT featureTransformer)
        ++ (List.range C.LayerStacks).flatMap
            (fun i => le32 C.Arch.get_hash_value ++ encodeAR (network i)) ∧
    ((write_parameters C featureTransformer network out d).1 = true
      ↔ out.failed = false
        ∧ (file_layout C encodeFT encodeAR featureTransformer network d).length ≤ out.room) ∧
    ((write_parameters C featureTransformer network out d).1 = true →
      (write_parameters C featureTransformer network out d).2.data
        = out.data ++ file_layout C encodeFT encodeAR featureTransformer network d) := by
  have he := write_parameters_eq C encodeFT encodeAR hft har featureTransformer network out d
  refine ⟨by rw [he], rfl, ?_, ?_⟩
  · rw [he]
    constructor
    · intro h
      have h' : (out.write (file_layout C encodeFT encodeAR featureTransformer network d)).failed
          = false := by simpa using h
      have := ostream_write_ok _ _ h'
      exact ⟨this.1, this.2.1⟩
    · rintro ⟨h1, h2⟩
      rw [ostream_write_fits _ _ h1 h2]
      rfl
  · intro h
    rw [he] at h ⊢
    have h' : (out.write (file_layout C encodeFT encodeAR featureTransformer network d)).failed
        = false := by simpa using h
    exact (ostream_write_ok _ _ h').2.2

/-- The file written for the sample network with the description `hi`. -/
theorem write_parameters_layout_witness :
    (write_parameters sample_config (7, 9) (fun i => (i, i + 1)) sample_ostream [104, 105]).2.data
      = [32, 47, 243, 122, 238, 166, 90, 62, 2, 0, 0, 0, 104, 105,
         72, 81, 35, 127, 7, 9,
         86, 113, 51, 99, 0, 1, 86, 113, 51, 99, 1, 2, 86, 113, 51, 99, 2, 3] := by
  have h := write_parameters_layout sample_config (fun p => [p.1, p.2]) (fun p => [p.1, p.2])
    (fun _ _ => rfl) (fun _ _ => rfl) (7, 9) (fun i => (i, i + 1)) sample_ostream [104, 105]
  rw [h.1]
  decide

/-- C20: `save(stream, name, description)` returns false and leaves the stream untouched when
`name` is empty or "None"; for every other name, on a network holding parameters, it is
`write_parameters`: it writes the header, then the transformer block, then the layer-stack
blocks, and returns true exactly when the stream has not failed. -/
theorem save_refuses_unnamed (C : Config FT AR) (net : Network FT AR) (out : OStream)
    (name : String) (d : List Nat) :
    (name = "" ∨ name = "None" → save C net out name d = some (false, out)) ∧
    (name ≠ "" → name ≠ "None" →
      ∀ featureTransformer network, net.featureTransformer = some featureTransformer →
        net.network = some network →
        save C net out name d
          = some (write_parameters C featureTransformer network out d) ∧
        ∀ encodeFT encodeAR, C.Transformer.writes encodeFT → C.Arch.writes encodeAR →
          (write_parameters C featureTransformer network out d).2
            = out.write (header_layout C C.hash d
                ++ (le32 C.Transformer.get_hash_value ++ encodeFT featureTransformer)
                ++ (List.range C.LayerStacks).flatMap
                    (fun i => le32 C.Arch.get_hash_value ++ encodeAR (network i))) ∧
          ((write_parameters C featureTransformer network out d).1 = true
            ↔ (write_parameters C featureTransformer network out d).2.failed = false)) := by
  constructor
  · intro h
    simp only [save, h, if_true]
  · intro h1 h2 featureTransformer network hft hnet
    have hn : ¬ (name = "" ∨ name = "None") := by
      rintro (h | h)
      · exact h1 h
      · exact h2 h
    refine ⟨?_, ?_⟩
    · simp only [save, hn, if_false, hft, hnet]
    · intro encodeFT encodeAR hwft hwar
      have he := write_parameters_eq C encodeFT encodeAR hwft hwar featureTransformer network out d
      rw [he]
      exact ⟨rfl, by simp⟩

end Network
/-! ## Reading the parameters -/

theorem istream_read_ok (s : IStream) (n : Nat) (h : (s.read n).2.failed = false) :
    s.good = true ∧ n ≤ s.data.length ∧
    s.read n = (s.data.take n, { s with data := s.data.drop n }) := by
  unfold IStream.read at h ⊢
  by_cases hg : s.good = true
  · by_cases hn : n ≤ s.data.length
    · simp [hg, hn]
    · simp [hg, hn] at h
  · simp [hg] at h

theorem istream_read_failed (s : IStream) (n : Nat) (h : s.failed = true) :
    (s.read n).2.failed = true := by
  have hg : s.good = false := by simp [IStream.good, h]
  simp [IStream.read, hg]

theorem read_little_endian_ok (s : IStream) (h : (read_little_endian s).2.failed = false) :
    s.good = true ∧ 4 ≤ s.data.length ∧
    read_little_endian s = (le32_value (s.data.take 4), { s with data := s.data.drop 4 }) := by
  have := istream_read_ok s 4 h
  refine ⟨this.1, this.2.1, ?_⟩
  simp only [read_little_endian, this.2.2]

theorem read_little_endian_failed (s : IStream) (h : s.failed = true) :
    (read_little_endian s).2.failed = true :=
  istream_read_failed s 4 h

theorem detail_read_guard {P : Type} (T : Component P) (s : IStream) (q : P)
    (h : (Detail.read_parameters T s q).1 = true) :
    s.good = true ∧ 4 ≤ s.data.length ∧ le32_value (s.data.take 4) = T.get_hash_value ∧
    Detail.read_parameters T s q
      = T.read_parameters q { s with data := s.data.drop 4 } := by
  unfold Detail.read_parameters at h ⊢
  by_cases hc : (read_little_endian s).2.failed = true ∨ (read_little_endian s).1 ≠ T.get_hash_value
  · simp [hc] at h
  · have hc1 : (read_little_endian s).2.failed = false := by
      cases hf : (read_little_endian s).2.failed
      · rfl
      · exact absurd (Or.inl hf) hc
    have hc2 : (read_little_endian s).1 = T.get_hash_value := by
      by_contra hne
      exact hc (Or.inr hne)
    obtain ⟨hg, hlen, he⟩ := read_little_endian_ok s hc1
    refine ⟨hg, hlen, ?_, ?_⟩
    · rw [he] at hc2; exact hc2
    · rw [if_neg hc, he]

theorem detail_read_ok {P : Type} (T : Component P) (N : Nat) (hb : T.reads_block N)
    (s : IStream) (q : P) (h : (Detail.read_parameters T s q).1 = true) :
    s.good = true ∧ 4 + N ≤ s.data.length ∧ le32_value (s.data.take 4) = T.get_hash_value ∧
    (Detail.read_parameters T s q).2.2 = { s with data := s.data.drop (4 + N) } := by
  obtain ⟨hg, hlen, hv, he⟩ := detail_read_guard T s q h
  rw [he] at h ⊢
  obtain ⟨-, h2, h3⟩ := hb q _ h
  simp only [List.length_drop] at h2
  refine ⟨hg, by omega, hv, ?_⟩
  rw [h3]
  simp only [List.drop_drop]

theorem istream_read_eq (s : IStream) (n : Nat) (hg : s.good = true)
    (hl : n ≤ s.data.length) :
    s.read n = (s.data.take n, { s with data := s.data.drop n }) := by
  simp [IStream.read, hg, hl]

theorem istream_read_short (s : IStream) (n : Nat) (h : s.good = false ∨ s.data.length < n) :
    (s.read n).2.failed = true := by
  unfold IStream.read
  by_cases hg : s.good = true
  · rcases h with h | h
    · rw [hg] at h; exact absurd h (by decide)
    · have hn : ¬ n ≤ s.data.length := by omega
      simp [hg, hn]
  · have hf : s.failed = true ∨ s.eof = true := by
      unfold IStream.good at hg
      cases hf : s.failed <;> cases he : s.eof <;> simp_all
    simp [hg]

theorem rle_eq (s : IStream) (hg : s.good = true) (hl : 4 ≤ s.data.length) :
    read_little_endian s = (le32_value (s.data.take 4), { s with data := s.data.drop 4 }) := by
  simp only [read_little_endian, istream_read_eq s 4 hg hl]

theorem rle_short (s : IStream) (h : s.good = false ∨ s.data.length < 4) :
    (read_little_endian s).2.failed = true :=
  istream_read_short s 4 h

namespace Network

variable {FT AR : Type}

theorem read_header_short (C : Config FT AR) (s : IStream) (desc0 : List Nat)
    (h : s.good = false ∨ s.data.length < 12) : (read_header C s desc0).1 = false := by
  have hfail : (read_little_endian (read_little_endian (read_little_endian s).2).2).2.failed
      = true := by
    by_cases hg : s.good = true
    · have hl : s.data.length < 12 := by
        rcases h with h | h
        · rw [hg] at h; exact absurd h (by decide)
        · exact h
      by_cases h4 : 4 ≤ s.data.length
      · rw [rle_eq s hg h4]
        by_cases h8 : 8 ≤ s.data.length
        · rw [rle_eq { s with data := s.data.drop 4 } hg
            (by simp only [List.length_drop]; omega)]
          apply rle_short
          right
          simp only [List.length_drop]
          omega
        · apply read_little_endian_failed
          apply rle_short
          right
          simp only [List.length_drop]
          omega
      · apply read_little_endian_failed
        apply read_little_endian_failed
        exact rle_short s (Or.inr (by omega))
    · apply read_little_endian_failed
      apply read_little_endian_failed
      exact rle_short s (Or.inl (by simpa using hg))
  simp only [read_header, hfail, true_or, if_true]

theorem read_header_eq (C : Config FT AR) (s : IStream) (desc0 : List Nat)
    (hg : s.good = true) (hl : 12 ≤ s.data.length) :
    read_header C s desc0
      = if le32_value (s.data.take 4) ≠ C.Version then
          (false, le32_value ((s.data.drop 4).take 4), desc0,
            { s with data := s.data.drop 12 })
        else if 12 + le32_value ((s.data.drop 8).take 4) ≤ s.data.length then
          (true, le32_value ((s.data.drop 4).take 4),
            (s.data.drop 12).take (le32_value ((s.data.drop 8).take 4)),
            { s with data := s.data.drop (12 + le32_value ((s.data.drop 8).take 4)) })
        else
          (false, le32_value ((s.data.drop 4).take 4),
            s.data.drop 12
              ++ ((desc0.take (le32_value ((s.data.drop 8).take 4))
                    ++ List.replicate (le32_value ((s.data.drop 8).take 4) - desc0.length) 0).drop
                  (s.data.drop 12).length),
            { data := [], failed := true, eof := true }) := by
  obtain ⟨data, failed, eof⟩ := s
  have hflags : failed = false ∧ eof = false := by
    cases failed <;> cases eof <;> simp_all [IStream.good]
  obtain ⟨rfl, rfl⟩ := hflags
  simp only at hl ⊢
  have e1 := rle_eq ⟨data, false, false⟩ rfl (by simp only; omega)
  have e2 := rle_eq ⟨data.drop 4, false, false⟩ rfl (by simp only [List.length_drop]; omega)
  have e3 := rle_eq ⟨data.drop 8, false, false⟩ rfl (by simp only [List.length_drop]; omega)
  have d8 : List.drop 4 (List.drop 4 data) = List.drop 8 data := by
    rw [List.drop_drop]
  have d12 : List.drop 4 (List.drop 8 data) = List.drop 12 data := by
    rw [List.drop_drop]
  simp only [d8, d12] at e1 e2 e3
  simp only [read_header, e1, e2, e3, Bool.false_eq_true, false_or]
  by_cases hv : le32_value (data.take 4) = C.Version
  · simp only [hv, ne_eq, not_true_eq_false, if_false]
    by_cases hs : 12 + le32_value ((data.drop 8).take 4) ≤ data.length
    · have hs' : le32_value ((data.drop 8).take 4) ≤ (data.drop 12).length := by
        simp only [List.length_drop]; omega
      rw [istream_read_eq ⟨data.drop 12, false, false⟩ _ rfl hs', if_pos hs]
      generalize le32_value (List.take 4 (List.drop 8 data)) = n at hs hs' ⊢
      have hA : List.drop (List.take n (List.drop 12 data)).length
          (List.take n desc0 ++ List.replicate (n - desc0.length) 0) = [] := by
        apply List.drop_of_length_le
        simp only [List.length_append, List.length_take, List.length_replicate, List.length_drop]
        omega
      have hB : List.drop n (List.drop 12 data) = List.drop (12 + n) data := by
        rw [List.drop_drop]
      simp only [hA, hB, List.append_nil, Bool.not_false]
    · have hs' : ¬ le32_value ((data.drop 8).take 4) ≤ (data.drop 12).length := by
        simp only [List.length_drop]; omega
      have hg' : (⟨data.drop 12, false, false⟩ : IStream).good = true := rfl
      simp only [IStream.read, hg', hs', if_true, if_false, if_neg hs, Bool.not_true]
  · simp only [hv, ne_eq, not_false_eq_true, if_true]

end Network
namespace Network

variable {FT AR : Type}

theorem read_header_ok (C : Config FT AR) (s : IStream) (desc0 : List Nat)
    (h : (read_header C s desc0).1 = true) :
    s.good = true ∧ 12 + le32_value ((s.data.drop 8).take 4) ≤ s.data.length ∧
    le32_value (s.data.take 4) = C.Version ∧
    read_header C s desc0
      = (true, le32_value ((s.data.drop 4).take 4),
          (s.data.drop 12).take (le32_value ((s.data.drop 8).take 4)),
          { s with data := s.data.drop (12 + le32_value ((s.data.drop 8).take 4)) }) := by
  by_cases hg : s.good = true
  · by_cases hl : 12 ≤ s.data.length
    · have he := read_header_eq C s desc0 hg hl
      rw [he] at h ⊢
      by_cases hv : le32_value (s.data.take 4) = C.Version
      · rw [if_neg (by simpa using hv)] at h ⊢
        by_cases hs : 12 + le32_value ((s.data.drop 8).take 4) ≤ s.data.length
        · rw [if_pos hs]
          exact ⟨hg, hs, hv, rfl⟩
        · rw [if_neg hs] at h
          simp at h
      · rw [if_pos hv] at h
        simp at h
    · rw [read_header_short C s desc0 (Or.inr (by omega))] at h
      simp at h
  · rw [read_header_short C s desc0 (Or.inl (by simpa using hg))] at h
    simp at h

theorem read_layers_ok (A : Component AR) (N : Nat) (hb : A.reads_block N) (count : Nat) :
    ∀ (i : Nat) (network : Nat → AR) (s : IStream),
      (read_layers A count i network s).1 = true →
      count * (4 + N) ≤ s.data.length ∧
      (∀ k, k < count →
        le32_value ((s.data.drop (k * (4 + N))).take 4) = A.get_hash_value) ∧
      (read_layers A count i network s).2.2
        = { s with data := s.data.drop (count * (4 + N)) } := by
  induction count with
  | zero =>
    intro i network s _
    simp [read_layers]
  | succ n ih =>
    intro i network s h
    have hstep : read_layers A (n + 1) i network s
        = if (Detail.read_parameters A s (network i)).1 = true then
            read_layers A n (i + 1)
              (Function.update network i (Detail.read_parameters A s (network i)).2.1)
              (Detail.read_parameters A s (network i)).2.2
          else (false, Function.update network i (Detail.read_parameters A s (network i)).2.1,
                (Detail.read_parameters A s (network i)).2.2) := rfl
    rw [hstep] at h ⊢
    by_cases hd : (Detail.read_parameters A s (network i)).1 = true
    · rw [if_pos hd] at h ⊢
      obtain ⟨hg, hlen, hv, hs⟩ := detail_read_ok A N hb s (network i) hd
      obtain ⟨h1, h2, h3⟩ := ih _ _ _ h
      rw [hs] at h1 h2 h3
      simp only [List.length_drop, List.drop_drop] at h1 h2 h3
      refine ⟨?_, ?_, ?_⟩
      · have : (n + 1) * (4 + N) = n * (4 + N) + (4 + N) := by ring
        omega
      · intro k hk
        rcases Nat.eq_zero_or_pos k with rfl | hpos
        · simpa using hv
        · have := h2 (k - 1) (by omega)
          have e : 4 + N + (k - 1) * (4 + N) = k * (4 + N) := by
            have : k = (k - 1) + 1 := by omega
            conv_rhs => rw [this]
            ring
          rw [e] at this
          exact this
      · rw [hs, h3]
        have e : 4 + N + n * (4 + N) = (n + 1) * (4 + N) := by ring
        rw [e]
    · rw [if_neg hd] at h
      simp at h

end Network
namespace Network

variable {FT AR : Type}

/-- What an accepted stream looks like up to the transformer block. -/
theorem read_parameters_header (C : Config FT AR) (featureTransformer : FT)
    (network : Nat → AR) (s : IStream) (desc0 : List Nat)
    (h : (read_parameters C featureTransformer network s desc0).1 = true) :
    s.good = true ∧
    12 + le32_value ((s.data.drop 8).take 4) + 4 ≤ s.data.length ∧
    le32_value (s.data.take 4) = C.Version ∧
    le32_value ((s.data.drop 4).take 4) = C.hash ∧
    (read_parameters C featureTransformer network s desc0).2.2.2.1
      = (s.data.drop 12).take (le32_value ((s.data.drop 8).take 4)) ∧
    le32_value ((s.data.drop (12 + le32_value ((s.data.drop 8).take 4))).take 4)
      = C.Transformer.get_hash_value := by
  simp only [read_parameters] at h ⊢
  by_cases h1 : (read_header C s desc0).1 = true
  · obtain ⟨hg, hlen, hv, he⟩ := read_header_ok C s desc0 h1
    rw [he] at h ⊢
    simp only [Bool.true_eq_false, if_false] at h ⊢
    by_cases h2 : le32_value ((s.data.drop 4).take 4) = C.hash
    · simp only [h2, ne_eq, not_true_eq_false, if_false] at h ⊢
      by_cases h3 : (Detail.read_parameters C.Transformer
          { s with data := s.data.drop (12 + le32_value ((s.data.drop 8).take 4)) }
          featureTransformer).1 = true
      · obtain ⟨-, hl4, hv4, -⟩ := detail_read_guard _ _ _ h3
        simp only [List.length_drop] at hl4
        refine ⟨hg, by omega, hv, trivial, ?_, hv4⟩
        simp only [h3, Bool.true_eq_false, if_false]
        split
        · rfl
        · split <;> rfl
      · have h3' : (Detail.read_parameters C.Transformer
            { s with data := s.data.drop (12 + le32_value ((s.data.drop 8).take 4)) }
            featureTransformer).1 = false := by simpa using h3
        simp [h3'] at h
    · simp [h2] at h
  · have h1' : (read_header C s desc0).1 = false := by simpa using h1
    simp [h1'] at h

/-- What an accepted stream looks like when the components read blocks of fixed sizes. -/
theorem read_parameters_blocks (C : Config FT AR) (Nft Nar : Nat)
    (hbft : C.Transformer.reads_block Nft) (hbar : C.Arch.reads_block Nar)
    (featureTransformer : FT) (network : Nat → AR) (s : IStream) (desc0 : List Nat)
    (h : (read_parameters C featureTransformer network s desc0).1 = true) :
    s.data.length = 12 + le32_value ((s.data.drop 8).take 4) + (4 + Nft)
      + C.LayerStacks * (4 + Nar) ∧
    ∀ k, k < C.LayerStacks →
      le32_value ((s.data.drop (12 + le32_value ((s.data.drop 8).take 4) + (4 + Nft)
        + k * (4 + Nar))).take 4) = C.Arch.get_hash_value := by
  have hg0 := (read_parameters_header C featureTransformer network s desc0 h).1
  obtain ⟨data, failed, eof⟩ := s
  have hflags : failed = false ∧ eof = false := by
    cases failed <;> cases eof <;> simp_all [IStream.good]
  obtain ⟨rfl, rfl⟩ := hflags
  simp only [read_parameters] at h
  simp only
  generalize hsz : le32_value ((data.drop 8).take 4) = size
  by_cases h1 : (read_header C ⟨data, false, false⟩ desc0).1 = true
  · obtain ⟨hg, hlen, hv, he⟩ := read_header_ok C _ desc0 h1
    simp only [hsz] at hlen he
    rw [he] at h
    simp only [Bool.true_eq_false, if_false] at h
    by_cases h2 : le32_value ((data.drop 4).take 4) = C.hash
    · simp only [h2, ne_eq, not_true_eq_false, if_false] at h
      by_cases h3 : (Detail.read_parameters C.Transformer ⟨data.drop (12 + size), false, false⟩
          featureTransformer).1 = true
      · obtain ⟨-, hl4, -, hs4⟩ := detail_read_ok _ Nft hbft _ _ h3
        simp only [List.drop_drop, List.length_drop] at hs4 hl4
        simp only [h3, Bool.true_eq_false, if_false, hs4] at h
        by_cases h5 : (read_layers C.Arch C.LayerStacks 0 network
            ⟨data.drop (12 + size + (4 + Nft)), false, false⟩).1 = true
        · obtain ⟨hl6, hv6, hs6⟩ := read_layers_ok C.Arch Nar hbar C.LayerStacks 0 network _ h5
          simp only [List.drop_drop, List.length_drop] at hl6 hv6 hs6
          simp only [h5, Bool.true_eq_false, if_false, hs6, Bool.false_eq_true] at h
          have hg' : (⟨data.drop (12 + size + (4 + Nft) + C.LayerStacks * (4 + Nar)),
              false, false⟩ : IStream).good = true := rfl
          simp only [IStream.peek_is_eof, hg', if_true] at h
          have hempty : (data.drop (12 + size + (4 + Nft)
              + C.LayerStacks * (4 + Nar))).isEmpty = true := by
            by_contra hne
            simp only [hne, Bool.false_eq_true, if_false] at h
          have hlen0 : (data.drop (12 + size + (4 + Nft)
              + C.LayerStacks * (4 + Nar))).length = 0 := by
            rw [List.isEmpty_iff] at hempty
            rw [hempty]
            rfl
          simp only [List.length_drop] at hlen0
          exact ⟨by omega, hv6⟩
        · have h5' : (read_layers C.Arch C.LayerStacks 0 network
              ⟨data.drop (12 + size + (4 + Nft)), false, false⟩).1 = false := by simpa using h5
          simp [h5'] at h
      · have h3' : (Detail.read_parameters C.Transformer ⟨data.drop (12 + size), false, false⟩
            featureTransformer).1 = false := by simpa using h3
        simp [h3'] at h
    · simp [h2] at h
  · have h1' : (read_header C ⟨data, false, false⟩ desc0).1 = false := by simpa using h1
    simp [h1'] at h

theorem load_some (C : Config FT AR) (net : Network FT AR) (s : IStream) (d : List Nat)
    (h : (load C net s).1 = some d) :
    (read_parameters C C.Transformer.fresh (fun _ => C.Arch.fresh) s []).1 = true ∧
    d = (read_parameters C C.Transformer.fresh (fun _ => C.Arch.fresh) s []).2.2.2.1 := by
  simp only [load] at h
  by_cases hr : (read_parameters C C.Transformer.fresh (fun _ => C.Arch.fresh) s []).1 = true
  · simp only [hr, if_true, Option.some.injEq] at h
    exact ⟨hr, h.symm⟩
  · simp [hr] at h

end Network
namespace Network

variable {FT AR : Type}

theorem load_none_of_not (C : Config FT AR) (net : Network FT AR) (s : IStream)
    (h : ¬ (read_parameters C C.Transformer.fresh (fun _ => C.Arch.fresh) s []).1 = true) :
    (load C net s).1 = none := by
  simp [load, h]

theorem take_drop_append (B extra : List Nat) (a n : Nat) (h : a + n ≤ B.length) :
    ((B ++ extra).drop a).take n = (B.drop a).take n := by
  rw [List.drop_append_of_le_length (by omega), List.take_append_of_le_length]
  simp only [List.length_drop]
  omega

theorem take_drop_take (B : List Nat) (a n m : Nat) (h : a + n ≤ m) :
    ((B.take m).drop a).take n = (B.drop a).take n := by
  rw [List.drop_take, List.take_take]
  congr 1
  omega

/-- C17: load guards. `load(stream)` returns a description only if the first little-endian
u32 of the stream equals `Version`, the second equals `Network::hash`, the u32 after the
description equals the transformer's hash and, the parameter blocks having fixed sizes, the
u32 in front of each of the `LayerStacks` layer blocks equals the architecture's hash; if one
of these values differs, `load` returns no description. -/
theorem load_guards (C : Config FT AR) (net : Network FT AR) (s : IStream) :
    (∀ d, (load C net s).1 = some d →
      s.good = true ∧
      le32_value (s.data.take 4) = C.Version ∧
      le32_value ((s.data.drop 4).take 4) = C.hash ∧
      le32_value ((s.data.drop 8).take 4) = d.length ∧
      d = (s.data.drop 12).take d.length ∧
      le32_value ((s.data.drop (12 + d.length)).take 4) = C.Transformer.get_hash_value ∧
      ∀ Nft Nar, C.Transformer.reads_block Nft → C.Arch.reads_block Nar →
        s.data.length = 12 + d.length + (4 + Nft) + C.LayerStacks * (4 + Nar) ∧
        ∀ k, k < C.LayerStacks →
          le32_value ((s.data.drop (12 + d.length + (4 + Nft) + k * (4 + Nar))).take 4)
            = C.Arch.get_hash_value) ∧
    (le32_value (s.data.take 4) ≠ C.Version → (load C net s).1 = none) ∧
    (le32_value ((s.data.drop 4).take 4) ≠ C.hash → (load C net s).1 = none) ∧
    (le32_value ((s.data.drop (12 + le32_value ((s.data.drop 8).take 4))).take 4)
        ≠ C.Transformer.get_hash_value → (load C net s).1 = none) ∧
    (∀ Nft Nar k, C.Transformer.reads_block Nft → C.Arch.reads_block Nar →
      k < C.LayerStacks →
      le32_value ((s.data.drop (12 + le32_value ((s.data.drop 8).take 4) + (4 + Nft)
          + k * (4 + Nar))).take 4) ≠ C.Arch.get_hash_value →
      (load C net s).1 = none) := by
  refine ⟨?_, ?_, ?_, ?_, ?_⟩
  · intro d h
    obtain ⟨hr, hd⟩ := load_some C net s d h
    obtain ⟨hg, hlen, hv, hh, hdesc, hft⟩ := read_parameters_header C _ _ s [] hr
    have hdlen : d.length = le32_value ((s.data.drop 8).take 4) := by
      rw [hd, hdesc, List.length_take, List.length_drop]
      omega
    refine ⟨hg, hv, hh, hdlen.symm, ?_, ?_, ?_⟩
    · rw [hdlen, ← hdesc, ← hd]
    · rw [hdlen]; exact hft
    · intro Nft Nar hbft hbar
      have := read_parameters_blocks C Nft Nar hbft hbar _ _ s [] hr
      rw [hdlen]
      exact this
  · intro hne
    apply load_none_of_not
    intro hr
    exact hne (read_parameters_header C _ _ s [] hr).2.2.1
  · intro hne
    apply load_none_of_not
    intro hr
    exact hne (read_parameters_header C _ _ s [] hr).2.2.2.1
  · intro hne
    apply load_none_of_not
    intro hr
    exact hne (read_parameters_header C _ _ s [] hr).2.2.2.2.2
  · intro Nft Nar k hbft hbar hk hne
    apply load_none_of_not
    intro hr
    exact hne ((read_parameters_blocks C Nft Nar hbft hbar _ _ s [] hr).2 k hk)

/-- C19: trailing or missing bytes. The parameter blocks having fixed sizes (the component
readers fail on short input and extract exactly their block), if the byte sequence `B` is
accepted by `load`, then `B` followed by one or more extra bytes makes `load` return no
description, and so does every proper prefix of `B`. -/
theorem load_rejects_trailing_or_missing (C : Config FT AR) (Nft Nar : Nat)
    (hbft : C.Transformer.reads_block Nft) (hbar : C.Arch.reads_block Nar)
    (net : Network FT AR) (B d : List Nat)
    (hB : (load C net (IStream.of_bytes B)).1 = some d) :
    (∀ extra, extra ≠ [] → (load C net (IStream.of_bytes (B ++ extra))).1 = none) ∧
    (∀ n, n < B.length → (load C net (IStream.of_bytes (B.take n))).1 = none) := by
  obtain ⟨hr, -⟩ := load_some C net _ d hB
  have hhead := (read_parameters_header C _ _ _ [] hr).2.1
  have hlenB := (read_parameters_blocks C Nft Nar hbft hbar _ _ _ [] hr).1
  simp only [IStream.of_bytes] at hhead hlenB
  constructor
  · intro extra hextra
    apply load_none_of_not
    intro hX
    have hlenX := (read_parameters_blocks C Nft Nar hbft hbar _ _ _ [] hX).1
    simp only [IStream.of_bytes] at hlenX
    rw [take_drop_append B extra 8 4 (by omega), List.length_append] at hlenX
    have : extra.length ≠ 0 := fun h0 => hextra (List.length_eq_zero.1 h0)
    omega
  · intro n hn
    apply load_none_of_not
    intro hX
    have hheadX := (read_parameters_header C _ _ _ [] hX).2.1
    have hlenX := (read_parameters_blocks C Nft Nar hbft hbar _ _ _ [] hX).1
    simp only [IStream.of_bytes, List.length_take] at hheadX hlenX
    have hn12 : 12 ≤ n := by omega
    rw [take_drop_take B 8 4 n (by omega)] at hlenX
    omega

end Network
/-! ## Save, load and what a failed load leaves -/

theorem sample_component_reads_block (hash : Nat) : (sample_component hash).reads_block 2 := by
  intro q s h
  have hf : (s.read 2).2.failed = false := by
    simpa [sample_component] using h
  obtain ⟨hg, hl, he⟩ := istream_read_ok s 2 hf
  refine ⟨hg, hl, ?_⟩
  simp only [sample_component, he]

theorem sample_component_writes (hash : Nat) :
    (sample_component hash).writes (fun p => [p.1, p.2]) :=
  fun _ _ => rfl

theorem sample_component_inverts (hash : Nat) :
    (sample_component hash).read_inverts_write (fun p => [p.1, p.2]) := by
  intro p q rest
  have := istream_read_append [p.1, p.2] rest
  simp only [List.length_cons, List.length_nil] at this
  simp only [sample_component, this]
  simp [IStream.of_bytes]

theorem detail_read_layout {P : Type} (T : Component P) (encode : P → List Nat)
    (hr : T.read_inverts_write encode) (hh : T.get_hash_value < 4294967296)
    (p q : P) (rest : List Nat) :
    Detail.read_parameters T
        (IStream.of_bytes (le32 T.get_hash_value ++ encode p ++ rest)) q
      = (true, p, IStream.of_bytes rest) := by
  have e := read_little_endian_le32 T.get_hash_value (encode p ++ rest) hh
  rw [← List.append_assoc] at e
  simp only [Detail.read_parameters, e]
  rw [if_neg (by simp [IStream.of_bytes])]
  exact hr p q rest

namespace Network

variable {FT AR : Type}

theorem read_layers_layout (A : Component AR) (encode : AR → List Nat)
    (hr : A.read_inverts_write encode) (hh : A.get_hash_value < 4294967296)
    (network : Nat → AR) (count : Nat) :
    ∀ (i : Nat) (network0 : Nat → AR) (rest : List Nat),
      read_layers A count i network0
          (IStream.of_bytes ((List.range count).flatMap
            (fun k => le32 A.get_hash_value ++ encode (network (i + k))) ++ rest))
        = (true, fun j => if i ≤ j ∧ j < i + count then network j else network0 j,
            IStream.of_bytes rest) := by
  induction count with
  | zero =>
    intro i network0 rest
    simp only [read_layers, List.range_zero, List.flatMap_nil, List.nil_append, Nat.add_zero]
    congr 2
    funext j
    have : ¬ (i ≤ j ∧ j < i) := by omega
    simp only [this, if_false]
  | succ n ih =>
    intro i network0 rest
    have hsplit : (List.range (n + 1)).flatMap
          (fun k => le32 A.get_hash_value ++ encode (network (i + k))) ++ rest
        = le32 A.get_hash_value ++ encode (network i)
          ++ ((List.range n).flatMap
              (fun k => le32 A.get_hash_value ++ encode (network (i + 1 + k))) ++ rest) := by
      rw [List.range_succ_eq_map, List.flatMap_cons, List.flatMap_map]
      simp only [Nat.add_zero, Nat.succ_eq_add_one, List.append_assoc]
      congr 3
      apply List.flatMap_congr
      intro k _
      have : i + (k + 1) = i + 1 + k := by omega
      rw [this]
    have hstep : ∀ s, read_layers A (n + 1) i network0 s
        = if (Detail.read_parameters A s (network0 i)).1 = true then
            read_layers A n (i + 1)
              (Function.update network0 i (Detail.read_parameters A s (network0 i)).2.1)
              (Detail.read_parameters A s (network0 i)).2.2
          else (false, Function.update network0 i (Detail.read_parameters A s (network0 i)).2.1,
                (Detail.read_parameters A s (network0 i)).2.2) := fun _ => rfl
    rw [hsplit, hstep, detail_read_layout A encode hr hh]
    simp only [if_true]
    rw [ih]
    congr 1
    congr 1
    funext j
    by_cases hj : j = i
    · subst hj
      simp
    · simp only [Function.update_noteq hj]
      by_cases h1 : i + 1 ≤ j ∧ j < i + 1 + n
      · have h2 : i ≤ j ∧ j < i + (n + 1) := by omega
        simp only [h1, h2, and_self, if_true]
      · have h2 : ¬ (i ≤ j ∧ j < i + (n + 1)) := by omega
        simp only [h1, h2, if_false]

theorem read_parameters_layout (C : Config FT AR) (encodeFT : FT → List Nat)
    (encodeAR : AR → List Nat) (hrft : C.Transformer.read_inverts_write encodeFT)
    (hrar : C.Arch.read_inverts_write encodeAR) (hC : C.constants_are_u32)
    (featureTransformer ft0 : FT) (network network0 : Nat → AR) (d desc0 : List Nat)
    (hd : d.length < 4294967296) :
    read_parameters C ft0 network0
        (IStream.of_bytes (file_layout C encodeFT encodeAR featureTransformer network d)) desc0
      = (true, featureTransformer,
          (fun j => if j < C.LayerStacks then network j else network0 j), d,
          { data := [], failed := false, eof := true }) := by
  obtain ⟨hV, hH, hT, hA⟩ := hC
  have e1 : file_layout C encodeFT encodeAR featureTransformer network d
      = header_layout C C.hash d
        ++ (le32 C.Transformer.get_hash_value ++ encodeFT featureTransformer
          ++ ((List.range C.LayerStacks).flatMap
              (fun k => le32 C.Arch.get_hash_value ++ encodeAR (network (0 + k))) ++ [])) := by
    simp only [file_layout, List.append_assoc, List.append_nil, Nat.zero_add]
  have hhead := read_header_layout C C.hash d
    (le32 C.Transformer.get_hash_value ++ encodeFT featureTransformer
      ++ ((List.range C.LayerStacks).flatMap
          (fun k => le32 C.Arch.get_hash_value ++ encodeAR (network (0 + k))) ++ []))
    desc0 hV hH hd
  have hft := detail_read_layout C.Transformer encodeFT hrft hT featureTransformer ft0
    ((List.range C.LayerStacks).flatMap
      (fun k => le32 C.Arch.get_hash_value ++ encodeAR (network (0 + k))) ++ [])
  have hl := read_layers_layout C.Arch encodeAR hrar hA network C.LayerStacks 0 network0 []
  rw [e1]
  simp only [read_parameters, hhead, hft, hl]
  simp [IStream.of_bytes, IStream.peek_is_eof, IStream.good]

end Network
namespace Network

variable {FT AR : Type}

/-- C14: save/load round trip. For a network holding parameters, a name other than "" and
"None" and a description `d` shorter than 2^32 bytes, when each component's `read_parameters`
inverts its `write_parameters`, `save` to a stream that takes the bytes succeeds, and `load`
applied to exactly the bytes written returns `d` and leaves the loading network with the
feature transformer and the `LayerStacks` layer stacks that were saved. -/
theorem save_load_round_trip (C : Config FT AR) (encodeFT : FT → List Nat)
    (encodeAR : AR → List Nat)
    (hwft : C.Transformer.writes encodeFT) (hwar : C.Arch.writes encodeAR)
    (hrft : C.Transformer.read_inverts_write encodeFT)
    (hrar : C.Arch.read_inverts_write encodeAR) (hC : C.constants_are_u32)
    (net : Network FT AR) (featureTransformer : FT) (network : Nat → AR)
    (hft : net.featureTransformer = some featureTransformer) (hnet : net.network = some network)
    (name : String) (hn1 : name ≠ "") (hn2 : name ≠ "None")
    (d : List Nat) (hd : d.length < 4294967296)
    (out : OStream) (hout : out.failed = false)
    (hroom : (file_layout C encodeFT encodeAR featureTransformer network d).length ≤ out.room)
    (loading : Network FT AR) :
    ∃ B result,
      save C net out name d = some (true, result) ∧ result.data = out.data ++ B ∧
      (load C loading (IStream.of_bytes B)).1 = some d ∧
      (load C loading (IStream.of_bytes B)).2.1.featureTransformer = some featureTransformer ∧
      ∃ loaded, (load C loading (IStream.of_bytes B)).2.1.network = some loaded ∧
        ∀ i, i < C.LayerStacks → loaded i = network i := by
  have hn : ¬ (name = "" ∨ name = "None") := by
    rintro (h | h)
    · exact hn1 h
    · exact hn2 h
  have hw := write_parameters_eq C encodeFT encodeAR hwft hwar featureTransformer network out d
  have hfit := ostream_write_fits out _ hout hroom
  have hr := read_parameters_layout C encodeFT encodeAR hrft hrar hC featureTransformer
    C.Transformer.fresh network (fun _ => C.Arch.fresh) d [] hd
  refine ⟨file_layout C encodeFT encodeAR featureTransformer network d,
    out.write (file_layout C encodeFT encodeAR featureTransformer network d), ?_, ?_, ?_, ?_, ?_⟩
  · simp only [save, hn, if_false, hft, hnet, hw]
    rw [hfit]
    rfl
  · rw [hfit]
  · simp only [load, hr, if_true]
  · simp only [load, hr]
  · refine ⟨fun j => if j < C.LayerStacks then network j else C.Arch.fresh, ?_, ?_⟩
    · simp only [load, hr]
    · intro i hi
      simp only [hi, if_true]

/-- Loading the file of the sample network into a network that holds nothing yet. -/
theorem save_load_round_trip_witness :
    (∃ B result,
      save sample_config sample_network sample_ostream "nn.bin" [104, 105] = some (true, result) ∧
      result.data = sample_ostream.data ++ B ∧
      (load sample_config empty_network (IStream.of_bytes B)).1 = some [104, 105] ∧
      (load sample_config empty_network (IStream.of_bytes B)).2.1.featureTransformer
        = some (7, 9) ∧
      ∃ loaded, (load sample_config empty_network (IStream.of_bytes B)).2.1.network
          = some loaded ∧
        ∀ i, i < sample_config.LayerStacks → loaded i = (i, i + 1)) ∧
    (load sample_config empty_network (IStream.of_bytes sample_file)).1 = some [104, 105] :=
  ⟨save_load_round_trip sample_config (fun p => [p.1, p.2]) (fun p => [p.1, p.2])
    (sample_component_writes _) (sample_component_writes _)
    (sample_component_inverts _) (sample_component_inverts _)
    (by unfold Config.constants_are_u32; decide)
    sample_network (7, 9) (fun i => (i, i + 1)) rfl rfl "nn.bin" (by decide) (by decide)
    [104, 105] (by decide) sample_ostream rfl (by decide) empty_network,
   by decide⟩

end Network
namespace Network

variable {FT AR : Type}

/-- The sample file followed by one byte, and the sample file without its last byte. -/
theorem load_rejects_trailing_or_missing_witness :
    (load sample_config empty_network (IStream.of_bytes (sample_file ++ [0]))).1 = none ∧
    (load sample_config empty_network (IStream.of_bytes (sample_file.take 37))).1 = none :=
  let h := load_rejects_trailing_or_missing sample_config 2 2
    (sample_component_reads_block _) (sample_component_reads_block _)
    empty_network sample_file [104, 105] (by decide)
  ⟨h.1 [0] (by decide), h.2 37 (by decide)⟩

/-- C18 fails as stated: the sample network holds the transformer parameters (7, 9) and the
layer parameters (1, 2) in stack 1; `load` of a file whose header hash is not `Network::hash`
returns no description, and afterwards the network holds the freshly constructed parameters
(0, 0) instead. -/
theorem failed_load_counterexample :
    (load sample_config sample_network (IStream.of_bytes sample_file_wrong_hash)).1 = none ∧
    sample_network.featureTransformer = some (7, 9) ∧
    (load sample_config sample_network
        (IStream.of_bytes sample_file_wrong_hash)).2.1.featureTransformer = some (0, 0) ∧
    sample_network.network.map (fun f => f 1) = some (1, 2) ∧
    (load sample_config sample_network
        (IStream.of_bytes sample_file_wrong_hash)).2.1.network.map (fun f => f 1)
      = some (0, 0) := by
  decide

/-- C18 (amended): `load` first replaces the feature transformer and the layer stacks by
freshly constructed objects, so what the network holds after `load` does not depend on what
it held before; whenever `load` fails on the header (the header cannot be read, the version
differs or the header hash differs from `Network::hash`) it returns no description and the
network holds exactly the freshly constructed objects. The descriptor is what it was before
the call. -/
theorem load_discards_previous_parameters (C : Config FT AR) (net : Network FT AR)
    (s : IStream) :
    (load C net s).2.1.evalFile = net.evalFile ∧
    (∀ other : Network FT AR,
      (load C other s).1 = (load C net s).1 ∧
      (load C other s).2.1.featureTransformer = (load C net s).2.1.featureTransformer ∧
      (load C other s).2.1.network = (load C net s).2.1.network) ∧
    ((read_header C s []).1 = false ∨ (read_header C s []).2.1 ≠ C.hash →
      (load C net s).1 = none ∧
      (load C net s).2.1.featureTransformer = some C.Transformer.fresh ∧
      (load C net s).2.1.network = some (fun _ => C.Arch.fresh)) := by
  refine ⟨rfl, fun _ => ⟨rfl, rfl, rfl⟩, ?_⟩
  intro h
  simp only [load, read_parameters]
  rcases h with h | h
  · simp only [h, if_true]
    simp
  · by_cases h1 : (read_header C s []).1 = false
    · simp only [h1, if_true]
      simp
    · simp only [h1, if_false, h, ne_eq, not_false_eq_true, if_true]
      simp

end Network
namespace Network

variable {FT AR : Type}

theorem digitChar_ne_newline (d : Nat) : Nat.digitChar d ≠ Char.ofNat 10 := by
  by_cases h : d < 16
  · interval_cases d <;> decide
  · unfold Nat.digitChar
    iterate 16 rw [if_neg (by omega)]
    decide

theorem toDigitsCore_no_newline (fuel n : Nat) (acc : List Char)
    (h : ∀ c ∈ acc, c ≠ Char.ofNat 10) :
    ∀ c ∈ Nat.toDigitsCore 10 fuel n acc, c ≠ Char.ofNat 10 := by
  induction fuel generalizing n acc with
  | zero => simpa [Nat.toDigitsCore] using h
  | succ k ih =>
    unfold Nat.toDigitsCore
    simp only
    split
    · intro c hc
      rcases List.mem_cons.mp hc with rfl | hc
      · exact digitChar_ne_newline _
      · exact h c hc
    · apply ih
      intro c hc
      rcases List.mem_cons.mp hc with rfl | hc
      · exact digitChar_ne_newline _
      · exact h c hc

theorem toString_no_newline (n : Nat) : Char.ofNat 10 ∉ (toString n).data := by
  intro h
  have : (toString n).data = Nat.toDigits 10 n := rfl
  rw [this, Nat.toDigits] at h
  exact toDigitsCore_no_newline _ _ [] (by simp) _ h rfl

theorem count_newline_append (s : String) :
    (s ++ "\n").data.count (Char.ofNat 10) = s.data.count (Char.ofNat 10) + 1 := by
  rw [String.data_append, List.count_append]
  rfl

theorem count_append_ge (s t : String) (n : Nat) (h : n ≤ s.data.count (Char.ofNat 10)) :
    n ≤ (s ++ t).data.count (Char.ofNat 10) := by
  rw [String.data_append, List.count_append]
  omega

theorem verify_msg_lines (evalFile : EvalFile) (evalfilePath : String) :
    5 ≤ (verify_msg evalFile evalfilePath).data.count (Char.ofNat 10) := by
  unfold verify_msg
  simp only []
  rw [count_newline_append]
  refine Nat.succ_le_succ (count_append_ge _ _ _ (count_append_ge _ _ _ ?_))
  rw [count_newline_append]
  refine Nat.succ_le_succ (count_append_ge _ _ _ (count_append_ge _ _ _ ?_))
  rw [count_newline_append]
  refine Nat.succ_le_succ (count_append_ge _ _ _ (count_append_ge _ _ _ ?_))
  rw [count_newline_append]
  refine Nat.succ_le_succ (count_append_ge _ _ _ (count_append_ge _ _ _ ?_))
  rw [count_newline_append]
  exact Nat.succ_le_succ (Nat.zero_le _)

/-- C21: `verify(path, sink)` terminates the process if and only if the descriptor's current
filename differs from the requested path, an empty path standing for the default filename. On
a mismatch the sink, when provided, receives exactly one message, the diagnostic, which has
at least five line ends; on a match the call returns and the sink, when provided, receives
exactly one message, the summary, which is a single line when the requested path is. Without
a sink nothing is emitted. -/
theorem verify_terminates_iff_mismatch (C : Config FT AR) (K : Sizes) (net : Network FT AR)
    (evalfilePath : String) (f : Bool) :
    let requested := if evalfilePath = "" then net.evalFile.defaultName else evalfilePath
    ((verify C K net evalfilePath f).1 = true ↔ net.evalFile.current ≠ requested) ∧
    (net.evalFile.current ≠ requested →
      (verify C K net evalfilePath f).2
        = if f then [verify_msg net.evalFile requested] else []) ∧
    (net.evalFile.current = requested →
      (verify C K net evalfilePath f).1 = false ∧
      (verify C K net evalfilePath f).2
        = if f then [verify_summary C K requested] else []) ∧
    5 ≤ (verify_msg net.evalFile requested).data.count (Char.ofNat 10) ∧
    (Char.ofNat 10 ∉ requested.data →
      Char.ofNat 10 ∉ (verify_summary C K requested).data) := by
  intro requested
  refine ⟨?_, ?_, ?_, ?_, ?_⟩
  · by_cases h : net.evalFile.current = requested
    · simp [verify, requested, h] at *
    · simp [verify, requested, h] at *
  · intro h
    simp only [verify]
    rw [if_pos h]
  · intro h
    simp only [verify]
    rw [if_neg (not_not.mpr h)]
    exact ⟨rfl, rfl⟩
  · exact verify_msg_lines _ _
  · intro h
    simp only [verify_summary, String.data_append, List.mem_append, not_or]
    repeat' apply And.intro
    all_goals first | exact h | exact toString_no_newline _ | decide

end Network
namespace Network

variable {FT AR : Type}

/-- What `load` accepts is a good stream that starts with `Version` and `Network::hash`. -/
theorem load_some_stream (C : Config FT AR) (net : Network FT AR) (s : IStream) (d : List Nat)
    (h : (load C net s).1 = some d) :
    s.good = true ∧ le32_value (s.data.take 4) = C.Version ∧
    le32_value ((s.data.drop 4).take 4) = C.hash := by
  obtain ⟨hr, -⟩ := load_some C net s d h
  obtain ⟨hg, -, hv, hh, -, -⟩ := read_parameters_header C _ _ s [] hr
  exact ⟨hg, hv, hh⟩

theorem load_user_net_some (C : Config FT AR) (net : Network FT AR)
    (fs : String → Option (List Nat)) (dir evalfilePath : String) (description : List Nat)
    (h : (load C net (open_ifstream fs (dir ++ "/" ++ evalfilePath))).1 = some description) :
    load_user_net C net fs dir evalfilePath
      = { exited := false
          state := { (load C net (open_ifstream fs (dir ++ "/" ++ evalfilePath))).2.1 with
            evalFile := { net.evalFile with
              current := evalfilePath, netDescription := description } }
          cout := ["info string loading NNUE eval from " ++ (dir ++ "/" ++ evalfilePath),
            "info string NNUE eval loaded."] } := by
  simp only [load_user_net, h]
  rfl

theorem load_user_net_none (C : Config FT AR) (net : Network FT AR)
    (fs : String → Option (List Nat)) (dir evalfilePath : String)
    (h : (load C net (open_ifstream fs (dir ++ "/" ++ evalfilePath))).1 = none) :
    load_user_net C net fs dir evalfilePath
      = { exited := true
          state := (load C net (open_ifstream fs (dir ++ "/" ++ evalfilePath))).2.1
          cout := ["info string loading NNUE eval from " ++ (dir ++ "/" ++ evalfilePath),
            "info string failed to load NNUE eval."] } := by
  simp only [load_user_net, h]
  rfl

/-- C22: `load_user_net(dir, path)`. When loading the stream of `dir/path` yields a
description, the call returns, the descriptor has current filename `path` and the loaded
description, and its default filename is unchanged, so that `verify(path)` with a non-empty
`path` does not terminate afterwards. When loading yields no description, which is the case
when the file is missing or does not start with `Version` and `Network::hash`, the process is
terminated and the descriptor is what it was before the call. -/
theorem load_user_net_updates_descriptor (C : Config FT AR) (net : Network FT AR)
    (fs : String → Option (List Nat)) (dir evalfilePath : String) :
    (∀ description,
      (load C net (open_ifstream fs (dir ++ "/" ++ evalfilePath))).1 = some description →
      (load_user_net C net fs dir evalfilePath).exited = false ∧
      (load_user_net C net fs dir evalfilePath).state.evalFile.current = evalfilePath ∧
      (load_user_net C net fs dir evalfilePath).state.evalFile.netDescription = description ∧
      (load_user_net C net fs dir evalfilePath).state.evalFile.defaultName
        = net.evalFile.defaultName ∧
      (evalfilePath ≠ "" → ∀ K f,
        (verify C K (load_user_net C net fs dir evalfilePath).state evalfilePath f).1
          = false)) ∧
    ((load C net (open_ifstream fs (dir ++ "/" ++ evalfilePath))).1 = none →
      (load_user_net C net fs dir evalfilePath).exited = true ∧
      (load_user_net C net fs dir evalfilePath).state.evalFile = net.evalFile) ∧
    (fs (dir ++ "/" ++ evalfilePath) = none →
      (load C net (open_ifstream fs (dir ++ "/" ++ evalfilePath))).1 = none) ∧
    (∀ bytes, fs (dir ++ "/" ++ evalfilePath) = some bytes →
      le32_value (bytes.take 4) ≠ C.Version ∨ le32_value ((bytes.drop 4).take 4) ≠ C.hash →
      (load C net (open_ifstream fs (dir ++ "/" ++ evalfilePath))).1 = none) := by
  refine ⟨?_, ?_, ?_, ?_⟩
  · intro description h
    rw [load_user_net_some C net fs dir evalfilePath description h]
    refine ⟨rfl, rfl, rfl, rfl, ?_⟩
    intro hne K f
    simp [verify, hne]
  · intro h
    rw [load_user_net_none C net fs dir evalfilePath h]
    exact ⟨rfl, rfl⟩
  · intro h
    cases hl : (load C net (open_ifstream fs (dir ++ "/" ++ evalfilePath))).1 with
    | none => rfl
    | some d =>
      have hg := (load_some_stream C net _ d hl).1
      simp [open_ifstream, h, IStream.good] at hg
  · intro bytes h hne
    cases hl : (load C net (open_ifstream fs (dir ++ "/" ++ evalfilePath))).1 with
    | none => rfl
    | some d =>
      obtain ⟨-, hv, hh⟩ := load_some_stream C net _ d hl
      simp only [open_ifstream, h, IStream.of_bytes] at hv hh
      rcases hne with hne | hne
      · exact absurd hv hne
      · exact absurd hh hne

/-- Loading `eval/nn.bin` into the empty network: the call returns, the current filename is
`nn.bin`, the description is `hi`, and `verify` of `nn.bin` does not terminate. Loading a
file with a wrong hash or a missing file terminates the process and leaves the descriptor. -/
theorem load_user_net_updates_descriptor_witness :
    ((load_user_net sample_config empty_network sample_fs "eval" "nn.bin").exited = false ∧
      (load_user_net sample_config empty_network sample_fs "eval" "nn.bin").state.evalFile.current
        = "nn.bin" ∧
      (load_user_net sample_config empty_network sample_fs "eval"
        "nn.bin").state.evalFile.netDescription = [104, 105] ∧
      (verify sample_config sample_sizes
        (load_user_net sample_config empty_network sample_fs "eval" "nn.bin").state
        "nn.bin" true).1 = false) ∧
    ((load_user_net sample_config empty_network sample_fs "eval" "bad.bin").exited = true ∧
      (load_user_net sample_config empty_network sample_fs "eval" "bad.bin").state.evalFile
        = empty_network.evalFile) ∧
    (load_user_net sample_config empty_network sample_fs "eval" "no.bin").exited = true :=
  let h := (load_user_net_updates_descriptor sample_config empty_network sample_fs "eval"
    "nn.bin").1 [104, 105] (by decide)
  let b := load_user_net_updates_descriptor sample_config empty_network sample_fs "eval"
    "bad.bin"
  let m := load_user_net_updates_descriptor sample_config empty_network sample_fs "eval"
    "no.bin"
  ⟨⟨h.1, h.2.1, h.2.2.1, h.2.2.2.2 (by decide) sample_sizes true⟩,
    b.2.1 (b.2.2.2 sample_file_wrong_hash (by decide) (by decide)),
    (m.2.1 (m.2.2.1 (by decide))).1⟩

end Network
namespace Network

variable {FT AR : Type}

/-- C23 fails as stated: the empty network has the default filename `nn.bin`, which is not
current; the embedded blob is the sample file, which `load_internal` loads, making `nn.bin`
current; no file exists. `load` with the default filename, and `load` with an empty path,
do not use the blob: they terminate the process and `nn.bin` is not current. -/
theorem load_ignores_embedded_counterexample :
    (load_internal sample_config empty_network sample_file).evalFile.current = "nn.bin" ∧
    (load_internal sample_config empty_network sample_file).featureTransformer
      = some (7, 9) ∧
    (load_path sample_config empty_network (fun _ => none) "eval" "nn.bin").exited = true ∧
    (load_path sample_config empty_network (fun _ => none) "eval"
      "nn.bin").state.evalFile.current = "None" ∧
    (load_path sample_config empty_network (fun _ => none) "eval"
      "nn.bin").state.featureTransformer = some (0, 0) ∧
    (load_path sample_config empty_network (fun _ => none) "eval" "").exited = true ∧
    (load_path sample_config empty_network (fun _ => none) "eval"
      "").state.evalFile.current = "None" := by
  decide

/-- C23 (amended): `Network::load(rootDirectory, evalfilePath)` loads the file
`rootDirectory/evalfilePath` through `load_user_net`, whatever `evalfilePath` is, the empty
path and the default filename included: an empty path is not replaced by the default
filename, and the outcome is that of loading this file, whatever the embedded blob holds.
When the file yields no description the process is terminated, also when the embedded blob
holds a network that `load_internal` would load; when it yields one, the call returns with
`evalfilePath` as the current filename. -/
theorem load_uses_user_file_only (C : Config FT AR) (net : Network FT AR)
    (fs : String → Option (List Nat)) (rootDirectory evalfilePath : String) :
    load_path C net fs rootDirectory evalfilePath
      = load_user_net C net fs rootDirectory evalfilePath ∧
    (∀ embedded : List Nat,
      (load C net (open_ifstream fs (rootDirectory ++ "/" ++ evalfilePath))).1 = none →
      (load_path C net fs rootDirectory evalfilePath).exited = true ∧
      (load_path C net fs rootDirectory evalfilePath).state.evalFile = net.evalFile ∧
      ((load C net (IStream.of_bytes embedded)).1 ≠ none →
        net.evalFile.current ≠ net.evalFile.defaultName →
        (load_path C net fs rootDirectory evalfilePath).state.evalFile
          ≠ (load_internal C net embedded).evalFile)) ∧
    (∀ description,
      (load C net (open_ifstream fs (rootDirectory ++ "/" ++ evalfilePath))).1
        = some description →
      (load_path C net fs rootDirectory evalfilePath).exited = false ∧
      (load_path C net fs rootDirectory evalfilePath).state.evalFile.current
        = evalfilePath ∧
      (load_path C net fs rootDirectory evalfilePath).state.evalFile.netDescription
        = description) := by
  refine ⟨rfl, ?_, ?_⟩
  · intro embedded h
    simp only [load_path]
    rw [load_user_net_none C net fs rootDirectory evalfilePath h]
    refine ⟨rfl, rfl, ?_⟩
    intro he hc
    cases hl : (load C net (IStream.of_bytes embedded)).1 with
    | none => exact absurd hl he
    | some d =>
      intro heq
      have h2 : (load_internal C net embedded).evalFile.current
          = net.evalFile.defaultName := by
        simp only [load_internal, hl]
        rfl
      apply hc
      rw [← h2, ← heq]
      rfl
  · intro description h
    simp only [load_path]
    rw [load_user_net_some C net fs rootDirectory evalfilePath description h]
    exact ⟨rfl, rfl, rfl⟩

end Network
namespace Network

variable {FT AR : Type}

theorem copy_layers_step (n : Nat) (network other : Nat → AR) :
    copy_layers (n + 1) network other
      = Function.update (copy_layers n network other) n (other n) := by
  simp only [copy_layers, List.range_succ, List.foldl_append, List.foldl_cons, List.foldl_nil]

/-- After the copy loop the first `LayerStacks` entries are those of `other`, the others are
untouched. -/
theorem copy_layers_eq (n : Nat) (network other : Nat → AR) (i : Nat) :
    copy_layers n network other i = if i < n then other i else network i := by
  induction n with
  | zero => simp [copy_layers]
  | succ k ih =>
    rw [copy_layers_step]
    by_cases h : i = k
    · subst h
      simp
    · rw [Function.update_noteq h, ih]
      by_cases h2 : i < k
      · rw [if_pos h2, if_pos (by omega)]
      · rw [if_neg h2, if_neg (by omega)]

/-- Where the copy does what C24 says: when `other` holds a feature transformer and layer
stacks, the copy constructor and the assignment give a network with the descriptor, the
feature transformer and the `LayerStacks` layer stacks of `other`. -/
theorem copy_of_initialized (C : Config FT AR) (self other : Network FT AR) (t : FT)
    (o : Nat → AR) (ht : other.featureTransformer = some t) (ho : other.network = some o) :
    (copy C other).evalFile = other.evalFile ∧
    (assign C self other).evalFile = other.evalFile ∧
    (copy C other).featureTransformer = some t ∧
    (assign C self other).featureTransformer = some t ∧
    (∃ n, (copy C other).network = some n ∧ ∀ i, i < C.LayerStacks → n i = o i) ∧
    (∃ n, (assign C self other).network = some n ∧ ∀ i, i < C.LayerStacks → n i = o i) := by
  refine ⟨?_, ?_, ?_, ?_, ⟨copy_layers C.LayerStacks (fun _ => C.Arch.fresh) o, ?_, ?_⟩,
    ⟨copy_layers C.LayerStacks (fun _ => C.Arch.fresh) o, ?_, ?_⟩⟩
  · simp only [copy, ho]
  · simp only [assign, ho]
  · simp only [copy, ht, ho]
  · simp only [assign, ht, ho]
  · simp only [copy, ho]
  · intro i hi
    rw [copy_layers_eq, if_pos hi]
  · simp only [assign, ho]
  · intro i hi
    rw [copy_layers_eq, if_pos hi]

/-- C24 at the failing input: `a` is the sample network, which holds the transformer
parameters (7, 9), and `b` is the network that was never initialized. After `a = b` the
descriptor of `a` is that of `b`, but `a` still holds its old feature transformer, where `b`
holds none, and `a` holds freshly constructed layer stacks, where `b` holds none. The copy
constructor on the same `b` gives a network without feature transformer. -/
theorem assign_keeps_old_transformer :
    (assign sample_config sample_network empty_network).evalFile = empty_network.evalFile ∧
    empty_network.featureTransformer = none ∧
    (assign sample_config sample_network empty_network).featureTransformer = some (7, 9) ∧
    (copy sample_config empty_network).featureTransformer = none ∧
    empty_network.network.map (fun n => n 1) = none ∧
    (assign sample_config sample_network empty_network).network.map (fun n => n 1)
      = some (0, 0) := by
  refine ⟨rfl, ?_⟩
  decide

end Network
namespace Eval

theorem bitboard_to_bool_iff (bb : Nat → Bool) :
    bitboard_to_bool bb = true ↔ 1 ≤ (pop_squares bb).length := by
  simp only [bitboard_to_bool, pop_squares, List.any_eq_true]
  constructor
  · rintro ⟨s, hs, hb⟩
    exact List.length_pos_of_mem (List.mem_filter.mpr ⟨hs, hb⟩)
  · intro h
    obtain ⟨s, hs⟩ := List.exists_mem_of_length_pos h
    exact ⟨s, (List.mem_filter.mp hs).1, (List.mem_filter.mp hs).2⟩

/-- C25: `Eval::trace` returns exactly the string `Final evaluation: none (in check)` if and
only if the position has at least one checker, and then it makes no call into the network.
Otherwise the string ends with the line that starts `Final evaluation`, which shows the
value `Eval::evaluate` computes with optimism 0 from what the network returns, negated when
White is to move; that line follows a line end. -/
theorem trace_in_check (E : TraceEnv) (USE_OPTIMISM : Bool)
    (VALUE_TB_LOSS_IN_MAX_PLY VALUE_TB_WIN_IN_MAX_PLY : Int) (pos : Position) :
    ((trace E USE_OPTIMISM VALUE_TB_LOSS_IN_MAX_PLY VALUE_TB_WIN_IN_MAX_PLY pos).1
        = "Final evaluation: none (in check)"
      ↔ 1 ≤ (pop_squares (E.checkers pos)).length) ∧
    (1 ≤ (pop_squares (E.checkers pos)).length →
      (trace E USE_OPTIMISM VALUE_TB_LOSS_IN_MAX_PLY VALUE_TB_WIN_IN_MAX_PLY pos).2 = []) ∧
    (¬ 1 ≤ (pop_squares (E.checkers pos)).length →
      ∃ before : String,
        (trace E USE_OPTIMISM VALUE_TB_LOSS_IN_MAX_PLY VALUE_TB_WIN_IN_MAX_PLY pos).1
          = (before ++ "\n") ++
            ("Final evaluation       "
              ++ E.show_cp (E.to_cp
                  (if E.side_to_move pos = .BLACK then
                    evaluate USE_OPTIMISM VALUE_TB_LOSS_IN_MAX_PLY VALUE_TB_WIN_IN_MAX_PLY
                      (E.network_evaluate pos).1 (E.network_evaluate pos).2 0
                  else
                    int32 (-(evaluate USE_OPTIMISM VALUE_TB_LOSS_IN_MAX_PLY
                      VALUE_TB_WIN_IN_MAX_PLY
                      (E.network_evaluate pos).1 (E.network_evaluate pos).2 0))))
              ++ " (black side) [with scaled NNUE, ...]\n")) := by
  rw [← bitboard_to_bool_iff]
  by_cases h : bitboard_to_bool (E.checkers pos) = true
  · refine ⟨?_, ?_, fun hn => absurd h hn⟩
    · simp only [trace, h, if_true]
    · intro _
      simp only [trace, h, if_true]
  · refine ⟨?_, fun hp => absurd hp h, ?_⟩
    · simp only [trace, h]
      simp only [Bool.false_eq_true, if_false, iff_false]
      intro heq
      have hd := congrArg String.data heq
      simp only [String.data_append] at hd
      have h0 := congrArg List.head? hd
      simp at h0
    · intro _
      refine ⟨"\n" ++ E.nnue_trace pos ++ "\n" ++ "NNUE evaluation        "
        ++ E.show_cp (E.to_cp (if E.side_to_move pos = .BLACK then
            int32 ((E.network_evaluate pos).1 + (E.network_evaluate pos).2)
          else int32 (-(int32 ((E.network_evaluate pos).1 + (E.network_evaluate pos).2)))))
        ++ " (black side)", ?_⟩
      simp only [trace, h]
      simp only [Bool.false_eq_true, if_false]
      apply String.ext
      simp only [String.data_append, List.append_assoc]
      rfl

end Eval
namespace Benchmark

theorem defaults_without_setoption :
    ∀ fen ∈ Defaults, find_in fen "setoption" = false := by
  decide

theorem foldl_positions (pre : String) (go : String) (fens : List String)
    (h : ∀ fen ∈ fens, find_in fen "setoption" = false) (list : List String) :
    fens.foldl
      (fun list fen =>
        if find_in fen "setoption" then list ++ [fen]
        else list ++ [pre ++ fen] ++ [go])
      list
    = list ++ fens.flatMap (fun fen => [pre ++ fen, go]) := by
  induction fens generalizing list with
  | nil => simp
  | cons fen rest ih =>
    have h1 := h fen (List.mem_cons_self _ _)
    rw [List.foldl_cons, ih (fun f hf => h f (List.mem_cons_of_mem _ hf))]
    simp [h1]

/-- C26 at the failing input, the empty argument stream: `setup_bench` returns the two
`setoption` commands for 1 thread and 16 MB of hash, `ucinewgame`, and for each of the 20
default positions in order `position sfen <sfen>` followed by `go depth 12`; no command
`go depth 13` is among them. -/
theorem setup_bench_default_depth (files : String → Option (List String))
    (currentFen : String) :
    Defaults.length = 20 ∧
    setup_bench false files currentFen []
      = some (["setoption name Threads value 1", "setoption name Hash value 16",
          "ucinewgame"]
          ++ Defaults.flatMap (fun fen => ["position sfen " ++ fen, "go depth 12"])) ∧
    ∀ list, setup_bench false files currentFen [] = some list → "go depth 13" ∉ list := by
  have heq : setup_bench false files currentFen []
      = some (["setoption name Threads value 1", "setoption name Hash value 16",
          "ucinewgame"]
          ++ Defaults.flatMap (fun fen => ["position sfen " ++ fen, "go depth 12"])) := by
    have hde : ("depth" = "eval") = False := eq_false (by decide)
    simp only [setup_bench, next_argument, hde, if_true, if_false, Bool.false_eq_true]
    rw [foldl_positions "position sfen " _ Defaults defaults_without_setoption]
    rfl
  refine ⟨rfl, heq, ?_⟩
  intro list hl
  rw [heq] at hl
  injection hl with hl
  subst hl
  decide

end Benchmark
namespace HalfKAv2_hm

/-- C27: HalfKAv2_hm canonical king side. For both perspectives and every king square in
0..80 the oriented own-king square lies on files 5..9 (file index 4..8); and for a fixed king
square `orient` is a bijection on the 81 squares: it maps squares to squares, different
squares to different squares, and every square is the image of a square. -/
theorem orient_canonical_king_side (perspective : Color) (ksq : Nat) (hk : ksq < SQ_NB) :
    (4 ≤ file_of (orient perspective ksq ksq) ∧ file_of (orient perspective ksq ksq) ≤ 8) ∧
    (∀ s, s < SQ_NB → orient perspective s ksq < SQ_NB) ∧
    (∀ s1 s2, s1 < SQ_NB → s2 < SQ_NB →
      orient perspective s1 ksq = orient perspective s2 ksq → s1 = s2) ∧
    (∀ t, t < SQ_NB → ∃ s, s < SQ_NB ∧ orient perspective s ksq = t) := by
  simp only [SQ_NB] at *
  refine ⟨?_, fun s hs => orient_lt perspective s ksq hs,
    fun s1 s2 h1 h2 h => orient_inj perspective s1 s2 ksq h1 h2 h, ?_⟩
  · cases perspective <;>
      simp only [orient, Flip, horizontal_flip, file_of, rank_of, SQ_NB, FILE_NB, FILE_4,
        FILE_6] <;>
      split <;> omega
  · intro t ht
    cases perspective
    · by_cases hf : file_of ksq ≤ FILE_4
      · refine ⟨horizontal_flip t, ?_, ?_⟩
        · simp only [horizontal_flip, file_of, rank_of, FILE_NB]; omega
        · simp only [orient, if_pos hf]
          simp only [horizontal_flip, file_of, rank_of, FILE_NB]; omega
      · exact ⟨t, ht, by simp only [orient, if_neg hf]⟩
    · by_cases hf : file_of ksq ≥ FILE_6
      · refine ⟨Flip (horizontal_flip t), ?_, ?_⟩
        · simp only [Flip, horizontal_flip, file_of, rank_of, FILE_NB, SQ_NB]; omega
        · simp only [orient, if_pos hf]
          simp only [Flip, horizontal_flip, file_of, rank_of, FILE_NB, SQ_NB]; omega
      · refine ⟨Flip t, ?_, ?_⟩
        · simp only [Flip, SQ_NB]; omega
        · simp only [orient, if_neg hf]
          simp only [Flip, SQ_NB]; omega

/-- The canonical king side for Black with its king on square 0 (file 1), which is mirrored
to square 72 (file 9), and for White with its king on square 80. -/
theorem orient_canonical_king_side_witness :
    orient .BLACK 0 0 = 72 ∧ 4 ≤ file_of (orient .BLACK 0 0) ∧
    4 ≤ file_of (orient .WHITE 80 80) :=
  ⟨by decide, (orient_canonical_king_side .BLACK 0 (by decide)).1.1,
    (orient_canonical_king_side .WHITE 80 (by decide)).1.1⟩

end HalfKAv2_hm
namespace HalfKAv2_hm

/-- The table `KingBuckets` in closed form: the bucket number is nine times the distance of
the king's file from the nearer edge plus the rank, counted from the perspective's side. -/
theorem KingBuckets_closed_form (perspective : Color) (ksq : Nat) (hk : ksq < 81) :
    KingBuckets perspective ksq
      = (min (file_of ksq) (8 - file_of ksq) * 9
          + (match perspective with
             | .BLACK => rank_of ksq
             | .WHITE => 8 - rank_of ksq)) * (PS_NB + 64) := by
  cases perspective <;> interval_cases ksq <;> decide

/-- C28: HalfKAv2_hm king buckets. For each perspective `KingBuckets` takes exactly the 45
values `k * (PS_NB + 64)`, `k = 0..44`, so that `Dimensions = 45 * (PS_NB + 64)`; and two king
squares get the same value if and only if they have the same rank and their files are equal
or mirror images of each other. -/
theorem king_buckets_values (perspective : Color) :
    (∀ ksq, ksq < SQ_NB → ∃ k, k ≤ 44 ∧ KingBuckets perspective ksq = k * (PS_NB + 64)) ∧
    (∀ k, k ≤ 44 → ∃ ksq, ksq < SQ_NB ∧ KingBuckets perspective ksq = k * (PS_NB + 64)) ∧
    ((List.range SQ_NB).map (KingBuckets perspective)).dedup.length = 45 ∧
    Dimensions = 45 * (PS_NB + 64) ∧
    (∀ k1 k2, k1 < SQ_NB → k2 < SQ_NB →
      (KingBuckets perspective k1 = KingBuckets perspective k2 ↔
        rank_of k1 = rank_of k2 ∧
          (file_of k1 = file_of k2 ∨ file_of k1 = 8 - file_of k2))) := by
  simp only [SQ_NB] at *
  refine ⟨?_, ?_, ?_, by decide, ?_⟩
  · intro ksq hk
    rw [KingBuckets_closed_form perspective ksq hk]
    refine ⟨_, ?_, rfl⟩
    cases perspective <;> simp only [file_of, rank_of] <;> omega
  · intro k hk
    cases perspective
    · refine ⟨k, by omega, ?_⟩
      rw [KingBuckets_closed_form .BLACK k (by omega)]
      congr 1
      simp only [file_of, rank_of]; omega
    · refine ⟨k / 9 * 9 + (8 - k % 9), by omega, ?_⟩
      rw [KingBuckets_closed_form .WHITE _ (by omega)]
      congr 1
      simp only [file_of, rank_of]; omega
  · cases perspective <;> (set_option maxRecDepth 100000 in decide)
  · intro k1 k2 h1 h2
    rw [KingBuckets_closed_form perspective k1 h1, KingBuckets_closed_form perspective k2 h2]
    have hpos : 0 < PS_NB + 64 := by decide
    rw [Nat.mul_left_inj (by omega)]
    cases perspective <;> simp only [file_of, rank_of] <;> omega

end HalfKAv2_hm
namespace HalfKAv2_hm

theorem pop_squares_sorted (bb : Nat → Bool) : (pop_squares bb).Sorted (· < ·) := by
  unfold pop_squares
  exact (List.pairwise_lt_range SQ_NB).sublist (List.filter_sublist _)

theorem pop_bits_sorted (bits : Nat) : (pop_bits bits).Sorted (· < ·) := by
  unfold pop_bits
  exact (List.pairwise_lt_range 64).sublist (List.filter_sublist _)

theorem pop_squares_length (pos : Position) :
    (pop_squares pos.pieces).length
      = ((Finset.range SQ_NB).filter (fun s => pos.piece_on s ≠ NO_PIECE)).card := by
  unfold pop_squares
  rw [← List.toFinset_card_of_nodup ((List.nodup_range SQ_NB).filter _)]
  congr 1
  ext s
  simp [Position.pieces]

theorem pop_bits_length (bits : Nat) :
    (pop_bits bits).length
      = ((Finset.range 64).filter (fun b => bits.testBit b = true)).card := by
  unfold pop_bits
  rw [← List.toFinset_card_of_nodup ((List.nodup_range 64).filter _)]
  congr 1
  ext s
  simp

/-- C29: HalfKAv2_hm `append_active_indices` keeps the prior contents of `active` and appends
one board index per occupied square in increasing square order (kings included), then one
hand index per set hand bit in increasing bit order: popcount(occupied squares) +
popcount(hand_bits) indices in all. Hence for a position with at most 40 pieces on board and
in hand together, a list that was empty never grows beyond `MaxActiveDimensions = 40`
entries. -/
theorem active_indices_count (perspective : Color) (pos : Position) (active : List Nat) :
    (∃ squares bits : List Nat,
      squares.Sorted (· < ·) ∧ bits.Sorted (· < ·) ∧
      (∀ s, s ∈ squares ↔ s < SQ_NB ∧ pos.piece_on s ≠ NO_PIECE) ∧
      (∀ b, b ∈ bits ↔ b < 64 ∧ pos.hand_bits.testBit b = true) ∧
      squares.length = ((Finset.range SQ_NB).filter (fun s => pos.piece_on s ≠ NO_PIECE)).card ∧
      bits.length = ((Finset.range 64).filter (fun b => pos.hand_bits.testBit b = true)).card ∧
      append_active_indices perspective pos active
        = active
          ++ squares.map (fun s =>
              make_board_index perspective s (pos.piece_on s) (pos.king_square perspective))
          ++ bits.map (fun (b : Nat) =>
              make_hand_index perspective (b : Int) (pos.king_square perspective))) ∧
    (append_active_indices perspective pos active).length
      = active.length
        + ((Finset.range SQ_NB).filter (fun s => pos.piece_on s ≠ NO_PIECE)).card
        + ((Finset.range 64).filter (fun b => pos.hand_bits.testBit b = true)).card ∧
    (((Finset.range SQ_NB).filter (fun s => pos.piece_on s ≠ NO_PIECE)).card
        + ((Finset.range 64).filter (fun b => pos.hand_bits.testBit b = true)).card ≤ 40 →
      ∀ l, l <+: append_active_indices perspective pos [] → l.length ≤ MaxActiveDimensions) := by
  have hlen : (append_active_indices perspective pos active).length
      = active.length
        + ((Finset.range SQ_NB).filter (fun s => pos.piece_on s ≠ NO_PIECE)).card
        + ((Finset.range 64).filter (fun b => pos.hand_bits.testBit b = true)).card := by
    rw [ka_append_active_indices_eq, List.length_append, List.length_append, List.length_map,
      List.length_map, pop_squares_length, pop_bits_length]
  refine ⟨⟨pop_squares pos.pieces, pop_bits pos.hand_bits, pop_squares_sorted _,
    pop_bits_sorted _, ?_, ?_, pop_squares_length pos, pop_bits_length _,
    ka_append_active_indices_eq perspective pos active⟩, hlen, ?_⟩
  · intro s
    simp [pop_squares, Position.pieces]
  · intro b
    simp [pop_bits]
  · intro h l hl
    have h1 := hl.length_le
    have hlen0 : (append_active_indices perspective pos []).length
        = ((Finset.range SQ_NB).filter (fun s => pos.piece_on s ≠ NO_PIECE)).card
          + ((Finset.range 64).filter (fun b => pos.hand_bits.testBit b = true)).card := by
      rw [ka_append_active_indices_eq, List.length_append, List.length_append, List.length_map,
        List.length_map, pop_squares_length, pop_bits_length]
      simp
    simp only [MaxActiveDimensions]
    omega

end HalfKAv2_hm
namespace HalfKAv2_hm

theorem PieceSquareIndex_swap (pc : Nat) (hpc : pc < 32) :
    PieceSquareIndex .WHITE pc = PieceSquareIndex .BLACK (pc ^^^ 16) := by
  interval_cases pc <;> decide

theorem KingBuckets_flip (ksq : Nat) (hk : ksq < 81) :
    KingBuckets .WHITE ksq = KingBuckets .BLACK (Flip ksq) := by
  interval_cases ksq <;> decide

theorem orient_flip (s ksq : Nat) (hk : ksq < 81) :
    orient .WHITE s ksq = orient .BLACK (Flip s) (Flip ksq) := by
  simp only [orient, Flip, file_of, SQ_NB, FILE_4, FILE_6]
  split <;> split <;> first | rfl | omega

theorem xor_16_lt (pc : Nat) (hpc : pc < 32) : pc ^^^ 16 < 32 := by
  interval_cases pc <;> decide

/-- C30: HalfKAv2_hm perspective symmetry. For every square, king square and piece code in
0..31 the board index seen by White is the board index seen by Black of the rotated square,
the piece with its colour swapped and the rotated king square; and for every hand bit in
0..63 the hand index seen by White is the hand index seen by Black of the bit moved to the
other colour's half, `(bit + 32) mod 64`, and the rotated king square. -/
theorem perspective_symmetry (s pc ksq : Nat) (hs : s < SQ_NB) (hpc : pc < PIECE_NB)
    (hk : ksq < SQ_NB) :
    make_board_index .WHITE s pc ksq = make_board_index .BLACK (Flip s) (pc ^^^ 16) (Flip ksq) ∧
    (∀ bit : Int, 0 ≤ bit → bit < 64 →
      make_hand_index .WHITE bit ksq = make_hand_index .BLACK ((bit + 32) % 64) (Flip ksq)) := by
  simp only [SQ_NB, PIECE_NB] at *
  have hfk : Flip ksq < 81 := by simp only [Flip, SQ_NB]; omega
  have hfs : Flip s < 81 := by simp only [Flip, SQ_NB]; omega
  constructor
  · rw [make_board_index_val _ _ _ _ hs hpc hk,
      make_board_index_val _ _ _ _ hfs (xor_16_lt pc hpc) hfk,
      orient_flip s ksq hk, PieceSquareIndex_swap pc hpc, KingBuckets_flip ksq hk]
  · intro bit h0 h1
    rw [make_hand_index_val _ _ _ h0 h1 hk,
      make_hand_index_val _ _ _ (by omega) (by omega) hfk, KingBuckets_flip ksq hk]
    obtain ⟨b, -, e, -, hW⟩ := orient_bit_eq .WHITE bit h0 h1
    obtain ⟨c, -, e2, hB, -⟩ := orient_bit_eq .BLACK ((bit + 32) % 64) (by omega) (by omega)
    have h3 := hW rfl
    have h4 := hB rfl
    rw [e, e2]
    omega

/-- The symmetry for a white pawn (piece code 17) on square 20 with the king on square 4,
and for hand bit 40. -/
theorem perspective_symmetry_witness :
    make_board_index .WHITE 20 17 4 = make_board_index .BLACK 60 1 76 ∧
    make_hand_index .WHITE 40 4 = make_hand_index .BLACK 8 76 := by
  have h := perspective_symmetry 20 17 4 (by decide) (by decide) (by decide)
  exact ⟨h.1, h.2 40 (by decide) (by decide)⟩

end HalfKAv2_hm
namespace HalfKAv2_hm

theorem KingBuckets_mirror (perspective : Color) (ksq : Nat) (hk : ksq < 81) :
    KingBuckets perspective (horizontal_flip ksq) = KingBuckets perspective ksq := by
  have hm : horizontal_flip ksq < 81 := by
    simp only [horizontal_flip, file_of, rank_of, FILE_NB]; omega
  rw [KingBuckets_closed_form perspective _ hm, KingBuckets_closed_form perspective ksq hk]
  congr 1
  cases perspective <;> simp only [horizontal_flip, file_of, rank_of, FILE_NB] <;> omega

theorem orient_mirror (perspective : Color) (s ksq : Nat) (hs : s < 81) (hk : ksq < 81)
    (hc : file_of ksq ≠ 4) :
    orient perspective (horizontal_flip s) (horizontal_flip ksq) = orient perspective s ksq := by
  cases perspective <;>
    simp only [orient, Flip, horizontal_flip, file_of, rank_of, SQ_NB, FILE_NB, FILE_4, FILE_6]
      at hc ⊢ <;>
    split <;> split <;> omega

/-- C31: HalfKAv2_hm mirror invariance. For both perspectives, every square, every piece and
every king square that is not on the centre file, the board index of the mirrored square with
the mirrored king square is the board index of the square with the king square, where the
mirror reflects the file and keeps the rank; and for every king square and hand bit the hand
index with the mirrored king square is the hand index with the king square. -/
theorem mirror_invariance (perspective : Color) (ksq : Nat) (hk : ksq < SQ_NB) :
    (file_of (horizontal_flip ksq) = 8 - file_of ksq ∧
      rank_of (horizontal_flip ksq) = rank_of ksq) ∧
    (file_of ksq ≠ 4 → ∀ s pc, s < SQ_NB → pc < PIECE_NB →
      make_board_index perspective (horizontal_flip s) pc (horizontal_flip ksq)
        = make_board_index perspective s pc ksq) ∧
    (∀ bit : Int, 0 ≤ bit → bit < 64 →
      make_hand_index perspective bit (horizontal_flip ksq)
        = make_hand_index perspective bit ksq) := by
  simp only [SQ_NB, PIECE_NB] at *
  have hm : horizontal_flip ksq < 81 := by
    simp only [horizontal_flip, file_of, rank_of, FILE_NB]; omega
  refine ⟨?_, ?_, ?_⟩
  · simp only [horizontal_flip, file_of, rank_of, FILE_NB]; omega
  · intro hc s pc hs hpc
    have hms : horizontal_flip s < 81 := by
      simp only [horizontal_flip, file_of, rank_of, FILE_NB]; omega
    rw [make_board_index_val _ _ _ _ hms hpc hm, make_board_index_val _ _ _ _ hs hpc hk,
      orient_mirror perspective s ksq hs hk hc, KingBuckets_mirror perspective ksq hk]
  · intro bit h0 h1
    rw [make_hand_index_val _ _ _ h0 h1 hm, make_hand_index_val _ _ _ h0 h1 hk,
      KingBuckets_mirror perspective ksq hk]

/-- The mirror invariance for White with its king on square 10 (file 2), whose mirror image
is square 64 (file 8): piece code 17 on square 20, whose mirror image is square 56, and
hand bit 40. -/
theorem mirror_invariance_witness :
    make_board_index .WHITE 56 17 64 = make_board_index .WHITE 20 17 10 ∧
    make_hand_index .WHITE 40 64 = make_hand_index .WHITE 40 10 := by
  have h := mirror_invariance .WHITE 10 (by decide)
  exact ⟨h.2.1 (by decide) 20 17 (by decide) (by decide), h.2.2 40 (by decide) (by decide)⟩

end HalfKAv2_hm
/-- The length of a concatenation of lists that have one entry where `p` holds and none
elsewhere. -/
theorem length_flatMap_indicator (f : Nat → List Nat) (p : Nat → Bool) (l : List Nat)
    (h : ∀ i, (f i).length = if p i then 1 else 0) :
    (l.flatMap f).length = (l.filter p).length := by
  induction l with
  | nil => rfl
  | cons x xs ih =>
    rw [List.flatMap_cons, List.length_append, ih, h x, List.filter_cons]
    cases p x
    · simp
    · simp; omega

theorem HalfKAv2_hm.ka_changed_lengths (perspective : Color) (ksq : Nat) (dp : DirtyPiece)
    (i : Nat) :
    (HalfKAv2_hm.removed_of perspective ksq dp i).length = 1 ∧
    (HalfKAv2_hm.added_of perspective ksq dp i).length = 1 := by
  simp only [HalfKAv2_hm.removed_of, HalfKAv2_hm.added_of, HalfKAv2_hm.changed_step,
    List.nil_append]
  constructor
  · split <;> rfl
  · split
    · rfl
    · split <;> rfl

theorem HalfKP.kp_changed_lengths (T : HalfKP.Tables) (perspective : Color) (ksq : Nat)
    (dp : DirtyPiece) (i : Nat) :
    (HalfKP.removed_of T perspective ksq dp i).length
      = (if (type_of (dp.piece i) != KING) = true then 1 else 0) ∧
    (HalfKP.added_of T perspective ksq dp i).length
      = (if (type_of (dp.piece i) != KING) = true then 1 else 0) := by
  simp only [HalfKP.removed_of, HalfKP.added_of, HalfKP.changed_step, List.nil_append]
  by_cases hking : type_of (dp.piece i) = KING
  · simp [hking]
  · simp only [hking, if_false, bne_iff_ne, ne_eq, not_false_eq_true, if_true]
    constructor
    · split <;> rfl
    · split
      · rfl
      · split <;> rfl

/-- C32: balanced diff lists. For both schemes, both perspectives and every diff,
`append_changed_indices` keeps the prior contents of `removed` and of `added` and appends the
same number of indices to both: `dirty_num` for HalfKAv2_hm, and the number of entries among
the first `dirty_num` whose piece is not a king for HalfKP. -/
theorem changed_indices_balanced (T : HalfKP.Tables) (perspective : Color) (ksq : Nat)
    (dp : DirtyPiece) (removed added : List Nat) :
    (∃ r a : List Nat,
      HalfKAv2_hm.append_changed_indices perspective ksq dp removed added
        = (removed ++ r, added ++ a) ∧
      r.length = dp.dirty_num ∧ a.length = dp.dirty_num) ∧
    (∃ r a : List Nat,
      HalfKP.append_changed_indices T perspective ksq dp removed added
        = (removed ++ r, added ++ a) ∧
      r.length
        = ((List.range dp.dirty_num).filter (fun i => type_of (dp.piece i) != KING)).length ∧
      a.length
        = ((List.range dp.dirty_num).filter (fun i => type_of (dp.piece i) != KING)).length) := by
  constructor
  · refine ⟨_, _, HalfKAv2_hm.ka_append_changed_indices_eq perspective ksq dp removed added,
      ?_, ?_⟩
    · rw [length_flatMap_indicator _ (fun _ => true) _
        (fun i => by simp [(HalfKAv2_hm.ka_changed_lengths perspective ksq dp i).1])]
      simp
    · rw [length_flatMap_indicator _ (fun _ => true) _
        (fun i => by simp [(HalfKAv2_hm.ka_changed_lengths perspective ksq dp i).2])]
      simp
  · refine ⟨_, _, HalfKP.kp_append_changed_indices_eq T perspective ksq dp removed added,
      ?_, ?_⟩
    · exact length_flatMap_indicator _ _ _
        (fun i => (HalfKP.kp_changed_lengths T perspective ksq dp i).1)
    · exact length_flatMap_indicator _ _ _
        (fun i => (HalfKP.kp_changed_lengths T perspective ksq dp i).2)
namespace Network

/-- C33 at the failing input, the starting position, with the Black king on square 44 and the
White king on square 36: `trace_evaluate` records `correctBucket = 56`, whereas the bucket
`evaluate` selects is 6, with Black to move and with White to move; 56 is not below nine,
the number of values the bucket of `evaluate` can take. -/
theorem trace_bucket_differs :
    trace_evaluate_correctBucket (kings_at 44 36) = 56 ∧
    evaluate_bucket relative_rank .BLACK (kings_at 44 36) = 6 ∧
    evaluate_bucket relative_rank .WHITE (kings_at 44 36) = 6 ∧
    ¬ trace_evaluate_correctBucket (kings_at 44 36) < 9 := by
  decide

end Network
namespace Eval

/-- The function `Eval::evaluate` clamps the value it computed before. -/
theorem evaluate_eq_clamp (USE_OPTIMISM : Bool)
    (VALUE_TB_LOSS_IN_MAX_PLY VALUE_TB_WIN_IN_MAX_PLY psqt positional optimism : Int) :
    evaluate USE_OPTIMISM VALUE_TB_LOSS_IN_MAX_PLY VALUE_TB_WIN_IN_MAX_PLY
        psqt positional optimism
      = std_clamp (evaluate_unclamped USE_OPTIMISM psqt positional optimism)
          (int32 (VALUE_TB_LOSS_IN_MAX_PLY + 1)) (int32 (VALUE_TB_WIN_IN_MAX_PLY - 1)) :=
  rfl

/-- Without overflow the value before the clamp is the blend over the integers. -/
theorem evaluate_unclamped_eq (USE_OPTIMISM : Bool)
    (VALUE_TB_LOSS_IN_MAX_PLY VALUE_TB_WIN_IN_MAX_PLY psqt positional optimism : Int)
    (h : no_overflow USE_OPTIMISM VALUE_TB_LOSS_IN_MAX_PLY VALUE_TB_WIN_IN_MAX_PLY
      psqt positional optimism) :
    evaluate_unclamped USE_OPTIMISM psqt positional optimism
      = if USE_OPTIMISM then
          (Int.tdiv (125 * psqt + 131 * positional) 128
              - Int.tdiv (Int.tdiv (125 * psqt + 131 * positional) 128 * |psqt - positional|)
                  18000)
            + (optimism + Int.tdiv (optimism * |psqt - positional|) 468)
        else
          Int.tdiv (125 * psqt + 131 * positional) 128
            - Int.tdiv (Int.tdiv (125 * psqt + 131 * positional) 128 * |psqt - positional|)
                18000 := by
  obtain ⟨hlo, hhi, h1, h2, h3, h4, h5, h6, h7, hopt⟩ := h
  have hn := in_int32_tdiv _ 128 h3 (by decide)
  have hnc := in_int32_tdiv _ 18000 h6 (by decide)
  simp only [evaluate_unclamped]
  rw [int32_eq_self _ h1, int32_eq_self _ h2, int32_eq_self _ h3, int32_eq_self _ hn,
    int32_eq_self _ h4, std_abs_eq _ h5, int32_eq_self _ h6, int32_eq_self _ hnc,
    int32_eq_self _ h7]
  cases USE_OPTIMISM
  · simp
  · obtain ⟨h8, h9, h10⟩ := hopt rfl
    have hoc := in_int32_tdiv _ 468 h8 (by decide)
    rw [int32_eq_self _ h8, int32_eq_self _ hoc, int32_eq_self _ h9]
    simp only [if_true]
    rw [int32_eq_self _ h10]

theorem std_clamp_neg (v hi : Int) (h : -hi ≤ hi) :
    std_clamp (-v) (-hi) hi = -std_clamp v (-hi) hi := by
  simp only [std_clamp]
  split_ifs <;> omega

/-- C34: odd symmetry of the blend. For all psqt, positional and optimism for which no
operation of the two evaluations overflows `int` arithmetic, the value `Eval::evaluate`
computes before clamping for the negated inputs is the negation of the value it computes for
the inputs; hence, when `VALUE_TB_LOSS_IN_MAX_PLY = -VALUE_TB_WIN_IN_MAX_PLY` (and the lower
clamp bound is not above the upper one, as `std::clamp` requires), the returned score for the
negated inputs is the negation of the returned score. -/
theorem blend_odd_symmetry (USE_OPTIMISM : Bool)
    (VALUE_TB_LOSS_IN_MAX_PLY VALUE_TB_WIN_IN_MAX_PLY psqt positional optimism : Int)
    (h : no_overflow USE_OPTIMISM VALUE_TB_LOSS_IN_MAX_PLY VALUE_TB_WIN_IN_MAX_PLY
      psqt positional optimism)
    (hneg : no_overflow USE_OPTIMISM VALUE_TB_LOSS_IN_MAX_PLY VALUE_TB_WIN_IN_MAX_PLY
      (-psqt) (-positional) (-optimism)) :
    evaluate_unclamped USE_OPTIMISM (-psqt) (-positional) (-optimism)
      = -evaluate_unclamped USE_OPTIMISM psqt positional optimism ∧
    (VALUE_TB_LOSS_IN_MAX_PLY = -VALUE_TB_WIN_IN_MAX_PLY →
      VALUE_TB_LOSS_IN_MAX_PLY + 1 ≤ VALUE_TB_WIN_IN_MAX_PLY - 1 →
      evaluate USE_OPTIMISM VALUE_TB_LOSS_IN_MAX_PLY VALUE_TB_WIN_IN_MAX_PLY
          (-psqt) (-positional) (-optimism)
        = -evaluate USE_OPTIMISM VALUE_TB_LOSS_IN_MAX_PLY VALUE_TB_WIN_IN_MAX_PLY
            psqt positional optimism) := by
  have hodd : evaluate_unclamped USE_OPTIMISM (-psqt) (-positional) (-optimism)
      = -evaluate_unclamped USE_OPTIMISM psqt positional optimism := by
    rw [evaluate_unclamped_eq _ _ _ _ _ _ h, evaluate_unclamped_eq _ _ _ _ _ _ hneg]
    have e1 : 125 * -psqt + 131 * -positional = -(125 * psqt + 131 * positional) := by ring
    have e2 : |(-psqt) - (-positional)| = |psqt - positional| := by
      rw [← abs_neg (psqt - positional)]
      congr 1
      ring
    rw [e1, e2, Int.neg_tdiv, Int.neg_mul, Int.neg_tdiv, Int.neg_mul, Int.neg_tdiv]
    cases USE_OPTIMISM
    · simp only [Bool.false_eq_true, if_false]
      ring
    · simp only [if_true]
      ring
  refine ⟨hodd, ?_⟩
  intro hL hle
  rw [evaluate_eq_clamp, evaluate_eq_clamp, hodd, int32_eq_self _ h.1, int32_eq_self _ h.2.1]
  have e3 : VALUE_TB_LOSS_IN_MAX_PLY + 1 = -(VALUE_TB_WIN_IN_MAX_PLY - 1) := by omega
  rw [e3]
  exact std_clamp_neg _ _ (by omega)

/-- The odd symmetry at psqt = -500, positional = 300, optimism = -40 with the bounds
-31507 and 31507: the results are -281 and 281. -/
theorem blend_odd_symmetry_witness :
    evaluate_unclamped true 500 (-300) 40 = -evaluate_unclamped true (-500) 300 (-40) ∧
    evaluate true (-31507) 31507 500 (-300) 40 = 281 ∧
    evaluate true (-31507) 31507 (-500) 300 (-40) = -281 := by
  have h := blend_odd_symmetry true (-31507) 31507 (-500) 300 (-40)
    (by simp only [no_overflow, in_int32]; decide)
    (by simp only [no_overflow, in_int32]; decide)
  exact ⟨h.1, by decide, by decide⟩

end Eval

namespace Eval

/-- Why the hypothesis covers both evaluations: at psqt = positional = -8388608 no operation
of the evaluation overflows, the sum `125 * psqt + 131 * positional` being the least `int`,
but the evaluation of the negated inputs overflows at that sum, and with the wrapped sum its
value before the clamp is the same, not the negation. -/
theorem negated_inputs_may_overflow :
    no_overflow false (-31507) 31507 (-8388608) (-8388608) 0 ∧
    ¬ no_overflow false (-31507) 31507 8388608 8388608 0 ∧
    evaluate_unclamped false (-8388608) (-8388608) 0 = -16777216 ∧
    evaluate_unclamped false 8388608 8388608 0 = -16777216 := by
  refine ⟨by simp only [no_overflow, in_int32]; decide,
    by simp only [no_overflow, in_int32]; decide, by decide, by decide⟩

end Eval

end YaneuraOu
